import Mathlib

set_option maxHeartbeats 1000000

/- Shallow embedding of the buddy allocator (kernel/buddy.c) and the slab
   allocator (kernel/slab.c).  Machine integers are modelled as Nat/Int with
   explicit wrap-around (mod 2^64 / mod 2^32) where the C arithmetic can
   overflow; pointers are Nat addresses with 0 playing the role of NULL.
   Object memory contents (the embedded free-list words written by
   build_free_list, constructor/destructor effects) are not modelled: the C
   code never reads those words back (kmem_cache_alloc re-derives next_free
   by a bitmap scan), and no claim depends on object bytes.  The buddy
   backing of slabs is abstracted in the structural slab model as an
   explicit fresh base-address argument; the buddy allocator itself is
   modelled separately below, faithfully to buddy.c. -/

/-- ALIGN8 from slab.c: `(x + 7) & ~7UL`, i.e. round up to a multiple of 8. -/
def align8 (x : Nat) : Nat := ((x + 7) / 8) * 8

/-- BLOCK_SIZE (= PAGE_SIZE = 4096) from slab.h / buddy.h. -/
def BLOCK_SIZE : Nat := 4096

/-- Size of `struct slab_s` on the 64-bit RISC-V target: cache pointer (8) +
    bitmap pointer (8) + free_count (4) + order (4) + next_free (4) +
    padding (4) + next pointer (8) = 40 bytes. -/
def SIZEOF_SLAB_T : Nat := 40

/-- The decrement loop inside `compute_obj_per_slab` (slab.c:53-59):
    starting from a candidate object count, decrease until the slab header,
    bitmap and objects fit in `total` bytes. -/
def adjust_obj_count (obj_size total : Nat) : Nat → Nat
  | 0 => 0
  | n + 1 =>
    if align8 (SIZEOF_SLAB_T + ((n + 1) + 7) / 8) + (n + 1) * obj_size ≤ total then n + 1
    else adjust_obj_count obj_size total n

/-- compute_obj_per_slab (slab.c:45-61): number of objects of size
    `obj_size` fitting in a slab of buddy order `order`. -/
def compute_obj_per_slab (obj_size order : Nat) : Nat :=
  let total := BLOCK_SIZE * 2 ^ order
  let hdr := align8 SIZEOF_SLAB_T
  adjust_obj_count obj_size total ((total - hdr) / obj_size)

/-- choose_slab_order (slab.c:67-80): smallest order 0..10 fitting at least
    MIN_OBJS_PER_SLAB = 4 objects, else smallest order 0..14 fitting at
    least 1 object, else 0. -/
def choose_slab_order (obj_size : Nat) : Nat :=
  match (List.range 11).find? (fun o => 4 ≤ compute_obj_per_slab obj_size o) with
  | some o => o
  | none =>
    match (List.range 15).find? (fun o => 1 ≤ compute_obj_per_slab obj_size o) with
    | some o => o
    | none => 0

/-- State of one slab (struct slab_s).  `cache_id` models the `cache`
    back-pointer (pointer identity of the owning cache); `bitmap` is the
    inuse bitmap as a list of bits (`true` = bit set = slot allocated);
    the intrusive `next` pointer is modelled by the position of the slab's
    base address in the cache's list-of-addresses fields. -/
structure SlabS where
  cache_id : Nat
  bitmap : List Bool
  free_count : Int
  order : Nat
  next_free : Int
deriving DecidableEq, Repr

/-- State of one cache (struct kmem_cache_s).  `id` models the cache's
    pointer identity.  The three intrusive slab lists hold slab base
    addresses; `slabs` is the memory holding slab headers, keyed by base
    address.  The name string and the ctor/dtor function pointers are
    omitted: ctor/dtor only write object bytes, which are not modelled and
    which no claim depends on. -/
structure CacheS where
  id : Nat
  obj_size : Nat
  obj_per_slab : Nat
  slab_order : Nat
  part_slabs : List Nat
  full_slabs : List Nat
  free_slabs : List Nat
  slabs : List (Nat × SlabS)
  slab_count : Int
  total_objs : Int
  free_objs : Int
  grown_since_shrink : Bool
  error : Nat
  color_max : Nat
  color_next : Nat
  alloc_count : Nat
  free_count_total : Nat
deriving DecidableEq, Repr

/-- Reading the slab header stored at base address `b` (dereferencing a
    slab_t pointer). -/
def findS : List (Nat × SlabS) → Nat → Option SlabS
  | [], _ => none
  | (k, s) :: t, b => if k = b then some s else findS t b

/-- Writing the slab header stored at base address `b`. -/
def setS : List (Nat × SlabS) → Nat → SlabS → List (Nat × SlabS)
  | [], b, s => [(b, s)]
  | (k, s0) :: t, b, s => if k = b then (b, s) :: t else (k, s0) :: setS t b s

/-- Releasing the slab memory at base address `b` back to the buddy. -/
def removeS : List (Nat × SlabS) → Nat → List (Nat × SlabS)
  | [], _ => []
  | (k, s0) :: t, b => if k = b then t else (k, s0) :: removeS t b

/-- The unlink loops in kmem_cache_free (slab.c:438-441, 448-452): walk a
    slab list and unlink the first occurrence of `b` (no-op if absent). -/
def removeFirst : List Nat → Nat → List Nat
  | [], _ => []
  | k :: t, b => if k = b then t else k :: removeFirst t b

/-- slab_obj_start (slab.c:37-43): address of object slot 0 of the slab
    based at `b` in a cache with `n` objects per slab:
    ALIGN8(base + sizeof(slab_t) + bitmap_bytes). -/
def slab_obj_start (b n : Nat) : Nat := align8 (b + SIZEOF_SLAB_T + (n + 7) / 8)

/-- C cast of a uint64 value to int (two's-complement wrap to 32 bits, as
    on the RISC-V target). -/
def toInt32 (v : Nat) : Int :=
  if v % 2 ^ 32 < 2 ^ 31 then ((v % 2 ^ 32 : Nat) : Int)
  else ((v % 2 ^ 32 : Nat) : Int) - 2 ^ 32

/-- The index computation in kmem_cache_free (slab.c:410):
    `(int)(((uint64)objp - (uint64)obj_base) / obj_size)`, with uint64
    wrap-around subtraction and the final int cast. -/
def idxFromPtr (p ob size : Nat) : Int :=
  toInt32 ((p % 2 ^ 64 + 2 ^ 64 - ob % 2 ^ 64) % 2 ^ 64 / size)

/-- alloc_slab (slab.c:102-143): obtain a fresh slab region (the buddy call
    is abstracted: `fresh` is the base address the backing allocator
    returns, and in this structural model it always succeeds), initialise
    header and bitmap, build the embedded free list (observable only
    through `next_free = 0`), and bump the cache counters.  Note the code
    never reads or advances `color_next` here. -/
def alloc_slab (fresh : Nat) (st : CacheS) : CacheS × Nat :=
  let n := st.obj_per_slab
  let slab : SlabS :=
    { cache_id := st.id
      bitmap := List.replicate n false
      free_count := (n : Int)
      order := st.slab_order
      next_free := 0 }
  ({ st with
      slabs := setS st.slabs fresh slab
      slab_count := st.slab_count + 1
      total_objs := st.total_objs + (n : Int)
      free_objs := st.free_objs + (n : Int)
      grown_since_shrink := true }, fresh)

/-- kmem_cache_create (slab.c:226-292) for a cache with pointer identity
    `id`: reject size 0, align the object size to 8, choose the slab order
    and object count (rejecting a zero count), and compute the coloring
    parameters.  The descriptor allocation from the buddy is abstracted as
    always succeeding; name copying and ctor/dtor are omitted (see CacheS). -/
def kmem_cache_create (id size : Nat) : Option CacheS :=
  if size = 0 then none
  else
    let aligned := align8 size
    let ord := choose_slab_order aligned
    let n := compute_obj_per_slab aligned ord
    if n = 0 then none
    else
      let slab_bytes := BLOCK_SIZE * 2 ^ ord
      let overhead := align8 (SIZEOF_SLAB_T + (n + 7) / 8)
      let used := overhead + n * aligned
      let waste := slab_bytes - used
      some
        { id := id, obj_size := aligned, obj_per_slab := n, slab_order := ord
          part_slabs := [], full_slabs := [], free_slabs := [], slabs := []
          slab_count := 0, total_objs := 0, free_objs := 0
          grown_since_shrink := false, error := 0
          color_max := waste / 8, color_next := 0
          alloc_count := 0, free_count_total := 0 }

/-- The two bitmap scans in kmem_cache_alloc (slab.c:352-366): first clear
    bit in `[lo, hi)` of the bitmap (`true` = set). -/
def scanClear (bm : List Bool) (lo hi : Nat) : Option Nat :=
  (List.range' lo (hi - lo)).find? (fun j => bm.getD j true = false)

/-- Recompute `next_free` after allocating slot `i` (slab.c:352-366): scan
    `[i+1, n)`, then `[0, i)`, else −1. -/
def findNextFree (bm : List Bool) (n i : Nat) : Int :=
  match scanClear bm (i + 1) n with
  | some j => (j : Int)
  | none =>
    match scanClear bm 0 i with
    | some j => (j : Int)
    | none => -1

/-- Slab selection in kmem_cache_alloc (slab.c:305-327): prefer the head
    of the partial list, else move the head free slab to partial, else
    grow via alloc_slab and install the new slab on partial. -/
def alloc_pick (fresh : Nat) (st : CacheS) : CacheS × Nat :=
  match st.part_slabs with
  | b :: _ => (st, b)
  | [] =>
    match st.free_slabs with
    | b :: rest =>
      ({ st with free_slabs := rest, part_slabs := b :: st.part_slabs }, b)
    | [] =>
      let g := alloc_slab fresh st
      ({ g.1 with part_slabs := g.2 :: g.1.part_slabs }, g.2)

/-- The allocation body of kmem_cache_alloc (slab.c:329-376), acting on
    the slab whose base address is `b` (the head of the partial list):
    validate the next_free index (error 2 when out of range), set its
    bitmap bit, adjust counters, rescan the bitmap for the next free slot,
    and move the slab to the full list when it fills up. -/
def alloc_inner (st1 : CacheS) (b : Nat) : CacheS × Nat :=
  match findS st1.slabs b with
  | none => (st1, 0)  -- dangling slab pointer: unreachable in states built by this API
  | some s =>
    let i := s.next_free
    if i < 0 ∨ (st1.obj_per_slab : Int) ≤ i then ({ st1 with error := 2 }, 0)
    else
      let i0 := i.toNat
      let obj := slab_obj_start b st1.obj_per_slab + i0 * st1.obj_size
      let bm := s.bitmap.set i0 true
      let s1 : SlabS :=
        { s with
            bitmap := bm
            free_count := s.free_count - 1
            next_free := findNextFree bm st1.obj_per_slab i0 }
      let st2 :=
        { st1 with
            slabs := setS st1.slabs b s1
            free_objs := st1.free_objs - 1
            alloc_count := st1.alloc_count + 1 }
      if s1.free_count = 0 then
        ({ st2 with part_slabs := st2.part_slabs.tail, full_slabs := b :: st2.full_slabs }, obj)
      else (st2, obj)

/-- kmem_cache_alloc (slab.c:298-377).  `fresh` is the base address the
    buddy would return if a new slab must be created (the C null-cache
    guard has no counterpart: the model passes the cache by value).
    Returns the new cache state and the object address (0 = NULL). -/
def kmem_cache_alloc (fresh : Nat) (st : CacheS) : CacheS × Nat :=
  alloc_inner (alloc_pick fresh st).1 (alloc_pick fresh st).2

/-- kmem_cache_free (slab.c:392-459): O(1) slab lookup by masking the
    object address down to the slab size, cache-identity check (error 3),
    index computation and validation (error 4: out of range or bit already
    clear, i.e. double free), then clear the bit, bump counters, refresh
    the `next_free` hint, and relist the slab.  When the masked address is
    not a slab base the C code reads unrelated memory; the model treats the
    header it finds as not matching this cache (error 3), which is the
    behaviour on any concrete memory whose bytes there do not spell this
    cache's address. -/
def kmem_cache_free (st : CacheS) (p : Nat) : CacheS :=
  if p = 0 then st
  else
    let sz := BLOCK_SIZE * 2 ^ st.slab_order
    let base := p - p % sz
    match findS st.slabs base with
    | none => { st with error := 3 }
    | some s =>
      if s.cache_id ≠ st.id then { st with error := 3 }
      else
        let ob := slab_obj_start base st.obj_per_slab
        let idx := idxFromPtr p ob st.obj_size
        if idx < 0 ∨ (st.obj_per_slab : Int) ≤ idx ∨ s.bitmap.getD idx.toNat true = false then
          { st with error := 4 }
        else
          let i0 := idx.toNat
          let wasFull := s.free_count = 0
          let s1 : SlabS :=
            { s with
                bitmap := s.bitmap.set i0 false
                free_count := s.free_count + 1
                next_free := if s.next_free < 0 ∨ idx < s.next_free then idx else s.next_free }
          let st1 :=
            { st with
                slabs := setS st.slabs base s1
                free_objs := st.free_objs + 1
                free_count_total := st.free_count_total + 1 }
          if s1.free_count = (st.obj_per_slab : Int) then
            { st1 with
                part_slabs := removeFirst st1.part_slabs base
                free_slabs := base :: st1.free_slabs }
          else if wasFull then
            { st1 with
                full_slabs := removeFirst st1.full_slabs base
                part_slabs := base :: st1.part_slabs }
          else st1

/-- The drain loop of kmem_cache_shrink (slab.c:481-486) together with
    free_empty_slab (slab.c:169-189): pop each wholly-free slab, adjust the
    counters, release its memory, and accumulate `1 << order` pages. -/
def shrink_go : List Nat → CacheS → Nat → CacheS × Nat
  | [], st, acc => (st, acc)
  | b :: rest, st, acc =>
    match findS st.slabs b with
    | some s =>
      shrink_go rest
        { st with
            slabs := removeS st.slabs b
            slab_count := st.slab_count - 1
            total_objs := st.total_objs - (st.obj_per_slab : Int)
            free_objs := st.free_objs - s.free_count }
        (acc + 2 ^ s.order)
    | none => shrink_go rest st acc  -- dangling pointer: unreachable via this API

/-- kmem_cache_shrink (slab.c:465-490): if the cache grew since the last
    shrink, clear the flag and return 0; otherwise return every slab on
    the free list to the buddy and return the accumulated page count. -/
def kmem_cache_shrink (st : CacheS) : CacheS × Nat :=
  if st.grown_since_shrink then ({ st with grown_since_shrink := false }, 0)
  else shrink_go st.free_slabs { st with free_slabs := [] } 0

/-- kmem_cache_error (slab.c:579-591): return the cache's current error
    code (printing a diagnostic when nonzero, which the model ignores).
    The code never resets `cache->error`. -/
def kmem_cache_error (st : CacheS) : Nat × CacheS := (st.error, st)

/- ============================================================ -/
/- Claim C1 -/
/- ============================================================ -/

/-- The cache used in the C1 run: object size 2 MiB, which forces the
    fallback branch of choose_slab_order and yields obj_per_slab = 1. -/
def c1_cache : Option CacheS := kmem_cache_create 0 2097152

/-- One alloc followed by one free on the obj_per_slab = 1 cache; report
    the full and free slab lists. -/
def c1_run : Option (List Nat × List Nat) :=
  match c1_cache with
  | none => none
  | some c0 =>
    let a := kmem_cache_alloc 0 c0
    let st2 := kmem_cache_free a.1 a.2
    some (st2.full_slabs, st2.free_slabs)

/-- C1: the slab-list exclusivity invariant fails on a cache with
    obj_per_slab = 1. After a single kmem_cache_alloc (slab goes to the
    full list) and a single kmem_cache_free (free_count jumps 0 →
    obj_per_slab, so the code takes the wholly-free branch, which unlinks
    only from the partial list), the slab's base address (0) sits on the
    full list and the free list simultaneously, while the claim demands
    exactly one list. -/
theorem c1_slab_on_two_lists : c1_run = some ([0], [0]) := by decide

/- ============================================================ -/
/- Claim C7 -/
/- ============================================================ -/

/-- Sequentially run kmem_cache_alloc with the given fresh base addresses,
    collecting the returned object pointers. -/
def allocMany : List Nat → CacheS → CacheS × List Nat
  | [], st => (st, [])
  | f :: fs, st =>
    let a := kmem_cache_alloc f st
    let r := allocMany fs a.1
    (r.1, a.2 :: r.2)

/-- The C7 run: a size-1024 cache (slab order 1, 7 objects per slab,
    color_max = 122 > 0); eight allocations force creation of a second
    slab (bases 0 and 8192). -/
def c7_run : Option (Nat × Nat × Nat × Nat) :=
  match kmem_cache_create 0 1024 with
  | none => none
  | some c0 =>
    let r := allocMany [0, 0, 0, 0, 0, 0, 0, 8192] c0
    match r.2.head?, r.2.getLast? with
    | some p1, some p8 => some (r.1.color_max, r.1.color_next, p1, p8 - 8192)
    | _, _ => none

/-- C7: slab coloring is computed but never applied.  On a cache with
    color_max = 122 > 0, after two consecutive slab creations color_next
    is still 0 (the claim requires it to have advanced to 2 mod
    (color_max + 1)), and both slabs place their object array at the same
    offset 48 from the slab base (first object pointers 48 and
    8192 + 48) — alloc_slab never reads color_next, so consecutive slabs
    do not receive different color offsets. -/
theorem c7_color_never_applied : c7_run = some (122, 0, 48, 48) := by decide

/- ============================================================ -/
/- Claim C4 -/
/- ============================================================ -/

/-- The C4 run up to the state right before the first shrink: create a
    size-1024 cache, allocate one object (this creates a slab, setting
    grown_since_shrink), free it (the slab becomes wholly free). -/
def c4_st2 : CacheS :=
  (match kmem_cache_create 0 1024 with
   | none => none
   | some c0 =>
     let a := kmem_cache_alloc 0 c0
     some (kmem_cache_free a.1 a.2)).getD
    { id := 0, obj_size := 0, obj_per_slab := 0, slab_order := 0
      part_slabs := [], full_slabs := [], free_slabs := [], slabs := []
      slab_count := 0, total_objs := 0, free_objs := 0
      grown_since_shrink := false, error := 0, color_max := 0, color_next := 0
      alloc_count := 0, free_count_total := 0 }

/-- State after the first kmem_cache_shrink of the C4 run. -/
def c4_st3 : CacheS := (kmem_cache_shrink c4_st2).1

/-- C4 counterexample: after an alloc-and-free batch that left a wholly
    free slab (free_slabs = [0]), the next kmem_cache_shrink returns 0,
    not a positive page count, because the batch grew the cache and
    grown_since_shrink is set. -/
theorem c4_first_shrink_returns_zero :
    c4_st2.free_slabs = [0] ∧ c4_st2.grown_since_shrink = true ∧
      (kmem_cache_shrink c4_st2).2 = 0 := by decide

/-- shrink_go never touches the free list field it is drained from, nor
    the grown_since_shrink flag. -/
theorem shrink_go_fields (l : List Nat) (st : CacheS) (acc : Nat) :
    (shrink_go l st acc).1.free_slabs = st.free_slabs ∧
      (shrink_go l st acc).1.grown_since_shrink = st.grown_since_shrink := by
  induction l generalizing st acc with
  | nil => exact ⟨rfl, rfl⟩
  | cons b rest ih =>
    simp only [shrink_go]
    cases findS st.slabs b with
    | none => exact ih st acc
    | some s => exact ih _ _

/-- The accumulator of shrink_go only grows. -/
theorem shrink_go_acc_le (l : List Nat) (st : CacheS) (acc : Nat) :
    acc ≤ (shrink_go l st acc).2 := by
  induction l generalizing st acc with
  | nil => exact Nat.le_refl acc
  | cons b rest ih =>
    simp only [shrink_go]
    cases findS st.slabs b with
    | none => exact ih st acc
    | some s =>
      exact Nat.le_trans (Nat.le_add_right acc (2 ^ s.order)) (ih _ _)

/-- Overwriting the free-list field with its own (empty) value is the
    identity on cache states. -/
theorem cacheS_set_free_nil (st : CacheS) (h : st.free_slabs = []) :
    ({ st with free_slabs := [] } : CacheS) = st := by
  cases st; simp_all

/-- On a cache that has not grown and whose free list is empty,
    kmem_cache_shrink is the identity and returns 0. -/
theorem shrink_of_clean (st : CacheS) (hg : st.grown_since_shrink = false)
    (hf : st.free_slabs = []) : kmem_cache_shrink st = (st, 0) := by
  rw [kmem_cache_shrink, if_neg (by simp [hg]), hf, cacheS_set_free_nil st hf, shrink_go]

/-- C4 (amended): kmem_cache_shrink returns 0 immediately — resetting the
    flag — whenever grown_since_shrink is set (in particular the first
    shrink after a batch that grew the cache returns 0, not a positive
    count); when grown_since_shrink is clear it drains the free list and
    returns the accumulated page count, which is positive as soon as the
    free list holds at least one slab, and an immediately following shrink
    with no intervening allocation returns 0. -/
theorem c4_shrink_gating (st : CacheS) :
    (st.grown_since_shrink = true →
      kmem_cache_shrink st = ({ st with grown_since_shrink := false }, 0)) ∧
    (∀ b rest, st.grown_since_shrink = false → st.free_slabs = b :: rest →
      (findS st.slabs b).isSome = true →
      0 < (kmem_cache_shrink st).2 ∧
        (kmem_cache_shrink st).1.free_slabs = [] ∧
        kmem_cache_shrink (kmem_cache_shrink st).1 = ((kmem_cache_shrink st).1, 0)) := by
  constructor
  · intro hg
    simp [kmem_cache_shrink, hg]
  · intro b rest hg hfree hsome
    have hshr : kmem_cache_shrink st = shrink_go st.free_slabs { st with free_slabs := [] } 0 := by
      simp [kmem_cache_shrink, hg]
    have hfields := shrink_go_fields st.free_slabs { st with free_slabs := [] } 0
    refine ⟨?_, ?_, ?_⟩
    · rw [hshr, hfree]
      simp only [shrink_go]
      cases hfs : findS ({ st with free_slabs := ([] : List Nat) } : CacheS).slabs b with
      | none =>
        rw [hfs] at hsome
        simp [findS] at hsome
      | some s =>
        have := shrink_go_acc_le rest
          { { st with free_slabs := [] } with
              slabs := removeS ({ st with free_slabs := ([] : List Nat) } : CacheS).slabs b
              slab_count := ({ st with free_slabs := ([] : List Nat) } : CacheS).slab_count - 1
              total_objs := ({ st with free_slabs := ([] : List Nat) } : CacheS).total_objs -
                (({ st with free_slabs := ([] : List Nat) } : CacheS).obj_per_slab : Int)
              free_objs := ({ st with free_slabs := ([] : List Nat) } : CacheS).free_objs -
                s.free_count }
          (0 + 2 ^ s.order)
        have hpow : 0 < 0 + 2 ^ s.order := by positivity
        exact Nat.lt_of_lt_of_le hpow this
    · rw [hshr]; exact hfields.1
    · have h1 : (kmem_cache_shrink st).1.grown_since_shrink = false := by
        rw [hshr]
        exact hfields.2.trans hg
      have h2 : (kmem_cache_shrink st).1.free_slabs = [] := by
        rw [hshr]; exact hfields.1
      exact shrink_of_clean _ h1 h2

/-- C4 witness: applying the amended shrink theorem to the concrete state
    c4_st3 (the C4 run after the first shrink reset the growth flag): the
    next shrink returns a positive page count, empties the free list, and
    an immediately following shrink returns 0. -/
theorem c4_shrink_gating_witness :
    0 < (kmem_cache_shrink c4_st3).2 ∧
      (kmem_cache_shrink c4_st3).1.free_slabs = [] ∧
      kmem_cache_shrink (kmem_cache_shrink c4_st3).1 = ((kmem_cache_shrink c4_st3).1, 0) :=
  (c4_shrink_gating c4_st3).2 0 [] (by decide) (by decide) (by decide)

/- ============================================================ -/
/- Claim C5 -/
/- ============================================================ -/

/-- C5: faulting kmem_cache_free calls are no-ops apart from the error
    code.  If the slab header found by aligning the pointer down to the
    slab size names a different cache, the result is the input state with
    error := 3; if the computed object index is out of range or its bitmap
    bit is already clear (double free), the result is the input state with
    error := 4.  In both cases no bitmap, free_count, cache counter or
    slab list changes. -/
theorem c5_fault_is_noop (st : CacheS) (p : Nat) (s : SlabS)
    (hp : p ≠ 0)
    (hfind : findS st.slabs (p - p % (BLOCK_SIZE * 2 ^ st.slab_order)) = some s) :
    (s.cache_id ≠ st.id → kmem_cache_free st p = { st with error := 3 }) ∧
    (s.cache_id = st.id →
      (idxFromPtr p
          (slab_obj_start (p - p % (BLOCK_SIZE * 2 ^ st.slab_order)) st.obj_per_slab)
          st.obj_size < 0 ∨
        (st.obj_per_slab : Int) ≤
          idxFromPtr p
            (slab_obj_start (p - p % (BLOCK_SIZE * 2 ^ st.slab_order)) st.obj_per_slab)
            st.obj_size ∨
        s.bitmap.getD
            (idxFromPtr p
              (slab_obj_start (p - p % (BLOCK_SIZE * 2 ^ st.slab_order)) st.obj_per_slab)
              st.obj_size).toNat true = false) →
      kmem_cache_free st p = { st with error := 4 }) := by
  constructor
  · intro hne
    simp only [kmem_cache_free, if_neg hp, hfind, if_pos hne]
  · intro heq hfault
    simp only [kmem_cache_free, if_neg hp, hfind]
    rw [if_neg (by simp [heq]), if_pos hfault]

/-- C5 witness: on the concrete size-1024 cache state in which object 48
    was allocated and already freed, freeing 48 again is a double free:
    the state is unchanged except error := 4. -/
theorem c5_fault_is_noop_witness :
    kmem_cache_free c4_st2 48 = { c4_st2 with error := 4 } :=
  (c5_fault_is_noop c4_st2 48
      { cache_id := 0, bitmap := List.replicate 7 false, free_count := 7
        order := 1, next_free := 0 }
      (by decide) (by decide)).2 (by decide) (by decide)

/- ============================================================ -/
/- Claim C6 -/
/- ============================================================ -/

/-- State with a recorded structural fault: the C4/C5 run state after a
    double free, whose error code is 4. -/
def c6_state : CacheS := kmem_cache_free c4_st2 48

/-- C6 counterexample: kmem_cache_error is not a clear-read.  On a cache
    whose error code is 4, the first call returns 4 and the immediately
    following call with no intervening operation returns 4 again, not 0 —
    the code never resets cache->error. -/
theorem c6_error_not_cleared :
    (kmem_cache_error c6_state).1 = 4 ∧
      (kmem_cache_error (kmem_cache_error c6_state).2).1 = 4 := by decide

/-- C6 (amended): kmem_cache_error returns the cache's current error code
    and leaves the state unchanged, so an immediately following call with
    no intervening faulting operation returns the same code (it is a plain
    read, not a clear-read). -/
theorem c6_error_read_only (st : CacheS) :
    (kmem_cache_error st).1 = st.error ∧
      kmem_cache_error (kmem_cache_error st).2 = kmem_cache_error st :=
  ⟨rfl, rfl⟩

/- ============================================================ -/
/- Claim C9 -/
/- ============================================================ -/

/-- Population count of a bitmap: number of set bits. -/
def popcount : List Bool → Nat
  | [] => 0
  | b :: t => (if b then 1 else 0) + popcount t

theorem popcount_replicate_false (n : Nat) : popcount (List.replicate n false) = 0 := by
  induction n with
  | zero => rfl
  | succ m ih => simpa [List.replicate, popcount] using ih

theorem getD_set_self (l : List Bool) (i : Nat) (a d : Bool) (h : i < l.length) :
    (l.set i a).getD i d = a := by
  induction l generalizing i with
  | nil => simp at h
  | cons hd t ih =>
    cases i with
    | zero => simp
    | succ m =>
      simp only [List.set_cons_succ, List.getD_cons_succ]
      exact ih m (by simpa using h)

theorem getD_set_ne (l : List Bool) (i j : Nat) (a d : Bool) (h : j ≠ i) :
    (l.set i a).getD j d = l.getD j d := by
  induction l generalizing i j with
  | nil => simp
  | cons hd t ih =>
    cases i with
    | zero =>
      cases j with
      | zero => exact absurd rfl h
      | succ m => simp
    | succ m =>
      cases j with
      | zero => simp
      | succ r =>
        simp only [List.set_cons_succ, List.getD_cons_succ]
        exact ih m r (fun hh => h (by rw [hh]))

theorem getD_replicate_false (n j : Nat) (h : j < n) :
    (List.replicate n false).getD j true = false := by
  induction n generalizing j with
  | zero => omega
  | succ m ih =>
    cases j with
    | zero => simp [List.replicate]
    | succ r =>
      simp only [List.replicate, List.getD_cons_succ]
      exact ih r (by omega)

theorem popcount_set_true (l : List Bool) (i : Nat) (hlen : i < l.length)
    (h : l.getD i true = false) : popcount (l.set i true) = popcount l + 1 := by
  induction l generalizing i with
  | nil => simp at hlen
  | cons hd t ih =>
    cases i with
    | zero =>
      simp only [List.getD_cons_zero] at h
      subst h
      simp [popcount, Nat.add_comm]
    | succ m =>
      simp only [List.getD_cons_succ] at h
      simp only [List.set_cons_succ, popcount]
      rw [ih m (by simpa using hlen) h]
      omega

theorem popcount_set_false (l : List Bool) (i : Nat) (hlen : i < l.length)
    (h : l.getD i true = true) : popcount (l.set i false) + 1 = popcount l := by
  induction l generalizing i with
  | nil => simp at hlen
  | cons hd t ih =>
    cases i with
    | zero =>
      have hx : hd = true := by simpa using h
      subst hx
      simp [popcount, Nat.add_comm]
    | succ m =>
      simp only [List.getD_cons_succ] at h
      simp only [List.set_cons_succ, popcount]
      rw [← ih m (by simpa using hlen) h]
      omega

theorem setS_cons_self (k0 : Nat) (s0 v : SlabS) (t : List (Nat × SlabS)) :
    setS ((k0, s0) :: t) k0 v = (k0, v) :: t := by
  simp [setS]

theorem removeS_cons_self (k0 : Nat) (s0 : SlabS) (t : List (Nat × SlabS)) :
    removeS ((k0, s0) :: t) k0 = t := by
  simp [removeS]

theorem findS_setS (m : List (Nat × SlabS)) (k b : Nat) (v : SlabS) :
    findS (setS m k v) b = if b = k then some v else findS m b := by
  induction m with
  | nil =>
    by_cases hbk : b = k
    · subst hbk
      simp [setS, findS]
    · simp only [setS, findS, if_neg hbk]
      rw [if_neg (fun hh => hbk hh.symm)]
  | cons e t ih =>
    obtain ⟨k0, s0⟩ := e
    by_cases hk : k0 = k
    · subst hk
      by_cases hbk : b = k0
      · subst hbk
        simp [setS, findS]
      · simp only [setS, if_pos rfl, findS, if_neg hbk]
        rw [if_neg (fun hh => hbk hh.symm), if_neg (fun hh => hbk hh.symm)]
    · simp only [setS, if_neg hk, findS]
      by_cases hbk : k0 = b
      · subst hbk
        rw [if_pos rfl, if_pos rfl, if_neg (fun hh : k0 = k => hk hh)]
      · rw [if_neg hbk, if_neg hbk, ih]

theorem mem_keys_setS (m : List (Nat × SlabS)) (k x : Nat) (v : SlabS)
    (h : x ∈ (setS m k v).map Prod.fst) : x ∈ m.map Prod.fst ∨ x = k := by
  induction m with
  | nil =>
    right
    simpa [setS] using h
  | cons e t ih =>
    obtain ⟨k0, s0⟩ := e
    by_cases hk : k0 = k
    · subst hk
      rw [setS_cons_self, List.map_cons] at h
      rcases List.mem_cons.mp h with h | h
      · right; exact h
      · left
        rw [List.map_cons]
        exact List.mem_cons_of_mem _ h
    · simp only [setS, if_neg hk, List.map_cons, List.mem_cons] at h
      rcases h with h | h
      · left
        rw [List.map_cons, h]
        exact List.mem_cons_self _ _
      · rcases ih h with h2 | h2
        · left
          rw [List.map_cons]
          exact List.mem_cons_of_mem _ h2
        · right; exact h2

theorem nodup_keys_setS (m : List (Nat × SlabS)) (k : Nat) (v : SlabS)
    (h : (m.map Prod.fst).Nodup) : ((setS m k v).map Prod.fst).Nodup := by
  induction m with
  | nil => simp [setS]
  | cons e t ih =>
    obtain ⟨k0, s0⟩ := e
    simp only [List.map_cons, List.nodup_cons] at h
    by_cases hk : k0 = k
    · subst hk
      rw [setS_cons_self, List.map_cons, List.nodup_cons]
      exact h
    · simp only [setS, if_neg hk, List.map_cons, List.nodup_cons]
      refine ⟨?_, ih h.2⟩
      intro hc
      rcases mem_keys_setS t k k0 v hc with h2 | h2
      · exact h.1 h2
      · exact hk h2

theorem removeS_sublist (m : List (Nat × SlabS)) (k : Nat) :
    (removeS m k).Sublist m := by
  induction m with
  | nil => simp [removeS]
  | cons e t ih =>
    obtain ⟨k0, s0⟩ := e
    by_cases hk : k0 = k
    · simp only [removeS, if_pos hk]
      exact List.sublist_cons_self _ _
    · simp only [removeS, if_neg hk]
      exact List.Sublist.cons₂ (k0, s0) ih

theorem nodup_keys_removeS (m : List (Nat × SlabS)) (k : Nat)
    (h : (m.map Prod.fst).Nodup) : ((removeS m k).map Prod.fst).Nodup :=
  List.Nodup.sublist ((removeS_sublist m k).map Prod.fst) h

theorem findS_some_mem_keys (m : List (Nat × SlabS)) (b : Nat) (s : SlabS)
    (h : findS m b = some s) : b ∈ m.map Prod.fst := by
  induction m with
  | nil => simp [findS] at h
  | cons e t ih =>
    obtain ⟨k0, s0⟩ := e
    by_cases hk : k0 = b
    · rw [List.map_cons, hk]
      exact List.mem_cons_self _ _
    · simp only [findS, if_neg hk] at h
      rw [List.map_cons]
      exact List.mem_cons_of_mem _ (ih h)

theorem findS_removeS (m : List (Nat × SlabS)) (k b : Nat) (s : SlabS)
    (hnd : (m.map Prod.fst).Nodup)
    (h : findS (removeS m k) b = some s) : findS m b = some s := by
  induction m with
  | nil => simpa [removeS, findS] using h
  | cons e t ih =>
    obtain ⟨k0, s0⟩ := e
    simp only [List.map_cons, List.nodup_cons] at hnd
    by_cases hk : k0 = k
    · simp only [removeS, if_pos hk] at h
      have hbk : ¬k0 = b := by
        intro hh
        subst hh
        exact hnd.1 (findS_some_mem_keys t k0 s h)
      rw [findS, if_neg hbk]
      exact h
    · simp only [removeS, if_neg hk] at h
      by_cases hbk : k0 = b
      · rw [findS, if_pos hbk] at h
        rw [findS, if_pos hbk]
        exact h
      · rw [findS, if_neg hbk] at h
        rw [findS, if_neg hbk]
        exact ih hnd.2 h

/-- Per-slab invariant for a cache with `n` objects per slab: the bitmap
    has one bit per object, free_count counts the clear bits, and the
    next_free hint is −1 or the index of a clear bit. -/
def SlabInv (n : Nat) (s : SlabS) : Prop :=
  s.bitmap.length = n ∧
  s.free_count = (n : Int) - (popcount s.bitmap : Int) ∧
  (s.next_free = -1 ∨
    (0 ≤ s.next_free ∧ s.next_free < (n : Int) ∧
      s.bitmap.getD s.next_free.toNat true = false))

/-- Cache-level invariant: the cache holds at least one object per slab
    (guaranteed by kmem_cache_create), slab base addresses are distinct,
    and every slab satisfies SlabInv. -/
def InvC (st : CacheS) : Prop :=
  0 < st.obj_per_slab ∧
  (st.slabs.map Prod.fst).Nodup ∧
  ∀ b s, findS st.slabs b = some s → SlabInv st.obj_per_slab s

/-- States reachable through the public cache API, starting from any
    successful kmem_cache_create and applying kmem_cache_alloc (with any
    backing base address), kmem_cache_free (with any pointer),
    kmem_cache_shrink and kmem_cache_error in any order. -/
inductive ReachS : CacheS → Prop
  | create (id size : Nat) (st : CacheS) (h : kmem_cache_create id size = some st) :
      ReachS st
  | alloc (st : CacheS) (fresh : Nat) (h : ReachS st) :
      ReachS (kmem_cache_alloc fresh st).1
  | free (st : CacheS) (p : Nat) (h : ReachS st) : ReachS (kmem_cache_free st p)
  | shrink (st : CacheS) (h : ReachS st) : ReachS (kmem_cache_shrink st).1
  | error_read (st : CacheS) (h : ReachS st) : ReachS (kmem_cache_error st).2

theorem scanClear_some (bm : List Bool) (lo hi j : Nat)
    (h : scanClear bm lo hi = some j) :
    lo ≤ j ∧ j < hi ∧ bm.getD j true = false := by
  have hmem : j ∈ List.range' lo (hi - lo) := List.mem_of_find?_eq_some h
  have hbounds := List.mem_range'_1.mp hmem
  have hp := List.find?_some h
  refine ⟨hbounds.1, by omega, ?_⟩
  exact of_decide_eq_true hp

theorem findNextFree_valid (bm : List Bool) (n i : Nat) (hi : i < n) :
    findNextFree bm n i = -1 ∨
      (0 ≤ findNextFree bm n i ∧ findNextFree bm n i < (n : Int) ∧
        bm.getD (findNextFree bm n i).toNat true = false) := by
  unfold findNextFree
  cases h1 : scanClear bm (i + 1) n with
  | some j =>
    simp only [h1]
    right
    obtain ⟨hlo, hhi, hbit⟩ := scanClear_some bm (i + 1) n j h1
    refine ⟨Int.natCast_nonneg j, by exact_mod_cast hhi, by simpa using hbit⟩
  | none =>
    simp only [h1]
    cases h2 : scanClear bm 0 i with
    | some j =>
      simp only [h2]
      right
      obtain ⟨hlo, hhi, hbit⟩ := scanClear_some bm 0 i j h2
      refine ⟨Int.natCast_nonneg j, by exact_mod_cast (show j < n by omega),
        by simpa using hbit⟩
    | none =>
      simp only [h2]
      left
      trivial

theorem invC_create (id size : Nat) (st : CacheS)
    (h : kmem_cache_create id size = some st) : InvC st := by
  simp only [kmem_cache_create] at h
  by_cases hsz : size = 0
  · rw [if_pos hsz] at h
    simp at h
  · rw [if_neg hsz] at h
    by_cases hn : compute_obj_per_slab (align8 size) (choose_slab_order (align8 size)) = 0
    · rw [if_pos hn] at h
      simp at h
    · rw [if_neg hn] at h
      injection h with h2
      subst h2
      refine ⟨Nat.pos_of_ne_zero hn, by simp, ?_⟩
      intro b s hf
      simp [findS] at hf

/-- Transfer of the cache invariant to any state whose slab memory is an
    update of an invariant-satisfying state with an invariant-satisfying
    slab. -/
theorem invC_update (st1 : CacheS) (b : Nat) (s1 : SlabS) (stX : CacheS)
    (hn : 0 < st1.obj_per_slab)
    (hnd : (st1.slabs.map Prod.fst).Nodup)
    (hs : ∀ bb ss, findS st1.slabs bb = some ss → SlabInv st1.obj_per_slab ss)
    (hs1 : SlabInv st1.obj_per_slab s1)
    (h1 : stX.obj_per_slab = st1.obj_per_slab)
    (h2 : stX.slabs = setS st1.slabs b s1) : InvC stX := by
  refine ⟨h1 ▸ hn, ?_, ?_⟩
  · rw [h2]
    exact nodup_keys_setS _ _ _ hnd
  · intro bb ss hff
    rw [h2, findS_setS] at hff
    by_cases hbb : bb = b
    · rw [if_pos hbb] at hff
      injection hff with hff
      subst hff
      rw [h1]
      exact hs1
    · rw [if_neg hbb] at hff
      rw [h1]
      exact hs bb ss hff

/-- The freshly initialised slab of alloc_slab satisfies the per-slab
    invariant. -/
theorem slabInv_new (n : Nat) (hn : 0 < n) (cid ord : Nat) :
    SlabInv n
      { cache_id := cid, bitmap := List.replicate n false
        free_count := (n : Int), order := ord, next_free := 0 } := by
  unfold SlabInv
  dsimp only
  refine ⟨List.length_replicate _ _, ?_, Or.inr ⟨le_refl 0, ?_, ?_⟩⟩
  · rw [popcount_replicate_false]
    simp
  · exact_mod_cast hn
  · simpa using getD_replicate_false n 0 hn

theorem invC_alloc_slab (fresh : Nat) (st : CacheS) (h : InvC st) :
    InvC (alloc_slab fresh st).1 := by
  obtain ⟨hn, hnd, hs⟩ := h
  exact invC_update st fresh _ _ hn hnd hs
    (slabInv_new st.obj_per_slab hn st.id st.slab_order) rfl rfl

theorem invC_pick (fresh : Nat) (st : CacheS) (h : InvC st) :
    InvC (alloc_pick fresh st).1 ∧ (alloc_pick fresh st).1.obj_per_slab = st.obj_per_slab := by
  unfold alloc_pick
  cases hp : st.part_slabs with
  | cons b t => exact ⟨h, rfl⟩
  | nil =>
    cases hf : st.free_slabs with
    | cons b rest => exact ⟨⟨h.1, h.2.1, h.2.2⟩, rfl⟩
    | nil =>
      have h2 := invC_alloc_slab fresh st h
      exact ⟨⟨h2.1, h2.2.1, h2.2.2⟩, rfl⟩

theorem invC_inner (st1 : CacheS) (b : Nat) (h : InvC st1) :
    InvC (alloc_inner st1 b).1 := by
  obtain ⟨hn, hnd, hs⟩ := h
  simp only [alloc_inner]
  split
  · exact ⟨hn, hnd, hs⟩
  next s hf =>
    split
    · exact ⟨hn, hnd, hs⟩
    next hguard =>
      push_neg at hguard
      obtain ⟨hge, hlt⟩ := hguard
      obtain ⟨hlen, hcnt, hnf⟩ := hs b s hf
      have hvalid : s.bitmap.getD s.next_free.toNat true = false := by
        rcases hnf with h1 | h1
        · rw [h1] at hge
          omega
        · exact h1.2.2
      have hi0 : s.next_free.toNat < st1.obj_per_slab := by omega
      have hi0len : s.next_free.toNat < s.bitmap.length := by omega
      have hs1 : SlabInv st1.obj_per_slab
          { s with
              bitmap := s.bitmap.set s.next_free.toNat true
              free_count := s.free_count - 1
              next_free := findNextFree (s.bitmap.set s.next_free.toNat true)
                st1.obj_per_slab s.next_free.toNat } := by
        unfold SlabInv
        dsimp only
        refine ⟨by simpa [List.length_set] using hlen, ?_, ?_⟩
        · have hpc := popcount_set_true s.bitmap s.next_free.toNat hi0len hvalid
          rw [hpc]
          push_cast
          omega
        · exact findNextFree_valid _ _ _ hi0
      split
      · exact invC_update st1 b _ _ hn hnd hs hs1 rfl rfl
      · exact invC_update st1 b _ _ hn hnd hs hs1 rfl rfl

theorem invC_alloc (fresh : Nat) (st : CacheS) (h : InvC st) :
    InvC (kmem_cache_alloc fresh st).1 := by
  have h2 := invC_pick fresh st h
  exact invC_inner (alloc_pick fresh st).1 (alloc_pick fresh st).2 h2.1

theorem invC_free (st : CacheS) (p : Nat) (h : InvC st) :
    InvC (kmem_cache_free st p) := by
  obtain ⟨hn, hnd, hs⟩ := h
  simp only [kmem_cache_free]
  split
  · exact ⟨hn, hnd, hs⟩
  next hp =>
    split
    · exact ⟨hn, hnd, hs⟩
    next s hf =>
      split
      · exact ⟨hn, hnd, hs⟩
      next hid =>
        split
        · exact ⟨hn, hnd, hs⟩
        next hfault =>
          push_neg at hfault
          obtain ⟨h1, h2, h3⟩ := hfault
          obtain ⟨hlen, hcnt, hnf⟩ := hs _ s hf
          have hbit : s.bitmap.getD
              (idxFromPtr p
                (slab_obj_start (p - p % (BLOCK_SIZE * 2 ^ st.slab_order)) st.obj_per_slab)
                st.obj_size).toNat true = true := by
            cases hx : s.bitmap.getD
                (idxFromPtr p
                  (slab_obj_start (p - p % (BLOCK_SIZE * 2 ^ st.slab_order)) st.obj_per_slab)
                  st.obj_size).toNat true
            · exact absurd hx h3
            · rfl
          have hi0 : (idxFromPtr p
              (slab_obj_start (p - p % (BLOCK_SIZE * 2 ^ st.slab_order)) st.obj_per_slab)
              st.obj_size).toNat < st.obj_per_slab := by omega
          have hi0len : (idxFromPtr p
              (slab_obj_start (p - p % (BLOCK_SIZE * 2 ^ st.slab_order)) st.obj_per_slab)
              st.obj_size).toNat < s.bitmap.length := by omega
          have hs1 : SlabInv st.obj_per_slab
              { s with
                  bitmap := s.bitmap.set
                    (idxFromPtr p
                      (slab_obj_start (p - p % (BLOCK_SIZE * 2 ^ st.slab_order))
                        st.obj_per_slab) st.obj_size).toNat false
                  free_count := s.free_count + 1
                  next_free :=
                    if s.next_free < 0 ∨
                        idxFromPtr p
                          (slab_obj_start (p - p % (BLOCK_SIZE * 2 ^ st.slab_order))
                            st.obj_per_slab) st.obj_size < s.next_free then
                      idxFromPtr p
                        (slab_obj_start (p - p % (BLOCK_SIZE * 2 ^ st.slab_order))
                          st.obj_per_slab) st.obj_size
                    else s.next_free } := by
            unfold SlabInv
            dsimp only
            refine ⟨by simpa [List.length_set] using hlen, ?_, ?_⟩
            · have hpc := popcount_set_false s.bitmap _ hi0len hbit
              rw [← hpc] at hcnt
              push_cast at hcnt ⊢
              omega
            · by_cases hcond : s.next_free < 0 ∨
                  idxFromPtr p
                    (slab_obj_start (p - p % (BLOCK_SIZE * 2 ^ st.slab_order))
                      st.obj_per_slab) st.obj_size < s.next_free
              · rw [if_pos hcond]
                refine Or.inr ⟨by omega, by omega, ?_⟩
                rw [getD_set_self _ _ _ _ hi0len]
              · rw [if_neg hcond]
                push_neg at hcond
                rcases hnf with hh | hh
                · rw [hh] at hcond
                  omega
                · refine Or.inr ⟨hh.1, hh.2.1, ?_⟩
                  by_cases heqi : s.next_free.toNat =
                      (idxFromPtr p
                        (slab_obj_start (p - p % (BLOCK_SIZE * 2 ^ st.slab_order))
                          st.obj_per_slab) st.obj_size).toNat
                  · rw [heqi, getD_set_self _ _ _ _ hi0len]
                  · rw [getD_set_ne _ _ _ _ _ heqi]
                    exact hh.2.2
          split
          · exact invC_update st _ _ _ hn hnd hs hs1 rfl rfl
          · split
            · exact invC_update st _ _ _ hn hnd hs hs1 rfl rfl
            · exact invC_update st _ _ _ hn hnd hs hs1 rfl rfl

theorem invC_shrink_go (l : List Nat) (st : CacheS) (acc : Nat) (h : InvC st) :
    InvC (shrink_go l st acc).1 := by
  induction l generalizing st acc with
  | nil => exact h
  | cons b rest ih =>
    simp only [shrink_go]
    cases hf : findS st.slabs b with
    | none => exact ih st acc h
    | some s =>
      apply ih
      obtain ⟨hn, hnd, hs⟩ := h
      refine ⟨hn, nodup_keys_removeS _ _ hnd, ?_⟩
      intro bb ss hff
      exact hs bb ss (findS_removeS _ _ _ _ hnd hff)

theorem invC_shrink (st : CacheS) (h : InvC st) : InvC (kmem_cache_shrink st).1 := by
  simp only [kmem_cache_shrink]
  split
  · exact ⟨h.1, h.2.1, h.2.2⟩
  · exact invC_shrink_go _ _ _ ⟨h.1, h.2.1, h.2.2⟩

theorem reachS_invC (st : CacheS) (h : ReachS st) : InvC st := by
  induction h with
  | create id size st h => exact invC_create id size st h
  | alloc st fresh h ih => exact invC_alloc fresh st ih
  | free st p h ih => exact invC_free st p ih
  | shrink st h ih => exact invC_shrink st ih
  | error_read st h ih => exact ih

/-- C9: for every cache state reachable through any sequence of
    kmem_cache_alloc, kmem_cache_free, kmem_cache_shrink and
    kmem_cache_error calls after kmem_cache_create, every slab satisfies
    free_count = obj_per_slab − popcount(bitmap): each successful
    allocation sets one previously-clear bit while decrementing
    free_count, and each successful free clears one previously-set bit
    while incrementing it, so the equality is preserved throughout. -/
theorem c9_bitmap_accounting (st : CacheS) (h : ReachS st) :
    ∀ b s, findS st.slabs b = some s →
      s.free_count = (st.obj_per_slab : Int) - (popcount s.bitmap : Int) :=
  fun b s hf => ((reachS_invC st h).2.2 b s hf).2.1

/-- Base cache of the C9 witness run (size-1024 cache). -/
def c9_base : CacheS :=
  (kmem_cache_create 0 1024).getD
    { id := 0, obj_size := 0, obj_per_slab := 0, slab_order := 0
      part_slabs := [], full_slabs := [], free_slabs := [], slabs := []
      slab_count := 0, total_objs := 0, free_objs := 0
      grown_since_shrink := false, error := 0, color_max := 0, color_next := 0
      alloc_count := 0, free_count_total := 0 }

/-- State of the C9 witness run after one allocation. -/
def c9_state : CacheS := (kmem_cache_alloc 0 c9_base).1

/-- The slab of the C9 witness run: one object allocated out of seven. -/
def c9_slab : SlabS :=
  { cache_id := 0, bitmap := [true, false, false, false, false, false, false]
    free_count := 6, order := 1, next_free := 1 }

/-- C9 witness: in the concrete reachable state with one object allocated
    from a size-1024 cache, the slab satisfies
    free_count = obj_per_slab − popcount(bitmap), i.e. 6 = 7 − 1. -/
theorem c9_bitmap_accounting_witness :
    c9_slab.free_count = (c9_state.obj_per_slab : Int) - (popcount c9_slab.bitmap : Int) :=
  c9_bitmap_accounting c9_state
    (ReachS.alloc c9_base 0 (ReachS.create 0 1024 c9_base (by decide)))
    0 c9_slab (by decide)

/- ============================================================ -/
/- Buddy allocator model (kernel/buddy.c) -/
/- ============================================================ -/

/-- PGROUNDUP from riscv.h: round an address up to a page boundary. -/
def PGROUNDUP (x : Nat) : Nat := ((x + 4095) / 4096) * 4096

/-- State of struct buddy_allocator: per-order free lists (index = order,
    BUDDY_ORDERS = 16 entries, list head = most recently pushed block, as
    in the intrusive singly-linked lists of buddy.c), region start, total
    managed bytes and the computed max_order (an int: −1 = disabled). -/
structure BuddyState where
  free : List (List Nat)
  start : Nat
  total_size : Nat
  max_order : Int
deriving DecidableEq, Repr

/-- The max-order search loop of buddy_init (buddy.c:59-64): largest
    m ≤ 15 with 2^m · BLOCK_SIZE ≤ total, else −1 (counting down from the
    argument). -/
def find_max_ord_go (total : Nat) : Nat → Int
  | 0 => if BLOCK_SIZE ≤ total then 0 else -1
  | m + 1 =>
    if 2 ^ (m + 1) * BLOCK_SIZE ≤ total then ((m + 1 : Nat) : Int)
    else find_max_ord_go total m

/-- MAX_ORDER = 15 (buddy.h). -/
def find_max_ord (total : Nat) : Int := find_max_ord_go total 15

/-- The inner placement loop of buddy_init (buddy.c:83-90): while
    `bsize ≤ remaining`, push a block at `addr` onto the list and advance.
    `fuel` bounds the iteration count; callers pass `remaining / bsize`,
    which is exactly the number of iterations, so the fuel never runs out
    and the function computes precisely what the C loop does. -/
def place_blocks : Nat → Nat → Nat → Nat → List Nat → List Nat × Nat × Nat
  | 0, _, addr, remaining, lst => (lst, addr, remaining)
  | fuel + 1, bsize, addr, remaining, lst =>
    if bsize ≤ remaining then
      place_blocks fuel bsize (addr + bsize) (remaining - bsize) (addr :: lst)
    else (lst, addr, remaining)

/-- The outer placement loop of buddy_init (buddy.c:81-91): for each order
    from max_ord down to MIN_ORDER = 0, run the inner loop at block size
    2^order · BLOCK_SIZE. -/
def init_place : Nat → List (List Nat) → Nat → Nat → List (List Nat) × Nat × Nat
  | 0, free, addr, remaining =>
    let r := place_blocks (remaining / BLOCK_SIZE) BLOCK_SIZE addr remaining (free.getD 0 [])
    (free.set 0 r.1, r.2.1, r.2.2)
  | o + 1, free, addr, remaining =>
    let bsize := 2 ^ (o + 1) * BLOCK_SIZE
    let r := place_blocks (remaining / bsize) bsize addr remaining (free.getD (o + 1) [])
    init_place o (free.set (o + 1) r.1) r.2.1 r.2.2

/-- buddy_init (buddy.c:47-95): round the start up to a page, compute the
    total (uint64 subtraction, wrapping; addresses are assumed < 2^64),
    find the max order (disabling the allocator with max_order = −1 when
    no block fits), then greedily place blocks from the largest order
    down.  total_size is only assigned on success; the static allocator
    struct is zero-initialised, so the model uses 0 in the failure case. -/
def buddy_init (startA endA : Nat) : BuddyState :=
  let start := PGROUNDUP startA
  let total := (endA + 2 ^ 64 - start) % 2 ^ 64
  let zeroed := List.replicate 16 ([] : List Nat)
  let mo := find_max_ord total
  if mo < 0 then { free := zeroed, start := start, total_size := 0, max_order := -1 }
  else
    let r := init_place mo.toNat zeroed start total
    { free := r.1, start := start, total_size := total, max_order := mo }

/-- The search loop of buddy_alloc (buddy.c:104-108): scan orders upward
    from `o` (fuel = number of orders left to inspect) for the first
    nonempty free list. -/
def alloc_search (free : List (List Nat)) : Nat → Nat → Option Nat
  | 0, _ => none
  | c + 1, o => if free.getD o [] = [] then alloc_search free c (o + 1) else some o

/-- The split loop of buddy_alloc (buddy.c:118-125): while the current
    order exceeds the target, halve the block, pushing the upper half
    (at offset 2^o · BLOCK_SIZE) onto the lower order's free list. -/
def split_down (blk otgt : Nat) : Nat → List (List Nat) → List (List Nat)
  | 0, free => free
  | o + 1, free =>
    if otgt < o + 1 then
      split_down blk otgt o (free.set o ((blk + 2 ^ o * BLOCK_SIZE) :: free.getD o []))
    else free

/-- buddy_alloc (buddy.c:97-129): reject out-of-range orders with null
    (0); find the first nonempty list at order ≥ requested; pop its head;
    split down to the requested order.  Returns the new state and the
    block address (0 = NULL; note the C interface cannot distinguish a
    genuine block at address 0 from failure). -/
def buddy_alloc (st : BuddyState) (order : Int) : BuddyState × Nat :=
  if order < 0 ∨ st.max_order < order then (st, 0)
  else
    match alloc_search st.free (st.max_order.toNat + 1 - order.toNat) order.toNat with
    | none => (st, 0)
    | some o =>
      match st.free.getD o [] with
      | [] => (st, 0)  -- unreachable: alloc_search returned a nonempty order
      | bl :: rest =>
        ({ st with free := split_down bl order.toNat o (st.free.set o rest) }, bl)

/-- The coalescing loop of buddy_free (buddy.c:147-171): while below
    max_order (fuel = max_order − order), compute the XOR-buddy address;
    if it is on the current order's free list, unlink it, keep the lower
    of the two addresses and go up one order; otherwise stop.  Returns
    the final lists, block address and order. -/
def coalesce (start : Nat) : Nat → List (List Nat) → Nat → Nat → List (List Nat) × Nat × Nat
  | 0, free, blk, o => (free, blk, o)
  | f + 1, free, blk, o =>
    let size := 2 ^ o * BLOCK_SIZE
    let baddr := ((blk - start) ^^^ size) + start
    if baddr ∈ free.getD o [] then
      coalesce start f (free.set o (removeFirst (free.getD o []) baddr))
        (if baddr < blk then baddr else blk) (o + 1)
    else (free, blk, o)

/-- buddy_free (buddy.c:131-178): return silently on a null address or an
    out-of-range order; log (second component `true`) and return on an
    address outside the managed region; otherwise coalesce upward and push
    the resulting block.  The Bool records whether the invalid-free
    diagnostic was printed. -/
def buddy_free (st : BuddyState) (addr : Nat) (order : Int) : BuddyState × Bool :=
  if addr = 0 ∨ order < 0 ∨ st.max_order < order then (st, false)
  else if addr < st.start ∨ st.start + st.total_size ≤ addr then (st, true)
  else
    let r := coalesce st.start (st.max_order.toNat - order.toNat) st.free addr order.toNat
    ({ st with free := r.1.set r.2.2 (r.2.1 :: r.1.getD r.2.2 []) }, false)

/- ============================================================ -/
/- Claim C10 -/
/- ============================================================ -/

/-- C10: buddy_free called with a null address, a negative order, or an
    order above max_order returns immediately: the state is unchanged and
    no diagnostic is printed.  Conversely, any call that prints or
    mutates state had a non-null address and an in-range order, i.e. only
    such calls reach the range check. -/
theorem c10_buddy_free_guards (st : BuddyState) (addr : Nat) (order : Int) :
    (addr = 0 ∨ order < 0 ∨ st.max_order < order →
      buddy_free st addr order = (st, false)) ∧
    (buddy_free st addr order ≠ (st, false) →
      addr ≠ 0 ∧ 0 ≤ order ∧ order ≤ st.max_order) := by
  constructor
  · intro hg
    simp only [buddy_free, if_pos hg]
  · intro hne
    by_cases hg : addr = 0 ∨ order < 0 ∨ st.max_order < order
    · exact absurd (by simp only [buddy_free, if_pos hg]) hne
    · push_neg at hg
      exact ⟨hg.1, by omega, by omega⟩

/-- C10 witness: on the concrete allocator over [0, 32768), freeing with
    order −1 is rejected with no print and no state change. -/
theorem c10_buddy_free_guards_witness :
    buddy_free (buddy_init 0 32768) 4096 (-1) = (buddy_init 0 32768, false) :=
  (c10_buddy_free_guards (buddy_init 0 32768) 4096 (-1)).1 (by decide)

/- ============================================================ -/
/- Claim C2 -/
/- ============================================================ -/

/-- obj_to_slab (slab.c:385-390): align the object pointer down to the
    slab size `BLOCK_SIZE << slab_order` by masking the low bits
    (`objp & ~(slab_size − 1)`, i.e. rounding down to a multiple). -/
def obj_to_slab_addr (slab_order p : Nat) : Nat :=
  p - p % (BLOCK_SIZE * 2 ^ slab_order)

/-- The buddy of the C2 counterexample run: page-aligned but not
    slab-size-aligned region [4096, 36864). -/
def c2_buddy : BuddyState := buddy_init 4096 36864

/-- The cache of the C2 run: size-1024 objects, slab order 1
    (slab size 8192), 7 objects per slab. -/
def c2_cache0 : CacheS :=
  (kmem_cache_create 0 1024).getD
    { id := 0, obj_size := 0, obj_per_slab := 0, slab_order := 0
      part_slabs := [], full_slabs := [], free_slabs := [], slabs := []
      slab_count := 0, total_objs := 0, free_objs := 0
      grown_since_shrink := false, error := 0, color_max := 0, color_next := 0
      alloc_count := 0, free_count_total := 0 }

/-- Slab backing obtained exactly as alloc_slab does:
    buddy_alloc(slab_buddy, cache->slab_order). -/
def c2_backing : BuddyState × Nat := buddy_alloc c2_buddy 1

/-- The C2 run: allocate one object from the slab based at the buddy
    block 4096. -/
def c2_run : CacheS × Nat := kmem_cache_alloc c2_backing.2 c2_cache0

/-- C2 counterexample: with the backing buddy region starting at the
    page-aligned address 4096, the slab of the size-1024 cache (order 1,
    slab size 8192) is based at 4096, the first object pointer is 4144,
    and masking 4144 down to the slab size yields 0 — which holds no slab
    header at all (and in particular not the owning slab's header at
    4096).  The claim fails for this page-aligned base. -/
theorem c2_mask_misses_header :
    c2_backing.2 = 4096 ∧ c2_run.2 = 4144 ∧
      obj_to_slab_addr c2_cache0.slab_order c2_run.2 = 0 ∧
      findS c2_run.1.slabs 0 = none ∧
      (findS c2_run.1.slabs 4096).isSome = true := by decide

theorem findS_mem (m : List (Nat × SlabS)) (b : Nat) (s : SlabS)
    (h : findS m b = some s) : (b, s) ∈ m := by
  induction m with
  | nil => simp [findS] at h
  | cons e t ih =>
    obtain ⟨k0, s0⟩ := e
    by_cases hk : k0 = b
    · subst hk
      rw [findS, if_pos rfl] at h
      injection h with h
      subst h
      exact List.mem_cons_self _ _
    · rw [findS, if_neg hk] at h
      exact List.mem_cons_of_mem _ (ih h)

theorem align8_add_of_dvd (b x : Nat) (h : 8 ∣ b) : align8 (b + x) = b + align8 x := by
  obtain ⟨k, rfl⟩ := h
  unfold align8
  omega

theorem mask_add_of_aligned (b r m : Nat) (hm : 0 < m) (hb : b % m = 0) (hr : r < m) :
    (b + r) - (b + r) % m = b := by
  obtain ⟨q, rfl⟩ := Nat.dvd_of_mod_eq_zero hb
  rw [Nat.mul_add_mod m q r, Nat.mod_eq_of_lt hr]
  omega

/-- Characterisation of the allocation body when it returns a non-null
    pointer: the slab at `b` was found, its next_free index was in range,
    the pointer is the indexed object address, and the slab memory is
    updated at `b` with the allocated-slot record. -/
theorem alloc_inner_spec (st1 : CacheS) (b : Nat)
    (h : (alloc_inner st1 b).2 ≠ 0) :
    ∃ s : SlabS, findS st1.slabs b = some s ∧
      0 ≤ s.next_free ∧ s.next_free < (st1.obj_per_slab : Int) ∧
      (alloc_inner st1 b).2 =
        slab_obj_start b st1.obj_per_slab + s.next_free.toNat * st1.obj_size ∧
      (alloc_inner st1 b).1.slabs =
        setS st1.slabs b
          { cache_id := s.cache_id
            bitmap := s.bitmap.set s.next_free.toNat true
            free_count := s.free_count - 1
            order := s.order
            next_free := findNextFree (s.bitmap.set s.next_free.toNat true)
              st1.obj_per_slab s.next_free.toNat } := by
  cases hf : findS st1.slabs b with
  | none =>
    exfalso
    apply h
    simp only [alloc_inner, hf]
  | some s =>
    by_cases hng : s.next_free < 0 ∨ (st1.obj_per_slab : Int) ≤ s.next_free
    · exfalso
      apply h
      simp only [alloc_inner, hf, if_pos hng]
    · have hguard := hng
      push_neg at hguard
      refine ⟨s, rfl, hguard.1, hguard.2, ?_, ?_⟩
      · simp only [alloc_inner, hf, if_neg hng]
        split
        · rfl
        · rfl
      · simp only [alloc_inner, hf, if_neg hng]
        split
        · rfl
        · rfl

/-- The slab-selection stage changes slab memory at most by installing
    one freshly initialised slab at `fresh`, and leaves the cache's
    layout parameters and identity unchanged. -/
theorem alloc_pick_spec (fresh : Nat) (st : CacheS) :
    ((alloc_pick fresh st).1.slabs = st.slabs ∨
      (alloc_pick fresh st).1.slabs = setS st.slabs fresh
        { cache_id := st.id, bitmap := List.replicate st.obj_per_slab false
          free_count := (st.obj_per_slab : Int), order := st.slab_order
          next_free := 0 }) ∧
    (alloc_pick fresh st).1.obj_per_slab = st.obj_per_slab ∧
    (alloc_pick fresh st).1.obj_size = st.obj_size ∧
    (alloc_pick fresh st).1.slab_order = st.slab_order ∧
    (alloc_pick fresh st).1.id = st.id := by
  unfold alloc_pick
  cases hp : st.part_slabs with
  | cons b t => exact ⟨Or.inl rfl, rfl, rfl, rfl, rfl⟩
  | nil =>
    cases hfr : st.free_slabs with
    | cons b rest => exact ⟨Or.inl rfl, rfl, rfl, rfl, rfl⟩
    | nil => exact ⟨Or.inr rfl, rfl, rfl, rfl, rfl⟩

/-- C2 (amended): cache identity under slab-size-aligned backing.  If
    every existing slab base, and the base the buddy returns for a new
    slab, is aligned to the slab size BLOCK_SIZE·2^slab_order (not merely
    page-aligned — the counterexample shows page alignment alone fails),
    and the slab layout fits (as kmem_cache_create guarantees), then for
    every non-null pointer returned by kmem_cache_alloc, aligning it down
    to the slab size yields the slab header of the owning slab, whose
    cache field equals this cache. -/
theorem c2_cache_identity_aligned (st : CacheS) (fresh : Nat)
    (hL : ∀ e ∈ st.slabs, e.1 % (BLOCK_SIZE * 2 ^ st.slab_order) = 0 ∧
      e.2.cache_id = st.id)
    (hfr : fresh % (BLOCK_SIZE * 2 ^ st.slab_order) = 0)
    (hfit : slab_obj_start 0 st.obj_per_slab + st.obj_per_slab * st.obj_size ≤
      BLOCK_SIZE * 2 ^ st.slab_order)
    (hsz : 0 < st.obj_size)
    (hne : (kmem_cache_alloc fresh st).2 ≠ 0) :
    ∃ s1, findS (kmem_cache_alloc fresh st).1.slabs
        (obj_to_slab_addr st.slab_order (kmem_cache_alloc fresh st).2) = some s1 ∧
      s1.cache_id = st.id := by
  obtain ⟨hps, hpn, hpsz, hpo, hpid⟩ := alloc_pick_spec fresh st
  have hdef : kmem_cache_alloc fresh st =
      alloc_inner (alloc_pick fresh st).1 (alloc_pick fresh st).2 := rfl
  rw [hdef] at hne ⊢
  obtain ⟨s, hf, hge, hlt, hobj, hslabs⟩ := alloc_inner_spec _ _ hne
  rw [hpn] at hlt
  rw [hpn, hpsz] at hobj
  -- base alignment and ownership of the selected slab
  have hbase : (alloc_pick fresh st).2 % (BLOCK_SIZE * 2 ^ st.slab_order) = 0 ∧
      s.cache_id = st.id := by
    rcases hps with hcase | hcase
    · rw [hcase] at hf
      have hm := findS_mem _ _ _ hf
      exact ⟨(hL _ hm).1, (hL _ hm).2⟩
    · rw [hcase, findS_setS] at hf
      by_cases hb : (alloc_pick fresh st).2 = fresh
      · rw [if_pos hb] at hf
        injection hf with hf
        subst hf
        exact ⟨by rw [hb]; exact hfr, rfl⟩
      · rw [if_neg hb] at hf
        have hm := findS_mem _ _ _ hf
        exact ⟨(hL _ hm).1, (hL _ hm).2⟩
  have hszpos : 0 < BLOCK_SIZE * 2 ^ st.slab_order := by
    rw [BLOCK_SIZE]
    positivity
  have h84 : (8 : Nat) ∣ BLOCK_SIZE * 2 ^ st.slab_order :=
    ⟨512 * 2 ^ st.slab_order, by rw [BLOCK_SIZE]; ring⟩
  have h8 : 8 ∣ (alloc_pick fresh st).2 :=
    dvd_trans h84 (Nat.dvd_of_mod_eq_zero hbase.1)
  have hsplit : slab_obj_start (alloc_pick fresh st).2 st.obj_per_slab =
      (alloc_pick fresh st).2 + slab_obj_start 0 st.obj_per_slab := by
    unfold slab_obj_start
    rw [Nat.add_assoc]
    have := align8_add_of_dvd (alloc_pick fresh st).2
      (SIZEOF_SLAB_T + (st.obj_per_slab + 7) / 8) h8
    rw [this, Nat.zero_add]
  have hi0lt : s.next_free.toNat < st.obj_per_slab := by omega
  have hr : slab_obj_start 0 st.obj_per_slab + s.next_free.toNat * st.obj_size <
      BLOCK_SIZE * 2 ^ st.slab_order := by
    have hmul : (s.next_free.toNat + 1) * st.obj_size ≤
        st.obj_per_slab * st.obj_size := Nat.mul_le_mul_right _ (by omega)
    rw [Nat.succ_mul] at hmul
    omega
  have hmask := mask_add_of_aligned (alloc_pick fresh st).2
    (slab_obj_start 0 st.obj_per_slab + s.next_free.toNat * st.obj_size)
    (BLOCK_SIZE * 2 ^ st.slab_order) hszpos hbase.1 hr
  rw [hobj, hsplit]
  unfold obj_to_slab_addr
  rw [Nat.add_assoc, hmask, hslabs, findS_setS, if_pos rfl]
  exact ⟨_, rfl, hbase.2⟩

/-- C2 witness: allocating from the size-1024 cache with a slab based at
    the slab-size-aligned address 0, aligning the returned pointer down
    recovers the slab header and its cache field names this cache. -/
theorem c2_cache_identity_aligned_witness :
    ∃ s1, findS (kmem_cache_alloc 0 c2_cache0).1.slabs
        (obj_to_slab_addr c2_cache0.slab_order (kmem_cache_alloc 0 c2_cache0).2) = some s1 ∧
      s1.cache_id = c2_cache0.id :=
  c2_cache_identity_aligned c2_cache0 0 (by decide) (by decide) (by decide)
    (by decide) (by decide)

/- ============================================================ -/
/- Claim C8 -/
/- ============================================================ -/

/-- SMALL_BUF_MIN_ORDER = 5 (slab.h); classes are 2^5 .. 2^17. -/
def SMALL_BUF_MIN_ORDER : Nat := 5

/-- size_to_index (slab.c:598-605): first class index i in 0..12 with
    size ≤ 2^(SMALL_BUF_MIN_ORDER + i), else −1. -/
def size_to_index (size : Nat) : Int :=
  match (List.range 13).find? (fun i => size ≤ 2 ^ (SMALL_BUF_MIN_ORDER + i)) with
  | some i => (i : Int)
  | none => -1

/-- Modelled from the spec (section 4.2.6): the smallest size class 2^k
    with SMALL_BUF_MIN_ORDER ≤ k ≤ SMALL_BUF_MAX_ORDER and size ≤ 2^k,
    used to compare the code's size_to_index against the spec's words. -/
def spec_small_class (size : Nat) : Option Nat :=
  (List.range' 5 13).find? (fun k => size ≤ 2 ^ k)

/-- Global small-buffer state: the small_buf_caches array (index = class)
    and the abstracted buddy base supply (next fresh region start). -/
structure KState where
  caches : List (Option CacheS)
  next_base : Nat
deriving DecidableEq, Repr

/-- kmem_init (slab.c:195-212) restricted to what the claims observe: all
    small-buffer caches start out not-yet-created; the private buddy is
    abstracted as the base supply starting at 0. -/
def kmem_init : KState := { caches := List.replicate 13 none, next_base := 0 }

/-- Round `x` up to a multiple of `m`. -/
def align_up (x m : Nat) : Nat := ((x + m - 1) / m) * m

/-- Allocation from the class-`i` cache: the abstract buddy hands out
    slab-size-aligned fresh regions (as the real buddy does when its
    region base is slab-size aligned; claim C2 treats alignment itself),
    consumed only if kmem_cache_alloc grew the cache. -/
def kalloc_from (kst : KState) (i : Nat) (c : CacheS) : KState × Nat :=
  let sz := BLOCK_SIZE * 2 ^ c.slab_order
  let fresh := align_up kst.next_base sz
  let r := kmem_cache_alloc fresh c
  let nb := if r.1.slab_count ≠ c.slab_count then fresh + sz else kst.next_base
  ({ kst with caches := kst.caches.set i (some r.1), next_base := nb }, r.2)

/-- kmalloc (slab.c:607-648): null for size 0 or size above the largest
    class; otherwise create the size-class cache lazily (name building
    and double-checked locking have no observable counterpart here) and
    allocate from it. -/
def kmalloc (kst : KState) (size : Nat) : KState × Nat :=
  if size = 0 then (kst, 0)
  else
    let idx := size_to_index size
    if idx < 0 then (kst, 0)
    else
      let i := idx.toNat
      match kst.caches.getD i none with
      | none =>
        match kmem_cache_create i (2 ^ (SMALL_BUF_MIN_ORDER + i)) with
        | none => (kst, 0)
        | some c =>
          kalloc_from { kst with caches := kst.caches.set i (some c) } i c
      | some c => kalloc_from kst i c

/-- The search loop of kfree (slab.c:659-673): for each created class
    cache, align the pointer down to that cache's slab size and test
    whether a slab header of that cache lives there; the first match wins
    and the object is freed into that cache.  A header read at an address
    holding no slab is modelled as no-match.  The Bool records whether the
    could-not-find diagnostic was printed. -/
def kfree_go (kst : KState) (p : Nat) : Nat → Nat → KState × Bool
  | 0, _ => (kst, true)
  | f + 1, i =>
    match kst.caches.getD i none with
    | none => kfree_go kst p f (i + 1)
    | some c =>
      let sz := BLOCK_SIZE * 2 ^ c.slab_order
      match findS c.slabs (p - p % sz) with
      | some s =>
        if s.cache_id = c.id then
          ({ kst with caches := kst.caches.set i (some (kmem_cache_free c p)) }, false)
        else kfree_go kst p f (i + 1)
      | none => kfree_go kst p f (i + 1)

/-- kfree (slab.c:650-676): return on null, else run the search loop over
    the 13 classes. -/
def kfree (kst : KState) (p : Nat) : KState × Bool :=
  if p = 0 then (kst, false)
  else kfree_go kst p 13 0

/-- The class-`i` small-buffer cache, when created. -/
def kclassCache (kst : KState) (i : Nat) : Option CacheS := kst.caches.getD i none

/-- The slab header found by aligning `p` down to the class-`i` cache's
    slab size (the owning slab when `p` came from that cache). -/
def kownerSlab (kst : KState) (i : Nat) (p : Nat) : Option SlabS :=
  (kclassCache kst i).bind (fun c => findS c.slabs (obj_to_slab_addr c.slab_order p))

/-- kmalloc returns null for size 0 (slab.c:609-610). -/
theorem kmalloc_zero (kst : KState) : kmalloc kst 0 = (kst, 0) := rfl

/-- kmalloc returns null for any size above the largest class 2^17
    (size_to_index returns −1, slab.c:612-614). -/
theorem kmalloc_too_large (kst : KState) (size : Nat) (h : 131072 < size) :
    kmalloc kst size = (kst, 0) := by
  have hsti : size_to_index size = -1 := by
    unfold size_to_index SMALL_BUF_MIN_ORDER
    rw [(by decide : List.range 13 = [0, 1, 2, 3, 4, 5, 6, 7, 8, 9, 10, 11, 12])]
    have a0 : ¬ size ≤ 32 := by omega
    have a1 : ¬ size ≤ 64 := by omega
    have a2 : ¬ size ≤ 128 := by omega
    have a3 : ¬ size ≤ 256 := by omega
    have a4 : ¬ size ≤ 512 := by omega
    have a5 : ¬ size ≤ 1024 := by omega
    have a6 : ¬ size ≤ 2048 := by omega
    have a7 : ¬ size ≤ 4096 := by omega
    have a8 : ¬ size ≤ 8192 := by omega
    have a9 : ¬ size ≤ 16384 := by omega
    have a10 : ¬ size ≤ 32768 := by omega
    have a11 : ¬ size ≤ 65536 := by omega
    have a12 : ¬ size ≤ 131072 := by omega
    simp [List.find?, a0, a1, a2, a3, a4, a5, a6, a7, a8, a9, a10, a11, a12]
  simp [kmalloc, (by omega : ¬ size = 0), hsti]

/-- size_to_index agrees with the spec's smallest size class: the first
    k in [5, 17] with size ≤ 2^k, as class index k − 5, and −1 when no
    class is large enough. -/
theorem size_to_index_matches_spec (size : Nat) :
    size_to_index size =
      match spec_small_class size with
      | some k => ((k - 5 : Nat) : Int)
      | none => -1 := by
  unfold size_to_index spec_small_class SMALL_BUF_MIN_ORDER
  rw [(by decide : List.range 13 = [0, 1, 2, 3, 4, 5, 6, 7, 8, 9, 10, 11, 12]),
    (by decide : List.range' 5 13 = [5, 6, 7, 8, 9, 10, 11, 12, 13, 14, 15, 16, 17])]
  by_cases h0 : size ≤ 32
  · simp [List.find?, h0]
  · by_cases h1 : size ≤ 64
    · simp [List.find?, h0, h1]
    · by_cases h2 : size ≤ 128
      · simp [List.find?, h0, h1, h2]
      · by_cases h3 : size ≤ 256
        · simp [List.find?, h0, h1, h2, h3]
        · by_cases h4 : size ≤ 512
          · simp [List.find?, h0, h1, h2, h3, h4]
          · by_cases h5 : size ≤ 1024
            · simp [List.find?, h0, h1, h2, h3, h4, h5]
            · by_cases h6 : size ≤ 2048
              · simp [List.find?, h0, h1, h2, h3, h4, h5, h6]
              · by_cases h7 : size ≤ 4096
                · simp [List.find?, h0, h1, h2, h3, h4, h5, h6, h7]
                · by_cases h8 : size ≤ 8192
                  · simp [List.find?, h0, h1, h2, h3, h4, h5, h6, h7, h8]
                  · by_cases h9 : size ≤ 16384
                    · simp [List.find?, h0, h1, h2, h3, h4, h5, h6, h7, h8, h9]
                    · by_cases h10 : size ≤ 32768
                      · simp [List.find?, h0, h1, h2, h3, h4, h5, h6, h7, h8, h9, h10]
                      · by_cases h11 : size ≤ 65536
                        · simp [List.find?, h0, h1, h2, h3, h4, h5, h6, h7, h8, h9, h10, h11]
                        · by_cases h12 : size ≤ 131072
                          · simp [List.find?, h0, h1, h2, h3, h4, h5, h6, h7, h8, h9, h10, h11, h12]
                          · simp [List.find?, h0, h1, h2, h3, h4, h5, h6, h7, h8, h9, h10, h11, h12]

/-- For every in-range size, kmalloc from the fresh state returns a
    non-null pointer owned by the class cache, and kfree dispatches the
    pointer back to that cache, clearing the object's bit and restoring
    the free count. -/
theorem kmalloc_kfree_dispatch (size : Nat) (hs1 : 1 ≤ size) (hs2 : size ≤ 131072) :
    let i := (size_to_index size).toNat
    let r := kmalloc kmem_init size
    let rf := kfree r.1 r.2
    r.2 ≠ 0 ∧
    (kclassCache r.1 i).map (fun c => c.obj_size) =
      some (2 ^ (SMALL_BUF_MIN_ORDER + i)) ∧
    (kownerSlab r.1 i r.2).map (fun s => s.cache_id) =
      (kclassCache r.1 i).map (fun c => c.id) ∧
    (kownerSlab r.1 i r.2).map (fun s => s.bitmap.getD 0 true) = some true ∧
    rf.2 = false ∧
    (kownerSlab rf.1 i r.2).map (fun s => s.bitmap.getD 0 true) = some false ∧
    (kclassCache rf.1 i).map (fun c => c.free_objs) =
      (kclassCache rf.1 i).map (fun c => (c.obj_per_slab : Int)) := by
  have hz : ¬ size = 0 := by omega
  by_cases h0 : size ≤ 32
  · have hcase : size_to_index size = 0 := by
      unfold size_to_index SMALL_BUF_MIN_ORDER
      rw [(by decide : List.range 13 = [0, 1, 2, 3, 4, 5, 6, 7, 8, 9, 10, 11, 12])]
      simp [List.find?, h0]
    simp only [kmalloc, hcase, if_neg hz]
    decide
  · by_cases h1 : size ≤ 64
    · have hcase : size_to_index size = 1 := by
        unfold size_to_index SMALL_BUF_MIN_ORDER
        rw [(by decide : List.range 13 = [0, 1, 2, 3, 4, 5, 6, 7, 8, 9, 10, 11, 12])]
        simp [List.find?, h0, h1]
      simp only [kmalloc, hcase, if_neg hz]
      decide
    · by_cases h2 : size ≤ 128
      · have hcase : size_to_index size = 2 := by
          unfold size_to_index SMALL_BUF_MIN_ORDER
          rw [(by decide : List.range 13 = [0, 1, 2, 3, 4, 5, 6, 7, 8, 9, 10, 11, 12])]
          simp [List.find?, h0, h1, h2]
        simp only [kmalloc, hcase, if_neg hz]
        decide
      · by_cases h3 : size ≤ 256
        · have hcase : size_to_index size = 3 := by
            unfold size_to_index SMALL_BUF_MIN_ORDER
            rw [(by decide : List.range 13 = [0, 1, 2, 3, 4, 5, 6, 7, 8, 9, 10, 11, 12])]
            simp [List.find?, h0, h1, h2, h3]
          simp only [kmalloc, hcase, if_neg hz]
          decide
        · by_cases h4 : size ≤ 512
          · have hcase : size_to_index size = 4 := by
              unfold size_to_index SMALL_BUF_MIN_ORDER
              rw [(by decide : List.range 13 = [0, 1, 2, 3, 4, 5, 6, 7, 8, 9, 10, 11, 12])]
              simp [List.find?, h0, h1, h2, h3, h4]
            simp only [kmalloc, hcase, if_neg hz]
            decide
          · by_cases h5 : size ≤ 1024
            · have hcase : size_to_index size = 5 := by
                unfold size_to_index SMALL_BUF_MIN_ORDER
                rw [(by decide : List.range 13 = [0, 1, 2, 3, 4, 5, 6, 7, 8, 9, 10, 11, 12])]
                simp [List.find?, h0, h1, h2, h3, h4, h5]
              simp only [kmalloc, hcase, if_neg hz]
              decide
            · by_cases h6 : size ≤ 2048
              · have hcase : size_to_index size = 6 := by
                  unfold size_to_index SMALL_BUF_MIN_ORDER
                  rw [(by decide : List.range 13 = [0, 1, 2, 3, 4, 5, 6, 7, 8, 9, 10, 11, 12])]
                  simp [List.find?, h0, h1, h2, h3, h4, h5, h6]
                simp only [kmalloc, hcase, if_neg hz]
                decide
              · by_cases h7 : size ≤ 4096
                · have hcase : size_to_index size = 7 := by
                    unfold size_to_index SMALL_BUF_MIN_ORDER
                    rw [(by decide : List.range 13 = [0, 1, 2, 3, 4, 5, 6, 7, 8, 9, 10, 11, 12])]
                    simp [List.find?, h0, h1, h2, h3, h4, h5, h6, h7]
                  simp only [kmalloc, hcase, if_neg hz]
                  decide
                · by_cases h8 : size ≤ 8192
                  · have hcase : size_to_index size = 8 := by
                      unfold size_to_index SMALL_BUF_MIN_ORDER
                      rw [(by decide : List.range 13 = [0, 1, 2, 3, 4, 5, 6, 7, 8, 9, 10, 11, 12])]
                      simp [List.find?, h0, h1, h2, h3, h4, h5, h6, h7, h8]
                    simp only [kmalloc, hcase, if_neg hz]
                    decide
                  · by_cases h9 : size ≤ 16384
                    · have hcase : size_to_index size = 9 := by
                        unfold size_to_index SMALL_BUF_MIN_ORDER
                        rw [(by decide : List.range 13 = [0, 1, 2, 3, 4, 5, 6, 7, 8, 9, 10, 11, 12])]
                        simp [List.find?, h0, h1, h2, h3, h4, h5, h6, h7, h8, h9]
                      simp only [kmalloc, hcase, if_neg hz]
                      decide
                    · by_cases h10 : size ≤ 32768
                      · have hcase : size_to_index size = 10 := by
                          unfold size_to_index SMALL_BUF_MIN_ORDER
                          rw [(by decide : List.range 13 = [0, 1, 2, 3, 4, 5, 6, 7, 8, 9, 10, 11, 12])]
                          simp [List.find?, h0, h1, h2, h3, h4, h5, h6, h7, h8, h9, h10]
                        simp only [kmalloc, hcase, if_neg hz]
                        decide
                      · by_cases h11 : size ≤ 65536
                        · have hcase : size_to_index size = 11 := by
                            unfold size_to_index SMALL_BUF_MIN_ORDER
                            rw [(by decide : List.range 13 = [0, 1, 2, 3, 4, 5, 6, 7, 8, 9, 10, 11, 12])]
                            simp [List.find?, h0, h1, h2, h3, h4, h5, h6, h7, h8, h9, h10, h11]
                          simp only [kmalloc, hcase, if_neg hz]
                          decide
                        · have h12 : size ≤ 131072 := hs2
                          have hcase : size_to_index size = 12 := by
                            unfold size_to_index SMALL_BUF_MIN_ORDER
                            rw [(by decide : List.range 13 = [0, 1, 2, 3, 4, 5, 6, 7, 8, 9, 10, 11, 12])]
                            simp [List.find?, h0, h1, h2, h3, h4, h5, h6, h7, h8, h9, h10, h11, h12]
                          simp only [kmalloc, hcase, if_neg hz]
                          decide

/-- C8: small-buffer dispatch.  kmalloc returns null for size 0 and for
    any size above the largest class (131072); size_to_index agrees with
    the spec's smallest power-of-two class 2^k, 5 ≤ k ≤ 17, with size ≤
    2^k (so 2^(k−1) < size ≤ 2^k maps to the size-2^k cache); and for
    every size in range, kmalloc from a fresh state returns a non-null
    pointer owned by the class cache (its object size is 2^k, aligning
    the pointer down to that cache's slab size finds a header naming that
    cache, with the object's bitmap bit set), and kfree on that pointer
    dispatches back to the same cache and returns the object to it (no
    diagnostic, the bit is cleared, and the cache's free object count is
    fully restored). -/
theorem c8_small_buffer_dispatch :
    (∀ kst : KState, kmalloc kst 0 = (kst, 0)) ∧
    (∀ (kst : KState) (size : Nat), 131072 < size → kmalloc kst size = (kst, 0)) ∧
    (∀ size : Nat, size_to_index size =
      match spec_small_class size with
      | some k => ((k - 5 : Nat) : Int)
      | none => -1) ∧
    (∀ size : Nat, 1 ≤ size → size ≤ 131072 →
      let i := (size_to_index size).toNat
      let r := kmalloc kmem_init size
      let rf := kfree r.1 r.2
      r.2 ≠ 0 ∧
      (kclassCache r.1 i).map (fun c => c.obj_size) =
        some (2 ^ (SMALL_BUF_MIN_ORDER + i)) ∧
      (kownerSlab r.1 i r.2).map (fun s => s.cache_id) =
        (kclassCache r.1 i).map (fun c => c.id) ∧
      (kownerSlab r.1 i r.2).map (fun s => s.bitmap.getD 0 true) = some true ∧
      rf.2 = false ∧
      (kownerSlab rf.1 i r.2).map (fun s => s.bitmap.getD 0 true) = some false ∧
      (kclassCache rf.1 i).map (fun c => c.free_objs) =
        (kclassCache rf.1 i).map (fun c => (c.obj_per_slab : Int))) :=
  ⟨kmalloc_zero, kmalloc_too_large, size_to_index_matches_spec, kmalloc_kfree_dispatch⟩

theorem c8_small_buffer_dispatch_witness :
    (kmalloc kmem_init 100).2 ≠ 0 ∧
      (kfree (kmalloc kmem_init 100).1 (kmalloc kmem_init 100).2).2 = false := by
  have h := c8_small_buffer_dispatch.2.2.2 100 (by omega) (by omega)
  exact ⟨h.1, h.2.2.2.2.1⟩

/- ============================================================ -/
/- Claim C3 -/
/- ============================================================ -/

/-- Bytes of a block of the given order: 2^o · BLOCK_SIZE (the size term
    `(1UL << o) * BLOCK_SIZE` of buddy.c). -/
def bb (o : Nat) : Nat := 2 ^ o * BLOCK_SIZE

/-- The per-order free lists as a multiset of (order, address) pairs,
    starting the order count at `k`. -/
def freeMSgo : Nat → List (List Nat) → Multiset (Nat × Nat)
  | _, [] => 0
  | o, l :: rest => (l : Multiset Nat).map (fun a => (o, a)) + freeMSgo (o + 1) rest

/-- The free lists of a buddy allocator viewed as a multiset of
    (order, address) pairs — the observation the round-trip claim
    compares. -/
def freeMS (fr : List (List Nat)) : Multiset (Nat × Nat) := freeMSgo 0 fr

/-- A region `[base, base + bb m)` holds no allocated block of `A`. -/
def BlockFree (A : List (Nat × Nat)) (m base : Nat) : Prop :=
  ∀ p ∈ A, p.2 + bb p.1 ≤ base ∨ base + bb m ≤ p.2

instance (A : List (Nat × Nat)) (m base : Nat) : Decidable (BlockFree A m base) :=
  List.decidableBAll _ A

/-- The maximal wholly-free sub-blocks of the buddy tree rooted at
    `(m, base)`, given the allocated blocks `A`: the node itself when its
    region is free, else the recursion into its two buddy halves. -/
def nodeFree (A : List (Nat × Nat)) : Nat → Nat → List (Nat × Nat)
  | 0, base => if BlockFree A 0 base then [(0, base)] else []
  | m + 1, base =>
    if BlockFree A (m + 1) base then [(m + 1, base)]
    else nodeFree A m base ++ nodeFree A m (base + bb m)

/-- Canonical free-block list of the forest of initial top blocks `T`
    under the allocated blocks `A`. -/
def canonical (T A : List (Nat × Nat)) : List (Nat × Nat) :=
  T.bind (fun t => nodeFree A t.1 t.2)

/-- Node `n` is a (tree-aligned) descendant of node `t`. -/
def Desc (t n : Nat × Nat) : Prop :=
  n.1 ≤ t.1 ∧ t.2 ≤ n.2 ∧ n.2 + bb n.1 ≤ t.2 + bb t.1 ∧ (n.2 - t.2) % bb n.1 = 0

/-- Node `n` belongs to the buddy forest with top blocks `T`. -/
def TreeNode (T : List (Nat × Nat)) (n : Nat × Nat) : Prop :=
  ∃ t ∈ T, Desc t n

/-- The blocks pushed by the split loop of buddy_alloc when a block of
    order `otgt + c` at `blk` is split down to order `otgt`: the upper
    halves at orders `otgt + c − 1, …, otgt`. -/
def splitsL (blk otgt : Nat) : Nat → List (Nat × Nat)
  | 0 => []
  | c + 1 => (otgt + c, blk + bb (otgt + c)) :: splitsL blk otgt c

theorem bb_pos (o : Nat) : 0 < bb o := by
  unfold bb BLOCK_SIZE
  positivity

theorem bb_mono {o o2 : Nat} (h : o ≤ o2) : bb o ≤ bb o2 := by
  unfold bb
  exact Nat.mul_le_mul_right _ (Nat.pow_le_pow_right (by norm_num) h)

theorem bb_succ (o : Nat) : bb (o + 1) = bb o + bb o := by
  unfold bb
  rw [pow_succ]
  ring

theorem bb_dvd {o o2 : Nat} (h : o ≤ o2) : bb o ∣ bb o2 := by
  unfold bb
  obtain ⟨k, rfl⟩ := Nat.exists_eq_add_of_le h
  exact ⟨2 ^ k, by rw [pow_add]; ring⟩

theorem getD_set_self_g {α : Type} (l : List α) (i : Nat) (a d : α) (h : i < l.length) :
    (l.set i a).getD i d = a := by
  induction l generalizing i with
  | nil => simp at h
  | cons hd t ih =>
    cases i with
    | zero => simp
    | succ m =>
      simp only [List.set_cons_succ, List.getD_cons_succ]
      exact ih m (by simpa using h)

theorem getD_set_ne_g {α : Type} (l : List α) (i j : Nat) (a d : α) (h : j ≠ i) :
    (l.set i a).getD j d = l.getD j d := by
  induction l generalizing i j with
  | nil => simp
  | cons hd t ih =>
    cases i with
    | zero =>
      cases j with
      | zero => exact absurd rfl h
      | succ m => simp
    | succ m =>
      cases j with
      | zero => simp
      | succ r =>
        simp only [List.set_cons_succ, List.getD_cons_succ]
        exact ih m r (fun hh => h (by rw [hh]))

theorem freeMSgo_set (fr : List (List Nat)) :
    ∀ (k o : Nat) (L : List Nat), o < fr.length →
      freeMSgo k (fr.set o L) + ((fr.getD o [] : Multiset Nat).map (fun a => (k + o, a))) =
        freeMSgo k fr + ((L : Multiset Nat).map (fun a => (k + o, a))) := by
  induction fr with
  | nil =>
    intro k o L h
    simp at h
  | cons hd t ih =>
    intro k o L h
    cases o with
    | zero =>
      simp only [List.set_cons_zero, freeMSgo, List.getD_cons_zero, Nat.add_zero]
      abel
    | succ m =>
      simp only [List.set_cons_succ, freeMSgo, List.getD_cons_succ]
      have h2 := ih (k + 1) m L (by simpa using h)
      rw [(by omega : k + (m + 1) = k + 1 + m), add_assoc, h2, ← add_assoc]

theorem freeMSgo_mem (fr : List (List Nat)) :
    ∀ (k : Nat) (p : Nat × Nat), p ∈ freeMSgo k fr ↔
      ∃ i, i < fr.length ∧ p.1 = k + i ∧ p.2 ∈ fr.getD i [] := by
  induction fr with
  | nil =>
    intro k p
    simp [freeMSgo]
  | cons hd t ih =>
    intro k p
    simp only [freeMSgo, Multiset.mem_add, Multiset.mem_map]
    constructor
    · intro h
      rcases h with h | h
      · obtain ⟨a, ha, rfl⟩ := h
        exact ⟨0, by simp, by simp, by simpa using ha⟩
      · obtain ⟨i, hi, h1, h2⟩ := (ih (k + 1) p).mp h
        exact ⟨i + 1, by simpa using hi, by omega, by simpa using h2⟩
    · rintro ⟨i, hi, h1, h2⟩
      cases i with
      | zero =>
        left
        refine ⟨p.2, by simpa using h2, ?_⟩
        simp at h1
        rw [← h1]
      | succ m =>
        right
        refine (ih (k + 1) p).mpr ⟨m, by simpa using hi, by omega, by simpa using h2⟩

/- ============================================================ -/
/- Claim C3: buddy round-trip -/
/- ============================================================ -/

/-- XOR of a number divisible by 2^n with a number below 2^n is their sum
    (the XOR acts only on the low, zero, bits). -/
theorem xor_eq_add_of_mod : ∀ (n : Nat), ∀ a b : Nat, a % 2 ^ n = 0 → b < 2 ^ n → a ^^^ b = a + b := by
  intro n
  induction n with
  | zero =>
    intro a b ha hb
    have hb1 : b < 1 := by simpa using hb
    have hb0 : b = 0 := by omega
    subst hb0
    simp
  | succ n ih =>
    intro a b ha hb
    have hdvd : 2 ∣ a := dvd_trans ⟨2 ^ n, by rw [pow_succ]; ring⟩ (Nat.dvd_of_mod_eq_zero ha)
    have h2a : a % 2 = 0 := by
      obtain ⟨k, hk⟩ := hdvd
      omega
    have hba : Nat.bodd a = false := by
      have hmt := Nat.mod_two_of_bodd a
      cases hx : Nat.bodd a
      · rfl
      · rw [hx] at hmt
        simp at hmt
        omega
    have ha2 : Nat.div2 a % 2 ^ n = 0 := by
      rw [Nat.div2_val]
      obtain ⟨k, rfl⟩ := Nat.dvd_of_mod_eq_zero ha
      rw [pow_succ, (by ring : 2 ^ n * 2 * k = 2 * (2 ^ n * k))]
      rw [Nat.mul_div_cancel_left _ (by norm_num)]
      simp [Nat.mul_mod_right]
    have hb2 : Nat.div2 b < 2 ^ n := by
      rw [Nat.div2_val]
      have hp : (2 : Nat) ^ (n + 1) = 2 * 2 ^ n := by rw [pow_succ]; ring
      omega
    have haa := Nat.bodd_add_div2 a
    have hbbb := Nat.bodd_add_div2 b
    conv_lhs => rw [← Nat.bit_decomp a, ← Nat.bit_decomp b]
    rw [Nat.xor_bit, hba, ih _ _ ha2 hb2]
    cases hbb : Nat.bodd b
    · rw [(by rfl : bne false false = false)]
      rw [Nat.bit_val]
      rw [hba] at haa
      rw [hbb] at hbbb
      simp only [Bool.toNat_false] at haa hbbb
      simp only [Bool.toNat_false]
      omega
    · rw [(by rfl : bne false true = true)]
      rw [Nat.bit_val]
      rw [hba] at haa
      rw [hbb] at hbbb
      simp only [Bool.toNat_false, Bool.toNat_true] at haa hbbb
      simp only [Bool.toNat_true]
      omega

theorem bb_eq_pow (j : Nat) : bb j = 2 ^ (j + 12) := by
  unfold bb BLOCK_SIZE
  rw [pow_add]
  norm_num

/-- The XOR-buddy address computed by buddy_free: for a block offset
    divisible by the block size, XOR with the size yields the sibling —
    the next block up when the block index is even, the previous one when
    it is odd. -/
theorem xor_sibling (j off : Nat) (hd : bb j ∣ off) :
    off ^^^ bb j = if (off / bb j) % 2 = 0 then off + bb j else off - bb j := by
  obtain ⟨t, rfl⟩ := hd
  have hpos : 0 < bb j := bb_pos j
  have hq : bb j * t / bb j = t := Nat.mul_div_cancel_left t hpos
  rw [hq]
  rcases Nat.even_or_odd t with he | ho
  · obtain ⟨u, rfl⟩ := he
    rw [if_pos (by omega)]
    have hrw : bb j * (u + u) = 2 ^ (j + 13) * u := by
      rw [bb_eq_pow, (by omega : j + 13 = (j + 12) + 1), pow_succ]
      ring
    rw [hrw]
    refine xor_eq_add_of_mod (j + 13) _ _ (by simp [Nat.mul_mod_right, Nat.mul_comm]) ?_
    rw [bb_eq_pow]
    exact Nat.pow_lt_pow_right (by norm_num) (by omega)
  · obtain ⟨u, rfl⟩ := ho
    rw [if_neg (by omega)]
    have hrw : bb j * (2 * u + 1) = 2 ^ (j + 13) * u + bb j := by
      rw [bb_eq_pow, (by omega : j + 13 = (j + 12) + 1), pow_succ]
      ring
    rw [hrw]
    have h1 : 2 ^ (j + 13) * u ^^^ bb j = 2 ^ (j + 13) * u + bb j := by
      refine xor_eq_add_of_mod (j + 13) _ _ (by simp [Nat.mul_mod_right, Nat.mul_comm]) ?_
      rw [bb_eq_pow]
      exact Nat.pow_lt_pow_right (by norm_num) (by omega)
    rw [← h1, Nat.xor_assoc, Nat.xor_self, Nat.xor_zero]
    omega

/-- If a positive number divides two others, a strict inequality between
    them leaves room for one more multiple. -/
theorem add_dvd_le {a x y : Nat} (ha : 0 < a) (hx : a ∣ x) (hy : a ∣ y) (h : x < y) :
    x + a ≤ y := by
  have hd : a ∣ y - x := Nat.dvd_sub' hy hx
  have := Nat.le_of_dvd (by omega) hd
  omega

theorem blockFree_of_cons {x : Nat × Nat} {A : List (Nat × Nat)} {m base : Nat}
    (h : BlockFree (x :: A) m base) : BlockFree A m base :=
  fun p hp => h p (List.mem_cons_of_mem _ hp)

theorem blockFree_cons {x : Nat × Nat} {A : List (Nat × Nat)} {m base : Nat}
    (hx : x.2 + bb x.1 ≤ base ∨ base + bb m ≤ x.2) (h : BlockFree A m base) :
    BlockFree (x :: A) m base := by
  intro p hp
  rcases List.mem_cons.mp hp with rfl | hp
  · exact hx
  · exact h p hp

theorem blockFree_congr {A1 A2 : List (Nat × Nat)} {m base : Nat}
    (h : ∀ p, p ∈ A1 ↔ p ∈ A2) : BlockFree A1 m base ↔ BlockFree A2 m base := by
  constructor
  · intro hf p hp
    exact hf p ((h p).mpr hp)
  · intro hf p hp
    exact hf p ((h p).mp hp)

theorem blockFree_sub {A : List (Nat × Nat)} {q b m base : Nat}
    (hq : base ≤ b) (hb : b + bb q ≤ base + bb m) (h : BlockFree A m base) :
    BlockFree A q b := by
  intro p hp
  rcases h p hp with h1 | h2
  · left; omega
  · right; omega

theorem blockFree_join {A : List (Nat × Nat)} {o c : Nat}
    (h1 : BlockFree A o c) (h2 : BlockFree A o (c + bb o)) : BlockFree A (o + 1) c := by
  intro p hp
  have g1 := h1 p hp
  have g2 := h2 p hp
  have hb := bb_pos p.1
  have hs := bb_succ o
  omega

theorem not_blockFree {A : List (Nat × Nat)} {m base : Nat} (p : Nat × Nat) (hp : p ∈ A)
    (h1 : base < p.2 + bb p.1) (h2 : p.2 < base + bb m) : ¬ BlockFree A m base := by
  intro h
  rcases h p hp with h' | h' <;> omega

theorem desc_refl (n : Nat × Nat) : Desc n n :=
  ⟨le_refl _, le_refl _, le_refl _, by simp⟩

theorem desc_trans {a b c : Nat × Nat} (h1 : Desc a b) (h2 : Desc b c) : Desc a c := by
  obtain ⟨o1, s1, e1, d1⟩ := h1
  obtain ⟨o2, s2, e2, d2⟩ := h2
  refine ⟨le_trans o2 o1, le_trans s1 s2, le_trans e2 e1, ?_⟩
  have hca : c.2 - a.2 = (c.2 - b.2) + (b.2 - a.2) := by omega
  rw [hca]
  have hd1 : bb c.1 ∣ (c.2 - b.2) := Nat.dvd_of_mod_eq_zero d2
  have hd2 : bb c.1 ∣ (b.2 - a.2) :=
    dvd_trans (bb_dvd o2) (Nat.dvd_of_mod_eq_zero d1)
  exact Nat.mod_eq_zero_of_dvd (Nat.dvd_add hd1 hd2)

theorem desc_left (m base : Nat) : Desc (m + 1, base) (m, base) := by
  refine ⟨by omega, le_refl _, ?_, by simp⟩
  have := bb_succ m
  simp only []
  omega

theorem desc_right (m base : Nat) : Desc (m + 1, base) (m, base + bb m) := by
  refine ⟨by omega, by omega, ?_, ?_⟩
  · have := bb_succ m
    simp only []
    omega
  · simp

/-- Every entry of nodeFree is a tree-aligned descendant of the node with
    a wholly free region. -/
theorem nodeFree_mem {A : List (Nat × Nat)} :
    ∀ (m base : Nat) (n : Nat × Nat), n ∈ nodeFree A m base →
      Desc (m, base) n ∧ BlockFree A n.1 n.2 := by
  intro m
  induction m with
  | zero =>
    intro base n h
    rw [nodeFree] at h
    by_cases hf : BlockFree A 0 base
    · rw [if_pos hf] at h
      rcases List.mem_singleton.mp h with rfl
      exact ⟨desc_refl _, hf⟩
    · rw [if_neg hf] at h
      exact absurd h (List.not_mem_nil n)
  | succ m ih =>
    intro base n h
    rw [nodeFree] at h
    by_cases hf : BlockFree A (m + 1) base
    · rw [if_pos hf] at h
      rcases List.mem_singleton.mp h with rfl
      exact ⟨desc_refl _, hf⟩
    · rw [if_neg hf] at h
      rcases List.mem_append.mp h with h | h
      · obtain ⟨hd, hb⟩ := ih base n h
        exact ⟨desc_trans (desc_left m base) hd, hb⟩
      · obtain ⟨hd, hb⟩ := ih (base + bb m) n h
        exact ⟨desc_trans (desc_right m base) hd, hb⟩

theorem nodeFree_free {A : List (Nat × Nat)} {m base : Nat} (h : BlockFree A m base) :
    nodeFree A m base = [(m, base)] := by
  cases m with
  | zero => rw [nodeFree, if_pos h]
  | succ m => rw [nodeFree, if_pos h]

/-- A node whose region is wholly covered by an allocated block
    contributes nothing. -/
theorem nodeFree_covered {A : List (Nat × Nat)} (p : Nat × Nat) (hp : p ∈ A) :
    ∀ (m base : Nat), p.2 ≤ base → base + bb m ≤ p.2 + bb p.1 →
      nodeFree A m base = [] := by
  intro m
  induction m with
  | zero =>
    intro base h1 h2
    have hb := bb_pos 0
    have hb2 := bb_pos p.1
    rw [nodeFree, if_neg (not_blockFree p hp (by omega) (by omega))]
  | succ m ih =>
    intro base h1 h2
    have hb := bb_pos (m + 1)
    have hb2 := bb_pos p.1
    have hs := bb_succ m
    rw [nodeFree, if_neg (not_blockFree p hp (by omega) (by omega))]
    rw [ih base h1 (by omega), ih (base + bb m) (by omega) (by omega)]
    rfl

/-- nodeFree only looks at BlockFree on subregions of its node. -/
theorem nodeFree_ext {A1 A2 : List (Nat × Nat)} :
    ∀ (m base : Nat),
      (∀ q b, base ≤ b → b + bb q ≤ base + bb m → (BlockFree A1 q b ↔ BlockFree A2 q b)) →
      nodeFree A1 m base = nodeFree A2 m base := by
  intro m
  induction m with
  | zero =>
    intro base h
    have hiff := h 0 base (le_refl _) (le_refl _)
    by_cases hf : BlockFree A1 0 base
    · rw [nodeFree, if_pos hf, nodeFree, if_pos (hiff.mp hf)]
    · rw [nodeFree, if_neg hf, nodeFree, if_neg (fun hc => hf (hiff.mpr hc))]
  | succ m ih =>
    intro base h
    have hs := bb_succ m
    have hiff := h (m + 1) base (le_refl _) (le_refl _)
    by_cases hf : BlockFree A1 (m + 1) base
    · rw [nodeFree, if_pos hf, nodeFree, if_pos (hiff.mp hf)]
    · rw [nodeFree, if_neg hf, nodeFree, if_neg (fun hc => hf (hiff.mpr hc))]
      rw [ih base (fun q b h1 h2 => h q b h1 (by omega)),
        ih (base + bb m) (fun q b h1 h2 => h q b (by omega) (by omega))]

/-- Allocated blocks disjoint from a node's region do not change its
    free decomposition. -/
theorem nodeFree_cons_of_disjoint {x : Nat × Nat} {A : List (Nat × Nat)} {m base : Nat}
    (hx : x.2 + bb x.1 ≤ base ∨ base + bb m ≤ x.2) :
    nodeFree (x :: A) m base = nodeFree A m base := by
  refine nodeFree_ext m base (fun q b h1 h2 => ?_)
  constructor
  · exact blockFree_of_cons
  · exact blockFree_cons (by rcases hx with h | h; exacts [Or.inl (by omega), Or.inr (by omega)])

theorem half_split {J p m base : Nat} (hJ : J ≤ m) (h1 : base ≤ p)
    (h2 : p + bb J ≤ base + bb (m + 1)) (hal : (p - base) % bb J = 0) :
    p + bb J ≤ base + bb m ∨ base + bb m ≤ p := by
  by_contra hc
  push_neg at hc
  obtain ⟨hc1, hc2⟩ := hc
  have hd1 : bb J ∣ (p - base) := Nat.dvd_of_mod_eq_zero hal
  have hdm : bb J ∣ bb m := bb_dvd hJ
  have hdd : bb J ∣ (bb m - (p - base)) := Nat.dvd_sub' hdm hd1
  have hlt : bb m - (p - base) < bb J := by omega
  have hpos : 0 < bb m - (p - base) := by omega
  have := Nat.le_of_dvd hpos hdd
  omega

/-- Allocating a block at the base of a free node of the decomposition
    replaces that node's contribution by its own sub-decomposition. -/
theorem nodeFree_alloc {A : List (Nat × Nat)} {j J pa : Nat} (hj : j ≤ J) :
    ∀ (m base : Nat), (J, pa) ∈ nodeFree A m base →
      (nodeFree ((j, pa) :: A) m base : Multiset (Nat × Nat)) + {(J, pa)} =
        (nodeFree A m base : Multiset (Nat × Nat)) + ↑(nodeFree ((j, pa) :: A) J pa) := by
  intro m
  induction m with
  | zero =>
    intro base h
    rw [nodeFree] at h
    by_cases hf : BlockFree A 0 base
    · rw [if_pos hf] at h
      rcases List.mem_singleton.mp h with h
      have hJ0 : J = 0 ∧ pa = base := by
        constructor <;> [exact congrArg Prod.fst h; exact congrArg Prod.snd h]
      obtain ⟨rfl, rfl⟩ := hJ0
      rw [nodeFree_free hf, Multiset.coe_singleton]
      exact add_comm _ _
    · rw [if_neg hf] at h
      exact absurd h (List.not_mem_nil _)
  | succ m ih =>
    intro base h
    rw [nodeFree] at h
    by_cases hf : BlockFree A (m + 1) base
    · rw [if_pos hf] at h
      rcases List.mem_singleton.mp h with h
      have hJ0 : J = m + 1 ∧ pa = base := by
        constructor <;> [exact congrArg Prod.fst h; exact congrArg Prod.snd h]
      obtain ⟨rfl, rfl⟩ := hJ0
      rw [nodeFree_free hf, Multiset.coe_singleton]
      exact add_comm _ _
    · rw [if_neg hf] at h
      have hnf2 : ¬ BlockFree ((j, pa) :: A) (m + 1) base :=
        fun hc => hf (blockFree_of_cons hc)
      rw [nodeFree, if_neg hnf2, nodeFree, if_neg hf]
      rcases List.mem_append.mp h with hm | hm
      · obtain ⟨hd, _⟩ := nodeFree_mem m base (J, pa) hm
        have hdisj : (j, pa).2 + bb (j, pa).1 ≤ base + bb m ∨ base + bb m + bb m ≤ (j, pa).2 := by
          left
          have h1 : pa + bb J ≤ base + bb m := hd.2.2.1
          have h2 : bb j ≤ bb J := bb_mono hj
          simp only []
          omega
        simp only [← Multiset.coe_add]
        rw [@nodeFree_cons_of_disjoint (j, pa) A m (base + bb m) hdisj]
        have key := ih base hm
        calc (nodeFree ((j, pa) :: A) m base : Multiset (Nat × Nat)) +
              ↑(nodeFree A m (base + bb m)) + {(J, pa)}
            = (nodeFree ((j, pa) :: A) m base : Multiset (Nat × Nat)) + {(J, pa)} +
              ↑(nodeFree A m (base + bb m)) := by abel
          _ = (nodeFree A m base : Multiset (Nat × Nat)) + ↑(nodeFree ((j, pa) :: A) J pa) +
              ↑(nodeFree A m (base + bb m)) := by rw [key]
          _ = (nodeFree A m base : Multiset (Nat × Nat)) + ↑(nodeFree A m (base + bb m)) +
              ↑(nodeFree ((j, pa) :: A) J pa) := by abel
      · obtain ⟨hd, _⟩ := nodeFree_mem m (base + bb m) (J, pa) hm
        have hdisj : (j, pa).2 + bb (j, pa).1 ≤ base ∨ base + bb m ≤ (j, pa).2 := by
          right
          exact hd.2.1
        simp only [← Multiset.coe_add]
        rw [@nodeFree_cons_of_disjoint (j, pa) A m base hdisj]
        have key := ih (base + bb m) hm
        calc (nodeFree A m base : Multiset (Nat × Nat)) +
              ↑(nodeFree ((j, pa) :: A) m (base + bb m)) + {(J, pa)}
            = (nodeFree ((j, pa) :: A) m (base + bb m) : Multiset (Nat × Nat)) + {(J, pa)} +
              ↑(nodeFree A m base) := by abel
          _ = (nodeFree A m (base + bb m) : Multiset (Nat × Nat)) +
              ↑(nodeFree ((j, pa) :: A) J pa) + ↑(nodeFree A m base) := by rw [key]
          _ = (nodeFree A m base : Multiset (Nat × Nat)) + ↑(nodeFree A m (base + bb m)) +
              ↑(nodeFree ((j, pa) :: A) J pa) := by abel

/-- The sub-decomposition of a free node whose base has just been
    allocated at a smaller order is exactly the split list pushed by
    buddy_alloc. -/
theorem nodeFree_splits {A : List (Nat × Nat)} {j pa : Nat} :
    ∀ c, BlockFree A (j + c) pa →
      (nodeFree ((j, pa) :: A) (j + c) pa : Multiset (Nat × Nat)) = ↑(splitsL pa j c) := by
  intro c
  induction c with
  | zero =>
    intro h
    show (nodeFree ((j, pa) :: A) j pa : Multiset (Nat × Nat)) = ↑(splitsL pa j 0)
    rw [nodeFree_covered (j, pa) (List.mem_cons_self _ _) j pa (le_refl _) (le_refl _)]
    rfl
  | succ c ih =>
    intro h
    have h2 : BlockFree A (j + c + 1) pa := h
    have hb1 := bb_pos j
    have hb2 := bb_pos (j + c + 1)
    have hbs := bb_succ (j + c)
    have hmono : bb j ≤ bb (j + c) := bb_mono (by omega)
    have hnf : ¬ BlockFree ((j, pa) :: A) (j + c + 1) pa :=
      not_blockFree (j, pa) (List.mem_cons_self _ _) (show pa < pa + bb j by omega)
        (show pa < pa + bb (j + c + 1) by omega)
    show (nodeFree ((j, pa) :: A) ((j + c) + 1) pa : Multiset (Nat × Nat)) = _
    rw [nodeFree, if_neg hnf]
    have hsub : BlockFree A (j + c) pa :=
      blockFree_sub (le_refl _) (show pa + bb (j + c) ≤ pa + bb (j + c + 1) by omega) h2
    have hfree : BlockFree ((j, pa) :: A) (j + c) (pa + bb (j + c)) := by
      refine blockFree_cons (Or.inl (show pa + bb j ≤ pa + bb (j + c) by omega)) ?_
      exact blockFree_sub (show pa ≤ pa + bb (j + c) by omega)
        (show pa + bb (j + c) + bb (j + c) ≤ pa + bb (j + c + 1) by omega) h2
    rw [nodeFree_free hfree]
    simp only [← Multiset.coe_add]
    rw [ih hsub]
    show _ = (splitsL pa j (c + 1) : Multiset (Nat × Nat))
    rw [splitsL]
    have hcc : ((((j + c, pa + bb (j + c))) :: splitsL pa j c : List (Nat × Nat)) :
        Multiset (Nat × Nat)) = (j + c, pa + bb (j + c)) ::ₘ ↑(splitsL pa j c) := rfl
    rw [hcc, Multiset.coe_singleton, add_comm, Multiset.singleton_add]

/-- Merging a just-freed block with its free buddy: with the current
    block still regarded as allocated, the decomposition loses the buddy
    and gains nothing else when the allocation moves up to the parent. -/
theorem nodeFree_merge {A : List (Nat × Nat)} {o c s p : Nat}
    (hcs : c = p ∧ s = p + bb o ∨ s = p ∧ c = p + bb o)
    (hfs : BlockFree A o s) :
    ∀ (m base : Nat), Desc (m, base) (o + 1, p) →
      (nodeFree ((o, c) :: A) m base : Multiset (Nat × Nat)) =
        {(o, s)} + ↑(nodeFree ((o + 1, p) :: A) m base) := by
  have key : ∀ (k base : Nat), Desc (o + 1 + k, base) (o + 1, p) →
      (nodeFree ((o, c) :: A) (o + 1 + k) base : Multiset (Nat × Nat)) =
        {(o, s)} + ↑(nodeFree ((o + 1, p) :: A) (o + 1 + k) base) := by
    intro k
    induction k with
    | zero =>
      intro base hd
      have hb1 : base ≤ p := hd.2.1
      have hb2 : p + bb (o + 1) ≤ base + bb (o + 1) := hd.2.2.1
      have hbp := bb_pos (o + 1)
      have hpb : base = p := by omega
      subst hpb
      show (nodeFree ((o, c) :: A) (o + 1) base : Multiset (Nat × Nat)) =
        {(o, s)} + ↑(nodeFree ((o + 1, base) :: A) (o + 1) base)
      have hcov : nodeFree ((o + 1, base) :: A) (o + 1) base = [] :=
        nodeFree_covered (o + 1, base) (List.mem_cons_self _ _) (o + 1) base
          (le_refl _) (le_refl _)
      rw [hcov]
      rcases hcs with ⟨hc1, hs1⟩ | ⟨hs1, hc1⟩
      · rw [hc1, hs1]
        rw [hs1] at hfs
        have hb := bb_pos o
        have hbo := bb_succ o
        have hnl : ¬ BlockFree ((o, base) :: A) (o + 1) base :=
          not_blockFree (o, base) (List.mem_cons_self _ _)
            (show base < base + bb o by omega) (show base < base + bb (o + 1) by omega)
        rw [nodeFree, if_neg hnl]
        rw [nodeFree_covered (o, base) (List.mem_cons_self _ _) o base (le_refl _) (le_refl _)]
        have hfr : BlockFree ((o, base) :: A) o (base + bb o) :=
          blockFree_cons (Or.inl (show base + bb o ≤ base + bb o by omega)) hfs
        rw [nodeFree_free hfr]
        simp
      · rw [hc1, hs1]
        rw [hs1] at hfs
        have hb := bb_pos o
        have hbo := bb_succ o
        have hnl : ¬ BlockFree ((o, base + bb o) :: A) (o + 1) base :=
          not_blockFree (o, base + bb o) (List.mem_cons_self _ _)
            (show base < base + bb o + bb o by omega)
            (show base + bb o < base + bb (o + 1) by omega)
        rw [nodeFree, if_neg hnl]
        have hfr : BlockFree ((o, base + bb o) :: A) o base :=
          blockFree_cons (Or.inr (show base + bb o ≤ base + bb o by omega)) hfs
        rw [nodeFree_free hfr]
        rw [nodeFree_covered (o, base + bb o) (List.mem_cons_self _ _) o (base + bb o)
          (le_refl _) (le_refl _)]
        simp
    | succ k ih =>
      intro base hd
      have hb1 : base ≤ p := hd.2.1
      have hb2 : p + bb (o + 1) ≤ base + bb (o + 1 + k + 1) := hd.2.2.1
      have hal : (p - base) % bb (o + 1) = 0 := hd.2.2.2
      have hbs := bb_succ (o + 1 + k)
      have hbp := bb_pos o
      have hbo := bb_succ o
      have hbm : bb (o + 1) ≤ bb (o + 1 + k) := bb_mono (by omega)
      have hcin : p ≤ c ∧ c + bb o ≤ p + bb (o + 1) := by
        rcases hcs with ⟨rfl, rfl⟩ | ⟨rfl, rfl⟩ <;> constructor <;> omega
      have hsplit := half_split (show o + 1 ≤ o + 1 + k by omega) hb1 hb2 hal
      have hnl : ¬ BlockFree ((o, c) :: A) (o + 1 + k + 1) base :=
        not_blockFree (o, c) (List.mem_cons_self _ _)
          (show base < c + bb o by omega)
          (show c < base + bb (o + 1 + k + 1) by omega)
      have hnr : ¬ BlockFree ((o + 1, p) :: A) (o + 1 + k + 1) base :=
        not_blockFree (o + 1, p) (List.mem_cons_self _ _)
          (show base < p + bb (o + 1) by omega)
          (show p < base + bb (o + 1 + k + 1) by omega)
      show (nodeFree ((o, c) :: A) ((o + 1 + k) + 1) base : Multiset (Nat × Nat)) =
        {(o, s)} + ↑(nodeFree ((o + 1, p) :: A) ((o + 1 + k) + 1) base)
      rw [nodeFree, if_neg hnl, nodeFree, if_neg hnr]
      simp only [← Multiset.coe_add]
      rcases hsplit with hL | hR
      · have hdL : Desc (o + 1 + k, base) (o + 1, p) :=
          ⟨by show o + 1 ≤ o + 1 + k; omega, hb1,
            by show p + bb (o + 1) ≤ base + bb (o + 1 + k); omega, hal⟩
        rw [ih base hdL]
        have hd1 : (o, c).2 + bb (o, c).1 ≤ base + bb (o + 1 + k) ∨
            base + bb (o + 1 + k) + bb (o + 1 + k) ≤ (o, c).2 :=
          Or.inl (show c + bb o ≤ base + bb (o + 1 + k) by omega)
        have hd2 : (o + 1, p).2 + bb (o + 1, p).1 ≤ base + bb (o + 1 + k) ∨
            base + bb (o + 1 + k) + bb (o + 1 + k) ≤ (o + 1, p).2 :=
          Or.inl (show p + bb (o + 1) ≤ base + bb (o + 1 + k) by omega)
        rw [@nodeFree_cons_of_disjoint (o, c) A (o + 1 + k) (base + bb (o + 1 + k)) hd1,
          @nodeFree_cons_of_disjoint (o + 1, p) A (o + 1 + k) (base + bb (o + 1 + k)) hd2]
        abel
      · have hal2 : (p - (base + bb (o + 1 + k))) % bb (o + 1) = 0 := by
          have d1 : bb (o + 1) ∣ (p - base) := Nat.dvd_of_mod_eq_zero hal
          have d2 : bb (o + 1) ∣ bb (o + 1 + k) := bb_dvd (by omega)
          have heq : p - (base + bb (o + 1 + k)) = (p - base) - bb (o + 1 + k) := by omega
          rw [heq]
          exact Nat.mod_eq_zero_of_dvd (Nat.dvd_sub' d1 d2)
        have hdR : Desc (o + 1 + k, base + bb (o + 1 + k)) (o + 1, p) :=
          ⟨by show o + 1 ≤ o + 1 + k; omega, hR,
            by show p + bb (o + 1) ≤ base + bb (o + 1 + k) + bb (o + 1 + k); omega, hal2⟩
        rw [ih (base + bb (o + 1 + k)) hdR]
        have hd1 : (o, c).2 + bb (o, c).1 ≤ base ∨ base + bb (o + 1 + k) ≤ (o, c).2 :=
          Or.inr (show base + bb (o + 1 + k) ≤ c by omega)
        have hd2 : (o + 1, p).2 + bb (o + 1, p).1 ≤ base ∨ base + bb (o + 1 + k) ≤ (o + 1, p).2 :=
          Or.inr (show base + bb (o + 1 + k) ≤ p by omega)
        rw [@nodeFree_cons_of_disjoint (o, c) A (o + 1 + k) base hd1,
          @nodeFree_cons_of_disjoint (o + 1, p) A (o + 1 + k) base hd2]
        abel
  intro m base hd
  obtain ⟨k, rfl⟩ := Nat.exists_eq_add_of_le hd.1
  exact key k base hd

/-- A free tree node whose parent region is not wholly free appears in
    the decomposition of any node above it. -/
theorem nodeFree_node_in {A : List (Nat × Nat)} {o s p : Nat}
    (hsp : s = p ∨ s = p + bb o) (hfs : BlockFree A o s) (hnp : ¬ BlockFree A (o + 1) p) :
    ∀ (m base : Nat), Desc (m, base) (o + 1, p) → (o, s) ∈ nodeFree A m base := by
  have key : ∀ (k base : Nat), Desc (o + 1 + k, base) (o + 1, p) →
      (o, s) ∈ nodeFree A (o + 1 + k) base := by
    intro k
    induction k with
    | zero =>
      intro base hd
      have hb1 : base ≤ p := hd.2.1
      have hb2 : p + bb (o + 1) ≤ base + bb (o + 1) := hd.2.2.1
      have hbp := bb_pos (o + 1)
      have hpb : base = p := by omega
      subst hpb
      show (o, s) ∈ nodeFree A (o + 1) base
      rw [nodeFree, if_neg hnp]
      rcases hsp with rfl | rfl
      · refine List.mem_append.mpr (Or.inl ?_)
        rw [nodeFree_free hfs]
        exact List.mem_singleton.mpr rfl
      · refine List.mem_append.mpr (Or.inr ?_)
        rw [nodeFree_free hfs]
        exact List.mem_singleton.mpr rfl
    | succ k ih =>
      intro base hd
      have hb1 : base ≤ p := hd.2.1
      have hb2 : p + bb (o + 1) ≤ base + bb (o + 1 + k + 1) := hd.2.2.1
      have hal : (p - base) % bb (o + 1) = 0 := hd.2.2.2
      have hbs := bb_succ (o + 1 + k)
      have hbp := bb_pos (o + 1)
      have hbm : bb (o + 1) ≤ bb (o + 1 + k) := bb_mono (by omega)
      have hsplit := half_split (show o + 1 ≤ o + 1 + k by omega) hb1 hb2 hal
      have hnf : ¬ BlockFree A (o + 1 + k + 1) base := by
        intro hfree
        exact hnp (blockFree_sub hb1
          (show p + bb (o + 1) ≤ base + bb (o + 1 + k + 1) by omega) hfree)
      show (o, s) ∈ nodeFree A ((o + 1 + k) + 1) base
      rw [nodeFree, if_neg hnf]
      rcases hsplit with hL | hR
      · refine List.mem_append.mpr (Or.inl ?_)
        exact ih base ⟨by show o + 1 ≤ o + 1 + k; omega, hb1,
          by show p + bb (o + 1) ≤ base + bb (o + 1 + k); omega, hal⟩
      · refine List.mem_append.mpr (Or.inr ?_)
        have hal2 : (p - (base + bb (o + 1 + k))) % bb (o + 1) = 0 := by
          have d1 : bb (o + 1) ∣ (p - base) := Nat.dvd_of_mod_eq_zero hal
          have d2 : bb (o + 1) ∣ bb (o + 1 + k) := bb_dvd (by omega)
          have heq : p - (base + bb (o + 1 + k)) = (p - base) - bb (o + 1 + k) := by omega
          rw [heq]
          exact Nat.mod_eq_zero_of_dvd (Nat.dvd_sub' d1 d2)
        exact ih (base + bb (o + 1 + k)) ⟨by show o + 1 ≤ o + 1 + k; omega, hR,
          by show p + bb (o + 1) ≤ base + bb (o + 1 + k) + bb (o + 1 + k); omega, hal2⟩
  intro m base hd
  obtain ⟨k, rfl⟩ := Nat.exists_eq_add_of_le hd.1
  exact key k base hd

/-- Pushing a maximal free block: when its buddy region is not wholly
    free, dropping the block from the allocated set adds exactly that
    block to the decomposition. -/
theorem nodeFree_push_inner {A : List (Nat × Nat)} {o c s p : Nat}
    (hcs : c = p ∧ s = p + bb o ∨ s = p ∧ c = p + bb o)
    (hfc : BlockFree A o c) (hns : ¬ BlockFree A o s) :
    ∀ (m base : Nat), Desc (m, base) (o + 1, p) →
      (nodeFree A m base : Multiset (Nat × Nat)) = {(o, c)} + ↑(nodeFree ((o, c) :: A) m base) := by
  have hbp := bb_pos o
  have hbo := bb_succ o
  have hsin : p ≤ s ∧ s + bb o ≤ p + bb (o + 1) := by
    rcases hcs with ⟨rfl, rfl⟩ | ⟨rfl, rfl⟩ <;> constructor <;> omega
  have hcin : p ≤ c ∧ c + bb o ≤ p + bb (o + 1) := by
    rcases hcs with ⟨rfl, rfl⟩ | ⟨rfl, rfl⟩ <;> constructor <;> omega
  have key : ∀ (k base : Nat), Desc (o + 1 + k, base) (o + 1, p) →
      (nodeFree A (o + 1 + k) base : Multiset (Nat × Nat)) =
        {(o, c)} + ↑(nodeFree ((o, c) :: A) (o + 1 + k) base) := by
    intro k
    induction k with
    | zero =>
      intro base hd
      have hb1 : base ≤ p := hd.2.1
      have hb2 : p + bb (o + 1) ≤ base + bb (o + 1) := hd.2.2.1
      have hbp1 := bb_pos (o + 1)
      have hpb : base = p := by omega
      subst hpb
      have hnfA : ¬ BlockFree A (o + 1) base := by
        intro hfree
        exact hns (blockFree_sub hsin.1 (show s + bb o ≤ base + bb (o + 1) from hsin.2) hfree)
      have hnfc : ¬ BlockFree ((o, c) :: A) (o + 1) base :=
        not_blockFree (o, c) (List.mem_cons_self _ _)
          (show base < c + bb o by omega) (show c < base + bb (o + 1) by omega)
      show (nodeFree A (o + 1) base : Multiset (Nat × Nat)) =
        {(o, c)} + ↑(nodeFree ((o, c) :: A) (o + 1) base)
      rw [nodeFree, if_neg hnfA, nodeFree, if_neg hnfc]
      rcases hcs with ⟨hc1, hs1⟩ | ⟨hs1, hc1⟩
      · rw [hc1] at hfc ⊢
        rw [nodeFree_free hfc]
        rw [nodeFree_covered (o, base) (List.mem_cons_self _ _) o base (le_refl _) (le_refl _)]
        have hdisj : (o, base).2 + bb (o, base).1 ≤ base + bb o ∨
            base + bb o + bb o ≤ (o, base).2 :=
          Or.inl (show base + bb o ≤ base + bb o by omega)
        rw [@nodeFree_cons_of_disjoint (o, base) A o (base + bb o) hdisj]
        simp only [← Multiset.coe_add]
        rw [Multiset.coe_singleton]
        simp only [Multiset.coe_nil]
        abel
      · rw [hc1] at hfc ⊢
        rw [nodeFree_free hfc]
        rw [nodeFree_covered (o, base + bb o) (List.mem_cons_self _ _) o (base + bb o)
          (le_refl _) (le_refl _)]
        have hdisj : (o, base + bb o).2 + bb (o, base + bb o).1 ≤ base ∨
            base + bb o ≤ (o, base + bb o).2 :=
          Or.inr (show base + bb o ≤ base + bb o by omega)
        rw [@nodeFree_cons_of_disjoint (o, base + bb o) A o base hdisj]
        simp only [← Multiset.coe_add]
        rw [Multiset.coe_singleton]
        simp only [Multiset.coe_nil]
        abel
    | succ k ih =>
      intro base hd
      have hb1 : base ≤ p := hd.2.1
      have hb2 : p + bb (o + 1) ≤ base + bb (o + 1 + k + 1) := hd.2.2.1
      have hal : (p - base) % bb (o + 1) = 0 := hd.2.2.2
      have hbs := bb_succ (o + 1 + k)
      have hbm : bb (o + 1) ≤ bb (o + 1 + k) := bb_mono (by omega)
      have hsplit := half_split (show o + 1 ≤ o + 1 + k by omega) hb1 hb2 hal
      have hnfA : ¬ BlockFree A (o + 1 + k + 1) base := by
        intro hfree
        refine hns (blockFree_sub (show base ≤ s by omega)
          (show s + bb o ≤ base + bb (o + 1 + k + 1) by omega) hfree)
      have hnfc : ¬ BlockFree ((o, c) :: A) (o + 1 + k + 1) base :=
        not_blockFree (o, c) (List.mem_cons_self _ _)
          (show base < c + bb o by omega)
          (show c < base + bb (o + 1 + k + 1) by omega)
      show (nodeFree A ((o + 1 + k) + 1) base : Multiset (Nat × Nat)) =
        {(o, c)} + ↑(nodeFree ((o, c) :: A) ((o + 1 + k) + 1) base)
      rw [nodeFree, if_neg hnfA, nodeFree, if_neg hnfc]
      simp only [← Multiset.coe_add]
      rcases hsplit with hL | hR
      · have hdL : Desc (o + 1 + k, base) (o + 1, p) :=
          ⟨by show o + 1 ≤ o + 1 + k; omega, hb1,
            by show p + bb (o + 1) ≤ base + bb (o + 1 + k); omega, hal⟩
        rw [ih base hdL]
        have hd1 : (o, c).2 + bb (o, c).1 ≤ base + bb (o + 1 + k) ∨
            base + bb (o + 1 + k) + bb (o + 1 + k) ≤ (o, c).2 :=
          Or.inl (show c + bb o ≤ base + bb (o + 1 + k) by omega)
        rw [@nodeFree_cons_of_disjoint (o, c) A (o + 1 + k) (base + bb (o + 1 + k)) hd1]
        abel
      · have hal2 : (p - (base + bb (o + 1 + k))) % bb (o + 1) = 0 := by
          have d1 : bb (o + 1) ∣ (p - base) := Nat.dvd_of_mod_eq_zero hal
          have d2 : bb (o + 1) ∣ bb (o + 1 + k) := bb_dvd (by omega)
          have heq : p - (base + bb (o + 1 + k)) = (p - base) - bb (o + 1 + k) := by omega
          rw [heq]
          exact Nat.mod_eq_zero_of_dvd (Nat.dvd_sub' d1 d2)
        have hdR : Desc (o + 1 + k, base + bb (o + 1 + k)) (o + 1, p) :=
          ⟨by show o + 1 ≤ o + 1 + k; omega, hR,
            by show p + bb (o + 1) ≤ base + bb (o + 1 + k) + bb (o + 1 + k); omega, hal2⟩
        rw [ih (base + bb (o + 1 + k)) hdR]
        have hd1 : (o, c).2 + bb (o, c).1 ≤ base ∨ base + bb (o + 1 + k) ≤ (o, c).2 :=
          Or.inr (show base + bb (o + 1 + k) ≤ c by omega)
        rw [@nodeFree_cons_of_disjoint (o, c) A (o + 1 + k) base hd1]
        abel
  intro m base hd
  obtain ⟨k, rfl⟩ := Nat.exists_eq_add_of_le hd.1
  exact key k base hd

/-- Two blocks occupy disjoint address ranges. -/
def Dj (x y : Nat × Nat) : Prop := x.2 + bb x.1 ≤ y.2 ∨ y.2 + bb y.1 ≤ x.2

theorem dj_symm : ∀ {x y : Nat × Nat}, Dj x y → Dj y x := by
  intro x y h
  rcases h with h | h
  · right; exact h
  · left; exact h

/-- The canonical free-block list as a multiset. -/
def canonicalMS (T A : List (Nat × Nat)) : Multiset (Nat × Nat) :=
  (canonical T A : List (Nat × Nat))

theorem canonical_cons (t : Nat × Nat) (T A : List (Nat × Nat)) :
    canonical (t :: T) A = nodeFree A t.1 t.2 ++ canonical T A := rfl

theorem canonicalMS_cons (t : Nat × Nat) (T A : List (Nat × Nat)) :
    canonicalMS (t :: T) A = ↑(nodeFree A t.1 t.2) + canonicalMS T A := by
  show ((canonical (t :: T) A : List (Nat × Nat)) : Multiset (Nat × Nat)) = _
  rw [canonical_cons, ← Multiset.coe_add]
  rfl

theorem canonical_mem {T A : List (Nat × Nat)} {p : Nat × Nat} :
    p ∈ canonical T A ↔ ∃ t ∈ T, p ∈ nodeFree A t.1 t.2 := by
  unfold canonical
  exact List.mem_bind

theorem canonicalMS_congr {T A1 A2 : List (Nat × Nat)}
    (h : ∀ t ∈ T, nodeFree A1 t.1 t.2 = nodeFree A2 t.1 t.2) :
    canonicalMS T A1 = canonicalMS T A2 := by
  induction T with
  | nil => rfl
  | cons t T ih =>
    rw [canonicalMS_cons, canonicalMS_cons, h t (List.mem_cons_self _ _),
      ih (fun t' ht' => h t' (List.mem_cons_of_mem _ ht'))]

theorem canonicalMS_cons_of_disjoint {x : Nat × Nat} {T A : List (Nat × Nat)}
    (h : ∀ t ∈ T, x.2 + bb x.1 ≤ t.2 ∨ t.2 + bb t.1 ≤ x.2) :
    canonicalMS T (x :: A) = canonicalMS T A :=
  canonicalMS_congr (fun t ht => nodeFree_cons_of_disjoint (h t ht))

theorem canonical_mem_blockFree {T A : List (Nat × Nat)} {q b : Nat}
    (h : (q, b) ∈ canonical T A) : BlockFree A q b := by
  obtain ⟨t, _, hm⟩ := canonical_mem.mp h
  exact (nodeFree_mem t.1 t.2 (q, b) hm).2

theorem canonicalMS_no_allocs (T : List (Nat × Nat)) : canonicalMS T [] = ↑T := by
  induction T with
  | nil => rfl
  | cons t T ih =>
    rw [canonicalMS_cons, ih]
    have hfree : BlockFree ([] : List (Nat × Nat)) t.1 t.2 :=
      fun p hp => absurd hp (List.not_mem_nil p)
    rw [nodeFree_free hfree]
    show ((([(t.1, t.2)] : List (Nat × Nat))) : Multiset (Nat × Nat)) + ↑T = ↑(t :: T)
    rw [Multiset.coe_singleton]
    rw [Multiset.singleton_add]
    rfl

/-- Allocating at the base of a canonical free node, at canonical level. -/
theorem canonicalMS_alloc {A : List (Nat × Nat)} {j J pa : Nat} (hj : j ≤ J) :
    ∀ T : List (Nat × Nat), T.Pairwise Dj → (J, pa) ∈ canonical T A →
      canonicalMS T ((j, pa) :: A) + {(J, pa)} =
        canonicalMS T A + ↑(nodeFree ((j, pa) :: A) J pa) := by
  intro T
  induction T with
  | nil =>
    intro _ h
    rw [canonical_mem] at h
    obtain ⟨t, ht, -⟩ := h
    exact absurd ht (List.not_mem_nil t)
  | cons t T ih =>
    intro hpw hmem
    obtain ⟨hdjt, hpw2⟩ := List.pairwise_cons.mp hpw
    rw [canonicalMS_cons, canonicalMS_cons]
    rw [canonical_cons] at hmem
    have hbmj : bb j ≤ bb J := bb_mono hj
    rcases List.mem_append.mp hmem with hm | hm
    · have hnd := nodeFree_mem t.1 t.2 (J, pa) hm
      have hd1 : t.2 ≤ pa := hnd.1.2.1
      have hd2 : pa + bb J ≤ t.2 + bb t.1 := hnd.1.2.2.1
      have hrest : canonicalMS T ((j, pa) :: A) = canonicalMS T A := by
        refine canonicalMS_cons_of_disjoint (fun t' ht' => ?_)
        rcases hdjt t' ht' with h | h
        · exact Or.inl (show pa + bb j ≤ t'.2 by omega)
        · exact Or.inr (show t'.2 + bb t'.1 ≤ pa by omega)
      have hkey := nodeFree_alloc hj t.1 t.2 hm
      rw [hrest]
      calc (nodeFree ((j, pa) :: A) t.1 t.2 : Multiset (Nat × Nat)) + canonicalMS T A + {(J, pa)}
          = ((nodeFree ((j, pa) :: A) t.1 t.2 : Multiset (Nat × Nat)) + {(J, pa)}) +
            canonicalMS T A := by abel
        _ = ((nodeFree A t.1 t.2 : Multiset (Nat × Nat)) + ↑(nodeFree ((j, pa) :: A) J pa)) +
            canonicalMS T A := by rw [hkey]
        _ = (nodeFree A t.1 t.2 : Multiset (Nat × Nat)) + canonicalMS T A +
            ↑(nodeFree ((j, pa) :: A) J pa) := by abel
    · obtain ⟨t', ht', hm'⟩ := List.mem_bind.mp hm
      have hnd := nodeFree_mem t'.1 t'.2 (J, pa) hm'
      have hd1 : t'.2 ≤ pa := hnd.1.2.1
      have hd2 : pa + bb J ≤ t'.2 + bb t'.1 := hnd.1.2.2.1
      have ht_un : nodeFree ((j, pa) :: A) t.1 t.2 = nodeFree A t.1 t.2 := by
        refine nodeFree_cons_of_disjoint ?_
        rcases hdjt t' ht' with h | h
        · exact Or.inr (show t.2 + bb t.1 ≤ (j, pa).2 by show t.2 + bb t.1 ≤ pa; omega)
        · exact Or.inl (show (j, pa).2 + bb (j, pa).1 ≤ t.2 by show pa + bb j ≤ t.2; omega)
      have hkey := ih hpw2 (canonical_mem.mpr ⟨t', ht', hm'⟩)
      rw [ht_un]
      calc (nodeFree A t.1 t.2 : Multiset (Nat × Nat)) + canonicalMS T ((j, pa) :: A) + {(J, pa)}
          = (canonicalMS T ((j, pa) :: A) + {(J, pa)}) + ↑(nodeFree A t.1 t.2) := by abel
        _ = (canonicalMS T A + ↑(nodeFree ((j, pa) :: A) J pa)) + ↑(nodeFree A t.1 t.2) := by
            rw [hkey]
        _ = (nodeFree A t.1 t.2 : Multiset (Nat × Nat)) + canonicalMS T A +
            ↑(nodeFree ((j, pa) :: A) J pa) := by abel

/-- Coalescing step at canonical level: with the merged pair treated as
    allocated at the parent, the buddy leaves the canonical multiset. -/
theorem canonicalMS_merge {A : List (Nat × Nat)} {o c s p : Nat}
    (hcs : c = p ∧ s = p + bb o ∨ s = p ∧ c = p + bb o)
    (hfs : BlockFree A o s) :
    ∀ T : List (Nat × Nat), T.Pairwise Dj → (∃ t ∈ T, Desc t (o + 1, p)) →
      canonicalMS T ((o, c) :: A) = {(o, s)} + canonicalMS T ((o + 1, p) :: A) := by
  have hbo := bb_succ o
  have hbp := bb_pos o
  have hcin : p ≤ c ∧ c + bb o ≤ p + bb (o + 1) := by
    rcases hcs with ⟨rfl, rfl⟩ | ⟨rfl, rfl⟩ <;> constructor <;> omega
  intro T
  induction T with
  | nil =>
    intro _ h
    obtain ⟨t, ht, -⟩ := h
    exact absurd ht (List.not_mem_nil t)
  | cons t T ih =>
    intro hpw hex
    obtain ⟨hdjt, hpw2⟩ := List.pairwise_cons.mp hpw
    rw [canonicalMS_cons, canonicalMS_cons]
    by_cases hdt : Desc t (o + 1, p)
    · have hd1 : t.2 ≤ p := hdt.2.1
      have hd2 : p + bb (o + 1) ≤ t.2 + bb t.1 := hdt.2.2.1
      have hrest1 : canonicalMS T ((o, c) :: A) = canonicalMS T A := by
        refine canonicalMS_cons_of_disjoint (fun t' ht' => ?_)
        rcases hdjt t' ht' with h | h
        · exact Or.inl (show c + bb o ≤ t'.2 by omega)
        · exact Or.inr (show t'.2 + bb t'.1 ≤ c by omega)
      have hrest2 : canonicalMS T ((o + 1, p) :: A) = canonicalMS T A := by
        refine canonicalMS_cons_of_disjoint (fun t' ht' => ?_)
        rcases hdjt t' ht' with h | h
        · exact Or.inl (show p + bb (o + 1) ≤ t'.2 by omega)
        · exact Or.inr (show t'.2 + bb t'.1 ≤ p by omega)
      rw [hrest1, hrest2, nodeFree_merge hcs hfs t.1 t.2 hdt]
      abel
    · have hex2 : ∃ t' ∈ T, Desc t' (o + 1, p) := by
        rcases hex with ⟨t', ht', hdt'⟩
        rcases List.mem_cons.mp ht' with rfl | ht'
        · exact absurd hdt' hdt
        · exact ⟨t', ht', hdt'⟩
      obtain ⟨t', ht', hdt'⟩ := hex2
      have hd1 : t'.2 ≤ p := hdt'.2.1
      have hd2 : p + bb (o + 1) ≤ t'.2 + bb t'.1 := hdt'.2.2.1
      have hun1 : nodeFree ((o, c) :: A) t.1 t.2 = nodeFree A t.1 t.2 := by
        refine nodeFree_cons_of_disjoint ?_
        rcases hdjt t' ht' with h | h
        · exact Or.inr (show t.2 + bb t.1 ≤ (o, c).2 by show t.2 + bb t.1 ≤ c; omega)
        · exact Or.inl (show (o, c).2 + bb (o, c).1 ≤ t.2 by show c + bb o ≤ t.2; omega)
      have hun2 : nodeFree ((o + 1, p) :: A) t.1 t.2 = nodeFree A t.1 t.2 := by
        refine nodeFree_cons_of_disjoint ?_
        rcases hdjt t' ht' with h | h
        · exact Or.inr (show t.2 + bb t.1 ≤ (o + 1, p).2 by show t.2 + bb t.1 ≤ p; omega)
        · exact Or.inl (show (o + 1, p).2 + bb (o + 1, p).1 ≤ t.2 by
            show p + bb (o + 1) ≤ t.2; omega)
      rw [hun1, hun2, ih hpw2 ⟨t', ht', hdt'⟩]
      abel

/-- Pushing a freed block whose buddy is not wholly free, at canonical
    level: the canonical multiset gains exactly that block. -/
theorem canonicalMS_push_inner {A : List (Nat × Nat)} {o c s p : Nat}
    (hcs : c = p ∧ s = p + bb o ∨ s = p ∧ c = p + bb o)
    (hfc : BlockFree A o c) (hns : ¬ BlockFree A o s) :
    ∀ T : List (Nat × Nat), T.Pairwise Dj → (∃ t ∈ T, Desc t (o + 1, p)) →
      canonicalMS T A = {(o, c)} + canonicalMS T ((o, c) :: A) := by
  have hbo := bb_succ o
  have hbp := bb_pos o
  have hcin : p ≤ c ∧ c + bb o ≤ p + bb (o + 1) := by
    rcases hcs with ⟨rfl, rfl⟩ | ⟨rfl, rfl⟩ <;> constructor <;> omega
  intro T
  induction T with
  | nil =>
    intro _ h
    obtain ⟨t, ht, -⟩ := h
    exact absurd ht (List.not_mem_nil t)
  | cons t T ih =>
    intro hpw hex
    obtain ⟨hdjt, hpw2⟩ := List.pairwise_cons.mp hpw
    rw [canonicalMS_cons, canonicalMS_cons]
    by_cases hdt : Desc t (o + 1, p)
    · have hd1 : t.2 ≤ p := hdt.2.1
      have hd2 : p + bb (o + 1) ≤ t.2 + bb t.1 := hdt.2.2.1
      have hrest1 : canonicalMS T ((o, c) :: A) = canonicalMS T A := by
        refine canonicalMS_cons_of_disjoint (fun t' ht' => ?_)
        rcases hdjt t' ht' with h | h
        · exact Or.inl (show c + bb o ≤ t'.2 by omega)
        · exact Or.inr (show t'.2 + bb t'.1 ≤ c by omega)
      rw [hrest1, nodeFree_push_inner hcs hfc hns t.1 t.2 hdt]
      abel
    · have hex2 : ∃ t' ∈ T, Desc t' (o + 1, p) := by
        rcases hex with ⟨t', ht', hdt'⟩
        rcases List.mem_cons.mp ht' with rfl | ht'
        · exact absurd hdt' hdt
        · exact ⟨t', ht', hdt'⟩
      obtain ⟨t', ht', hdt'⟩ := hex2
      have hd1 : t'.2 ≤ p := hdt'.2.1
      have hd2 : p + bb (o + 1) ≤ t'.2 + bb t'.1 := hdt'.2.2.1
      have hun1 : nodeFree ((o, c) :: A) t.1 t.2 = nodeFree A t.1 t.2 := by
        refine nodeFree_cons_of_disjoint ?_
        rcases hdjt t' ht' with h | h
        · exact Or.inr (show t.2 + bb t.1 ≤ (o, c).2 by show t.2 + bb t.1 ≤ c; omega)
        · exact Or.inl (show (o, c).2 + bb (o, c).1 ≤ t.2 by show c + bb o ≤ t.2; omega)
      rw [hun1, ih hpw2 ⟨t', ht', hdt'⟩]
      abel

/-- Pushing a freed top block, at canonical level. -/
theorem canonicalMS_push_top {A : List (Nat × Nat)} {o c : Nat} (hfc : BlockFree A o c) :
    ∀ T : List (Nat × Nat), T.Pairwise Dj → (o, c) ∈ T →
      canonicalMS T A = {(o, c)} + canonicalMS T ((o, c) :: A) := by
  have hbp := bb_pos o
  intro T
  induction T with
  | nil =>
    intro _ h
    exact absurd h (List.not_mem_nil _)
  | cons t T ih =>
    intro hpw hmem
    obtain ⟨hdjt, hpw2⟩ := List.pairwise_cons.mp hpw
    rw [canonicalMS_cons, canonicalMS_cons]
    rcases List.mem_cons.mp hmem with heq | hmem2
    · subst heq
      have hrest : canonicalMS T ((o, c) :: A) = canonicalMS T A := by
        refine canonicalMS_cons_of_disjoint (fun t' ht' => ?_)
        rcases hdjt t' ht' with h | h
        · exact Or.inl h
        · exact Or.inr h
      have hcov : nodeFree ((o, c) :: A) (o, c).1 (o, c).2 = [] :=
        nodeFree_covered (o, c) (List.mem_cons_self _ _) (o, c).1 (o, c).2
          (le_refl _) (le_refl _)
      rw [hrest, hcov]
      show (nodeFree A o c : Multiset (Nat × Nat)) + canonicalMS T A =
        {(o, c)} + (↑([] : List (Nat × Nat)) + canonicalMS T A)
      rw [nodeFree_free hfc, Multiset.coe_singleton]
      simp only [Multiset.coe_nil]
      abel
    · have ht_mem := hmem2
      have hdj := hdjt (o, c) ht_mem
      have hun : nodeFree ((o, c) :: A) t.1 t.2 = nodeFree A t.1 t.2 := by
        refine nodeFree_cons_of_disjoint ?_
        rcases hdj with h | h
        · exact Or.inr (show t.2 + bb t.1 ≤ (o, c).2 from h)
        · exact Or.inl (show (o, c).2 + bb (o, c).1 ≤ t.2 from h)
      rw [hun, ih hpw2 hmem2]
      abel

theorem freeMS_mem (fr : List (List Nat)) (p : Nat × Nat) :
    p ∈ freeMS fr ↔ ∃ i, i < fr.length ∧ p.1 = i ∧ p.2 ∈ fr.getD i [] := by
  rw [freeMS, freeMSgo_mem]
  simp only [Nat.zero_add]

theorem freeMS_set_eq (fr : List (List Nat)) (o : Nat) (L : List Nat) (h : o < fr.length) :
    freeMS (fr.set o L) + Multiset.map (fun a => (o, a)) ↑(fr.getD o []) =
      freeMS fr + Multiset.map (fun a => (o, a)) ↑L := by
  have h2 := freeMSgo_set fr 0 o L h
  simpa using h2

theorem freeMS_push (fr : List (List Nat)) (o x : Nat) (h : o < fr.length) :
    freeMS (fr.set o (x :: fr.getD o [])) = freeMS fr + {(o, x)} := by
  have h2 := freeMS_set_eq fr o (x :: fr.getD o []) h
  rw [show ((x :: fr.getD o [] : List Nat) : Multiset Nat) = x ::ₘ ↑(fr.getD o []) from rfl,
    Multiset.map_cons] at h2
  have h3 : freeMS (fr.set o (x :: fr.getD o [])) +
      Multiset.map (fun a => (o, a)) ↑(fr.getD o []) =
      (freeMS fr + {(o, x)}) + Multiset.map (fun a => (o, a)) ↑(fr.getD o []) := by
    rw [h2]
    have hs : (o, x) ::ₘ Multiset.map (fun a => (o, a)) ↑(fr.getD o []) =
        {(o, x)} + Multiset.map (fun a => (o, a)) ↑(fr.getD o []) :=
      (Multiset.singleton_add _ _).symm
    rw [hs]
    abel
  exact add_right_cancel h3

theorem freeMS_pop (fr : List (List Nat)) (o x : Nat) (rest : List Nat) (h : o < fr.length)
    (hg : fr.getD o [] = x :: rest) :
    freeMS fr = freeMS (fr.set o rest) + {(o, x)} := by
  have h2 := freeMS_set_eq fr o rest h
  rw [hg] at h2
  rw [show ((x :: rest : List Nat) : Multiset Nat) = x ::ₘ ↑rest from rfl,
    Multiset.map_cons] at h2
  have hs : (o, x) ::ₘ Multiset.map (fun a => (o, a)) ↑rest =
      {(o, x)} + Multiset.map (fun a => (o, a)) ↑rest :=
    (Multiset.singleton_add _ _).symm
  rw [hs] at h2
  have h3 : (freeMS (fr.set o rest) + {(o, x)}) + Multiset.map (fun a => (o, a)) ↑rest =
      freeMS fr + Multiset.map (fun a => (o, a)) ↑rest := by
    rw [← h2]
    abel
  exact (add_right_cancel h3).symm

theorem removeFirst_coe (x : Nat) : ∀ (l : List Nat), x ∈ l →
    (l : Multiset Nat) = x ::ₘ ↑(removeFirst l x) := by
  intro l
  induction l with
  | nil => intro h; cases h
  | cons y t ih =>
    intro h
    rw [removeFirst]
    by_cases hxy : y = x
    · subst hxy
      rw [if_pos rfl]
      rfl
    · rw [if_neg hxy]
      rcases List.mem_cons.mp h with heq | hm
      · exact absurd heq.symm hxy
      · calc ((y :: t : List Nat) : Multiset Nat) = y ::ₘ ↑t := rfl
          _ = y ::ₘ (x ::ₘ ↑(removeFirst t x)) := by rw [ih hm]
          _ = x ::ₘ (y ::ₘ ↑(removeFirst t x)) := Multiset.cons_swap _ _ _
          _ = x ::ₘ ↑(y :: removeFirst t x) := rfl

theorem freeMS_removeFirst (fr : List (List Nat)) (o x : Nat) (h : o < fr.length)
    (hm : x ∈ fr.getD o []) :
    freeMS fr = freeMS (fr.set o (removeFirst (fr.getD o []) x)) + {(o, x)} := by
  have h2 := freeMS_set_eq fr o (removeFirst (fr.getD o []) x) h
  have hco := removeFirst_coe x (fr.getD o []) hm
  rw [hco, Multiset.map_cons] at h2
  have hs : (o, x) ::ₘ Multiset.map (fun a => (o, a)) ↑(removeFirst (fr.getD o []) x) =
      {(o, x)} + Multiset.map (fun a => (o, a)) ↑(removeFirst (fr.getD o []) x) :=
    (Multiset.singleton_add _ _).symm
  rw [hs] at h2
  have h3 : (freeMS (fr.set o (removeFirst (fr.getD o []) x)) + {(o, x)}) +
      Multiset.map (fun a => (o, a)) ↑(removeFirst (fr.getD o []) x) =
      freeMS fr + Multiset.map (fun a => (o, a)) ↑(removeFirst (fr.getD o []) x) := by
    rw [← h2]
    abel
  exact (add_right_cancel h3).symm

theorem split_down_length (blk otgt : Nat) :
    ∀ (o : Nat) (free : List (List Nat)), (split_down blk otgt o free).length = free.length := by
  intro o
  induction o with
  | zero => intro free; rfl
  | succ o ih =>
    intro free
    rw [split_down]
    by_cases h : otgt < o + 1
    · rw [if_pos h, ih]
      exact List.length_set _ _ _
    · rw [if_neg h]

theorem split_down_spec (blk otgt : Nat) :
    ∀ (c : Nat) (free : List (List Nat)), otgt + c ≤ free.length →
      freeMS (split_down blk otgt (otgt + c) free) = freeMS free + ↑(splitsL blk otgt c) := by
  intro c
  induction c with
  | zero =>
    intro free _
    have hz : split_down blk otgt (otgt + 0) free = free := by
      cases otgt with
      | zero => rfl
      | succ o => rw [split_down, if_neg (by omega)]
    rw [hz]
    show freeMS free = freeMS free + ↑([] : List (Nat × Nat))
    rw [Multiset.coe_nil]
    rw [add_zero]
  | succ c ih =>
    intro free hlen
    show freeMS (split_down blk otgt ((otgt + c) + 1) free) = _
    rw [split_down, if_pos (by omega)]
    have hlen2 : otgt + c ≤ (free.set (otgt + c)
        ((blk + 2 ^ (otgt + c) * BLOCK_SIZE) :: free.getD (otgt + c) [])).length := by
      rw [List.length_set]
      omega
    rw [ih _ hlen2]
    rw [freeMS_push free (otgt + c) (blk + 2 ^ (otgt + c) * BLOCK_SIZE) (by omega)]
    show freeMS free + {(otgt + c, blk + bb (otgt + c))} + ↑(splitsL blk otgt c) =
      freeMS free + ↑((otgt + c, blk + bb (otgt + c)) :: splitsL blk otgt c)
    rw [show (((otgt + c, blk + bb (otgt + c)) :: splitsL blk otgt c : List (Nat × Nat)) :
      Multiset (Nat × Nat)) = (otgt + c, blk + bb (otgt + c)) ::ₘ ↑(splitsL blk otgt c) from rfl]
    rw [show ((otgt + c, blk + bb (otgt + c)) ::ₘ (↑(splitsL blk otgt c) : Multiset (Nat × Nat))) =
      {(otgt + c, blk + bb (otgt + c))} + ↑(splitsL blk otgt c) from
      (Multiset.singleton_add _ _).symm]
    abel

theorem split_down_spec2 (blk otgt o : Nat) (free : List (List Nat)) (h1 : otgt ≤ o)
    (h2 : o ≤ free.length) :
    freeMS (split_down blk otgt o free) = freeMS free + ↑(splitsL blk otgt (o - otgt)) := by
  obtain ⟨c, rfl⟩ := Nat.exists_eq_add_of_le h1
  rw [show otgt + c - otgt = c by omega]
  exact split_down_spec blk otgt c free h2

theorem alloc_search_some (free : List (List Nat)) :
    ∀ (fuel o o' : Nat), alloc_search free fuel o = some o' →
      o ≤ o' ∧ o' < o + fuel ∧ free.getD o' [] ≠ [] := by
  intro fuel
  induction fuel with
  | zero =>
    intro o o' h
    cases h
  | succ fuel ih =>
    intro o o' h
    rw [alloc_search] at h
    by_cases hg : free.getD o [] = []
    · rw [if_pos hg] at h
      obtain ⟨h1, h2, h3⟩ := ih (o + 1) o' h
      exact ⟨by omega, by omega, h3⟩
    · rw [if_neg hg] at h
      have ho : o = o' := Option.some_injective _ h
      subst ho
      exact ⟨le_refl _, by omega, hg⟩

/-- Well-formedness of the top-block forest produced by buddy_init's
    greedy placement over [s0, s0 + total). -/
structure TopsWF (s0 maxo total : Nat) (T : List (Nat × Nat)) : Prop where
  ord_le : ∀ t ∈ T, t.1 ≤ maxo
  lo : ∀ t ∈ T, s0 ≤ t.2
  hi : ∀ t ∈ T, t.2 + bb t.1 ≤ s0 + total
  align : ∀ t ∈ T, bb t.1 ∣ (t.2 - s0)
  align2 : ∀ t ∈ T, t.1 < maxo → bb (t.1 + 1) ∣ (t.2 - s0)
  pw : T.Pairwise Dj
  after : ∀ t ∈ T, ∀ t2 ∈ T, t.1 < maxo → t2 ≠ t → t.1 ≤ t2.1 → t2.2 + bb t2.1 ≤ t.2

/-- The coalescing loop of buddy_free preserves the canonical-form
    invariant: treating the in-flight block as allocated, the free lists
    track the canonical multiset, and the final push restores the
    canonical multiset of the remaining allocations. -/
theorem coalesce_spec (s0 maxo total : Nat) (T : List (Nat × Nat)) (hmaxo : maxo ≤ 15)
    (hwf : TopsWF s0 maxo total T) (A2 : List (Nat × Nat)) :
    ∀ (f : Nat) (fr : List (List Nat)) (c o : Nat),
      f + o = maxo →
      fr.length = 16 →
      freeMS fr = canonicalMS T ((o, c) :: A2) →
      BlockFree A2 o c →
      TreeNode T (o, c) →
      (coalesce s0 f fr c o).1.length = 16 ∧ (coalesce s0 f fr c o).2.2 ≤ maxo ∧
        freeMS (coalesce s0 f fr c o).1 +
          {((coalesce s0 f fr c o).2.2, (coalesce s0 f fr c o).2.1)} = canonicalMS T A2 := by
  intro f
  induction f with
  | zero =>
    intro fr c o hfo hlen hfr hbf htn
    obtain ⟨t, htT, hdt⟩ := htn
    have td1 : o ≤ t.1 := hdt.1
    have td2 : t.2 ≤ c := hdt.2.1
    have td3 : c + bb o ≤ t.2 + bb t.1 := hdt.2.2.1
    have hto : t.1 = o := by
      have := hwf.ord_le t htT
      omega
    have hbeq : bb t.1 = bb o := by rw [hto]
    have htc : t.2 = c := by omega
    have htop : (o, c) ∈ T := by
      have : t = (o, c) := by
        rcases t with ⟨t1, t2⟩
        simp only [] at hto htc
        rw [hto, htc]
      rw [← this]
      exact htT
    refine ⟨hlen, show o ≤ maxo by omega, ?_⟩
    show freeMS fr + {(o, c)} = canonicalMS T A2
    rw [canonicalMS_push_top hbf T hwf.pw htop, hfr]
    abel
  | succ f ih =>
    intro fr c o hfo hlen hfr hbf htn
    obtain ⟨t, htT, hdt⟩ := htn
    have td1 : o ≤ t.1 := hdt.1
    have td2 : t.2 ≤ c := hdt.2.1
    have td3 : c + bb o ≤ t.2 + bb t.1 := hdt.2.2.1
    have td4 : (c - t.2) % bb o = 0 := hdt.2.2.2
    have hlo : s0 ≤ t.2 := hwf.lo t htT
    have hbop := bb_pos o
    have hbos := bb_succ o
    have homax : o < maxo := by omega
    have halt : bb t.1 ∣ (t.2 - s0) := hwf.align t htT
    have hdvdo : bb o ∣ bb t.1 := bb_dvd td1
    have hal : bb o ∣ (c - s0) := by
      have heq : c - s0 = (c - t.2) + (t.2 - s0) := by omega
      rw [heq]
      exact Nat.dvd_add (Nat.dvd_of_mod_eq_zero td4) (dvd_trans hdvdo halt)
    obtain ⟨q, hq⟩ := hal
    have hqd : (c - s0) / bb o = q := by
      rw [hq]
      exact Nat.mul_div_cancel_left q hbop
    have hx := xor_sibling o (c - s0) ⟨q, hq⟩
    rw [hqd] at hx
    -- the top itself is always the lower buddy of its (virtual) parent
    have htop_even : t.1 = o → q % 2 = 0 := by
      intro hto
      have hbeq : bb t.1 = bb o := by rw [hto]
      have htc : t.2 = c := by omega
      have hd2 : bb (o + 1) ∣ (c - s0) := by
        rw [← htc, ← hto]
        exact hwf.align2 t htT (by omega)
      obtain ⟨u, hu⟩ := hd2
      have h2u : bb (o + 1) * u = bb o * (2 * u) := by rw [hbos]; ring
      have hq2 : bb o * q = bb o * (2 * u) := by rw [← hq, hu, h2u]
      have : q = 2 * u := Nat.eq_of_mul_eq_mul_left hbop hq2
      omega
    by_cases hpar : q % 2 = 0
    · -- even block index: the buddy is the next block up
      have hba : ((c - s0) ^^^ (2 ^ o * BLOCK_SIZE)) + s0 = c + bb o := by
        have hbb : (2 : Nat) ^ o * BLOCK_SIZE = bb o := rfl
        rw [hbb, hx, if_pos hpar]
        omega
      show (coalesce s0 (f + 1) fr c o).1.length = 16 ∧ _ ∧ _
      rw [coalesce]
      rw [hba]
      by_cases hot : o < t.1
      · -- interior node: genuine sibling inside the top
        have heven : bb (o + 1) ∣ (c - s0) := by
          obtain ⟨u, hu⟩ : ∃ u, q = 2 * u := ⟨q / 2, by omega⟩
          refine ⟨u, ?_⟩
          rw [hq, hu, hbos]
          ring
        have hpdesc : Desc t (o + 1, c) := by
          have hd : bb (o + 1) ∣ (c - t.2) := by
            have heq : c - t.2 = (c - s0) - (t.2 - s0) := by omega
            rw [heq]
            exact Nat.dvd_sub' heven (dvd_trans (bb_dvd (by omega)) halt)
          have hdt1 : bb (o + 1) ∣ bb t.1 := bb_dvd (by omega)
          have hend : c - t.2 + bb (o + 1) ≤ bb t.1 := by
            refine add_dvd_le (bb_pos (o + 1)) hd hdt1 ?_
            have := bb_pos (o + 1)
            omega
          refine ⟨by omega, td2, ?_, Nat.mod_eq_zero_of_dvd hd⟩
          show c + bb (o + 1) ≤ t.2 + bb t.1
          omega
        by_cases hmem_l : c + bb o ∈ fr.getD o []
        · -- buddy free: merge and recurse one order up
          rw [if_pos hmem_l, if_neg (show ¬ c + bb o < c by omega)]
          have hsf : BlockFree A2 o (c + bb o) := by
            have hin : (o, c + bb o) ∈ freeMS fr :=
              (freeMS_mem fr (o, c + bb o)).mpr ⟨o, by omega, rfl, hmem_l⟩
            rw [hfr] at hin
            exact blockFree_of_cons (canonical_mem_blockFree (Multiset.mem_coe.mp hin))
          have hmg := canonicalMS_merge (Or.inl ⟨rfl, rfl⟩) hsf T hwf.pw ⟨t, htT, hpdesc⟩
          have hrm := freeMS_removeFirst fr o (c + bb o) (by omega) hmem_l
          refine ih (fr.set o (removeFirst (fr.getD o []) (c + bb o))) c (o + 1)
            (by omega) (by rw [List.length_set]; exact hlen) ?_
            (blockFree_join hbf hsf) ⟨t, htT, hpdesc⟩
          have hcan : freeMS (fr.set o (removeFirst (fr.getD o []) (c + bb o))) +
              {(o, c + bb o)} = {(o, c + bb o)} + canonicalMS T ((o + 1, c) :: A2) := by
            rw [← hrm, hfr, hmg]
          have hcan2 : freeMS (fr.set o (removeFirst (fr.getD o []) (c + bb o))) +
              {(o, c + bb o)} = canonicalMS T ((o + 1, c) :: A2) + {(o, c + bb o)} := by
            rw [hcan]
            abel
          exact add_right_cancel hcan2
        · -- buddy not free: stop and push here
          rw [if_neg hmem_l]
          refine ⟨hlen, show o ≤ maxo by omega, ?_⟩
          have hns : ¬ BlockFree A2 o (c + bb o) := by
            intro hfree
            have hfs2 : BlockFree ((o, c) :: A2) o (c + bb o) :=
              blockFree_cons (Or.inl (show c + bb o ≤ c + bb o from le_refl _)) hfree
            have hnp : ¬ BlockFree ((o, c) :: A2) (o + 1) c :=
              not_blockFree (o, c) (List.mem_cons_self _ _)
                (show c < c + bb o by omega) (show c < c + bb (o + 1) by omega)
            have hin := nodeFree_node_in (Or.inr rfl) hfs2 hnp t.1 t.2 hpdesc
            have hmem2 : (o, c + bb o) ∈ freeMS fr := by
              rw [hfr]
              exact Multiset.mem_coe.mpr (canonical_mem.mpr ⟨t, htT, hin⟩)
            obtain ⟨i, hi, hieq, himem⟩ := (freeMS_mem fr (o, c + bb o)).mp hmem2
            have : i = o := by omega
            subst this
            exact hmem_l himem
          have hpi := canonicalMS_push_inner (Or.inl ⟨rfl, rfl⟩) hbf hns T hwf.pw
            ⟨t, htT, hpdesc⟩
          show freeMS fr + {(o, c)} = canonicalMS T A2
          rw [hpi, hfr]
          abel
      · -- the node is a whole top below max order: its buddy is outside
        have hto : t.1 = o := by omega
        have hbeq : bb t.1 = bb o := by rw [hto]
        have htc : t.2 = c := by omega
        have hnm : ¬ c + bb o ∈ fr.getD o [] := by
          intro hmem_l
          have hin : (o, c + bb o) ∈ freeMS fr :=
            (freeMS_mem fr (o, c + bb o)).mpr ⟨o, by omega, rfl, hmem_l⟩
          rw [hfr] at hin
          obtain ⟨t2, ht2T, hm2⟩ := canonical_mem.mp (Multiset.mem_coe.mp hin)
          have hnd := nodeFree_mem t2.1 t2.2 (o, c + bb o) hm2
          have he1 : o ≤ t2.1 := hnd.1.1
          have he2 : t2.2 ≤ c + bb o := hnd.1.2.1
          have he3 : c + bb o + bb o ≤ t2.2 + bb t2.1 := hnd.1.2.2.1
          by_cases ht2 : t2 = t
          · subst ht2
            omega
          · have := hwf.after t htT t2 ht2T (by omega) ht2 (by omega)
            omega
        rw [if_neg hnm]
        refine ⟨hlen, show o ≤ maxo by omega, ?_⟩
        have htop : (o, c) ∈ T := by
          have : t = (o, c) := by
            rcases t with ⟨t1, t2⟩
            simp only [] at hto htc
            rw [hto, htc]
          rw [← this]
          exact htT
        show freeMS fr + {(o, c)} = canonicalMS T A2
        rw [canonicalMS_push_top hbf T hwf.pw htop, hfr]
        abel
    · -- odd block index: the buddy is the previous block down
      have hot : o < t.1 := by
        rcases Nat.lt_or_ge o t.1 with h | h
        · exact h
        · exact absurd (htop_even (by omega)) hpar
      have hq1 : 1 ≤ q := by
        by_contra hq0
        have : q = 0 := by omega
        rw [this] at hq
        omega
      have hbole : bb o ≤ c - s0 := by
        have : bb o * 1 ≤ bb o * q := Nat.mul_le_mul_left _ hq1
        omega
      have hba : ((c - s0) ^^^ (2 ^ o * BLOCK_SIZE)) + s0 = c - bb o := by
        have hbb : (2 : Nat) ^ o * BLOCK_SIZE = bb o := rfl
        rw [hbb, hx, if_neg hpar]
        omega
      obtain ⟨u, hu⟩ : ∃ u, q = 2 * u + 1 := ⟨q / 2, by omega⟩
      have hodd_dvd : bb (o + 1) ∣ (c - s0 - bb o) := by
        refine ⟨u, ?_⟩
        have h1 : c - s0 = bb o * (2 * u) + bb o := by rw [hq, hu]; ring
        have h2 : bb (o + 1) * u = bb o * (2 * u) := by rw [hbos]; ring
        omega
      have hd0 : bb o ≤ c - t.2 := by
        by_contra hlt
        push_neg at hlt
        have hdvd : bb o ∣ (c - t.2) := Nat.dvd_of_mod_eq_zero td4
        have hz : c - t.2 = 0 := Nat.eq_zero_of_dvd_of_lt hdvd hlt
        have hceq : c = t.2 := by omega
        have hd2 : bb (o + 1) ∣ (c - s0) := by
          rw [hceq]
          exact dvd_trans (bb_dvd (by omega)) halt
        obtain ⟨v, hv⟩ := hd2
        have h2v : bb (o + 1) * v = bb o * (2 * v) := by rw [hbos]; ring
        have hq2 : bb o * q = bb o * (2 * v) := by rw [← hq, hv, h2v]
        have : q = 2 * v := Nat.eq_of_mul_eq_mul_left hbop hq2
        omega
      have hpdesc : Desc t (o + 1, c - bb o) := by
        have hdal : bb (o + 1) ∣ (c - bb o - t.2) := by
          have heq : c - bb o - t.2 = (c - s0 - bb o) - (t.2 - s0) := by omega
          rw [heq]
          exact Nat.dvd_sub' hodd_dvd (dvd_trans (bb_dvd (by omega)) halt)
        refine ⟨by show o + 1 ≤ t.1; omega, by show t.2 ≤ c - bb o; omega, ?_,
          Nat.mod_eq_zero_of_dvd hdal⟩
        show (c - bb o) + bb (o + 1) ≤ t.2 + bb t.1
        omega
      rw [coalesce]
      rw [hba]
      by_cases hmem_l : c - bb o ∈ fr.getD o []
      · rw [if_pos hmem_l, if_pos (show c - bb o < c by omega)]
        have hsf : BlockFree A2 o (c - bb o) := by
          have hin : (o, c - bb o) ∈ freeMS fr :=
            (freeMS_mem fr (o, c - bb o)).mpr ⟨o, by omega, rfl, hmem_l⟩
          rw [hfr] at hin
          exact blockFree_of_cons (canonical_mem_blockFree (Multiset.mem_coe.mp hin))
        have hcpb : c = (c - bb o) + bb o := by omega
        have hmg := canonicalMS_merge (Or.inr ⟨rfl, hcpb⟩) hsf T hwf.pw ⟨t, htT, hpdesc⟩
        have hrm := freeMS_removeFirst fr o (c - bb o) (by omega) hmem_l
        have hjn : BlockFree A2 (o + 1) (c - bb o) := by
          refine blockFree_join hsf ?_
          rw [show (c - bb o) + bb o = c by omega]
          exact hbf
        refine ih (fr.set o (removeFirst (fr.getD o []) (c - bb o))) (c - bb o) (o + 1)
          (by omega) (by rw [List.length_set]; exact hlen) ?_ hjn ⟨t, htT, hpdesc⟩
        have hcan2 : freeMS (fr.set o (removeFirst (fr.getD o []) (c - bb o))) +
            {(o, c - bb o)} = canonicalMS T ((o + 1, c - bb o) :: A2) + {(o, c - bb o)} := by
          rw [← hrm, hfr, hmg]
          abel
        exact add_right_cancel hcan2
      · rw [if_neg hmem_l]
        refine ⟨hlen, show o ≤ maxo by omega, ?_⟩
        have hns : ¬ BlockFree A2 o (c - bb o) := by
          intro hfree
          have hfs2 : BlockFree ((o, c) :: A2) o (c - bb o) :=
            blockFree_cons (Or.inr (show (c - bb o) + bb o ≤ c by omega)) hfree
          have hnp : ¬ BlockFree ((o, c) :: A2) (o + 1) (c - bb o) :=
            not_blockFree (o, c) (List.mem_cons_self _ _)
              (show c - bb o < c + bb o by omega)
              (show c < (c - bb o) + bb (o + 1) by omega)
          have hin := nodeFree_node_in (Or.inl rfl) hfs2 hnp t.1 t.2 hpdesc
          have hmem2 : (o, c - bb o) ∈ freeMS fr := by
            rw [hfr]
            exact Multiset.mem_coe.mpr (canonical_mem.mpr ⟨t, htT, hin⟩)
          obtain ⟨i, hi, hieq, himem⟩ := (freeMS_mem fr (o, c - bb o)).mp hmem2
          have : i = o := by omega
          subst this
          exact hmem_l himem
        have hcpb : c = (c - bb o) + bb o := by omega
        have hpi := canonicalMS_push_inner (Or.inr ⟨rfl, hcpb⟩) hbf hns T hwf.pw
          ⟨t, htT, hpdesc⟩
        show freeMS fr + {(o, c)} = canonicalMS T A2
        rw [hpi, hfr]
        abel

/-- Remove the first occurrence of an (order, address) pair. -/
def removeP : List (Nat × Nat) → (Nat × Nat) → List (Nat × Nat)
  | [], _ => []
  | x :: t, p => if x = p then t else x :: removeP t p

theorem removeP_perm : ∀ (l : List (Nat × Nat)) (p : Nat × Nat), p ∈ l →
    List.Perm l (p :: removeP l p) := by
  intro l
  induction l with
  | nil => intro p h; cases h
  | cons x t ih =>
    intro p h
    rw [removeP]
    by_cases hxp : x = p
    · subst hxp
      rw [if_pos rfl]
    · rw [if_neg hxp]
      rcases List.mem_cons.mp h with heq | hm
      · exact absurd heq.symm hxp
      · exact List.Perm.trans (List.Perm.cons x (ih p hm)) (List.Perm.swap p x _)

/-- Invariant tying a reachable buddy state to the canonical
    decomposition of the top forest under the outstanding allocations. -/
def BInv (s0 maxo total : Nat) (T : List (Nat × Nat)) (st : BuddyState)
    (A : List (Nat × Nat)) : Prop :=
  st.start = s0 ∧ st.max_order = (maxo : Int) ∧ st.total_size = total ∧
    st.free.length = 16 ∧ freeMS st.free = canonicalMS T A ∧
    (∀ p ∈ A, TreeNode T p ∧ p.2 ≠ 0) ∧ A.Pairwise Dj

/-- Buddy states reachable from st0 by successful allocations and exact
    frees of outstanding blocks; A lists the outstanding allocations as
    (order, address) pairs. -/
inductive BReach (st0 : BuddyState) : BuddyState → List (Nat × Nat) → Prop where
  | init : BReach st0 st0 []
  | alloc (st : BuddyState) (A : List (Nat × Nat)) (o : Int) :
      BReach st0 st A → (buddy_alloc st o).2 ≠ 0 →
      BReach st0 (buddy_alloc st o).1 ((o.toNat, (buddy_alloc st o).2) :: A)
  | free (st : BuddyState) (A : List (Nat × Nat)) (j a : Nat) :
      BReach st0 st A → (j, a) ∈ A →
      BReach st0 (buddy_free st a (j : Int)).1 (removeP A (j, a))

theorem binv_alloc (s0 maxo total : Nat) (T : List (Nat × Nat)) (st : BuddyState)
    (A : List (Nat × Nat)) (o : Int) (hmaxo : maxo ≤ 15) (hwf : TopsWF s0 maxo total T)
    (hinv : BInv s0 maxo total T st A) (hnz : (buddy_alloc st o).2 ≠ 0) :
    BInv s0 maxo total T (buddy_alloc st o).1 ((o.toNat, (buddy_alloc st o).2) :: A) := by
  obtain ⟨hs, hm, ht, hl, hfr, hA, hpw⟩ := hinv
  by_cases hg : o < 0 ∨ st.max_order < o
  · have hstz : buddy_alloc st o = (st, 0) := by rw [buddy_alloc, if_pos hg]
    exact absurd (congrArg Prod.snd hstz) hnz
  · push_neg at hg
    have hmt : st.max_order.toNat = maxo := by omega
    have hole : o.toNat ≤ maxo := by omega
    cases hse : alloc_search st.free (st.max_order.toNat + 1 - o.toNat) o.toNat with
    | none =>
      have hstz : buddy_alloc st o = (st, 0) := by
        rw [buddy_alloc, if_neg (by push_neg; exact hg), hse]
      exact absurd (congrArg Prod.snd hstz) hnz
    | some o2 =>
      obtain ⟨hs1, hs2, hs3⟩ := alloc_search_some st.free _ _ _ hse
      cases hgd : st.free.getD o2 [] with
      | nil => exact absurd hgd hs3
      | cons bl rest =>
        have hres : buddy_alloc st o =
            ({ st with free := split_down bl o.toNat o2 (st.free.set o2 rest) }, bl) := by
          rw [buddy_alloc, if_neg (by push_neg; exact hg), hse]
          dsimp only
          rw [hgd]
        rw [hres]
        have ho2 : o2 ≤ maxo := by omega
        have hmem : (o2, bl) ∈ canonical T A := by
          have hin : (o2, bl) ∈ freeMS st.free :=
            (freeMS_mem st.free (o2, bl)).mpr
              ⟨o2, by omega, rfl, by rw [hgd]; exact List.mem_cons_self _ _⟩
          rw [hfr] at hin
          exact Multiset.mem_coe.mp hin
        have hbf : BlockFree A o2 bl := canonical_mem_blockFree hmem
        obtain ⟨t, htT, hmt2⟩ := canonical_mem.mp hmem
        have hdsc := (nodeFree_mem t.1 t.2 (o2, bl) hmt2).1
        have hbmj : bb o.toNat ≤ bb o2 := bb_mono hs1
        have hjd : Desc (o2, bl) (o.toNat, bl) :=
          ⟨hs1, le_refl _, (by show bl + bb o.toNat ≤ bl + bb o2; omega),
            (by show (bl - bl) % bb o.toNat = 0; rw [Nat.sub_self, Nat.zero_mod])⟩
        have htn : TreeNode T (o.toNat, bl) := ⟨t, htT, desc_trans hdsc hjd⟩
        have hlen2 : (st.free.set o2 rest).length = 16 := by
          rw [List.length_set]
          exact hl
        have hsplit := split_down_spec2 bl o.toNat o2 (st.free.set o2 rest) hs1
          (by rw [hlen2]; omega)
        have hpop := freeMS_pop st.free o2 bl rest (by omega) hgd
        have hbfo : BlockFree A (o.toNat + (o2 - o.toNat)) bl := by
          rw [show o.toNat + (o2 - o.toNat) = o2 by omega]
          exact hbf
        have hnfs := nodeFree_splits (o2 - o.toNat) hbfo
        rw [show o.toNat + (o2 - o.toNat) = o2 by omega] at hnfs
        have hca := canonicalMS_alloc hs1 T hwf.pw hmem
        refine ⟨hs, hm, ht, ?_, ?_, ?_, ?_⟩
        · show (split_down bl o.toNat o2 (st.free.set o2 rest)).length = 16
          rw [split_down_length]
          exact hlen2
        · show freeMS (split_down bl o.toNat o2 (st.free.set o2 rest)) =
            canonicalMS T ((o.toNat, bl) :: A)
          have key : freeMS (split_down bl o.toNat o2 (st.free.set o2 rest)) + {(o2, bl)} =
              canonicalMS T ((o.toNat, bl) :: A) + {(o2, bl)} := by
            rw [hsplit]
            calc freeMS (st.free.set o2 rest) + ↑(splitsL bl o.toNat (o2 - o.toNat)) +
                  {(o2, bl)}
                = (freeMS (st.free.set o2 rest) + {(o2, bl)}) +
                  ↑(splitsL bl o.toNat (o2 - o.toNat)) := by abel
              _ = canonicalMS T A + ↑(splitsL bl o.toNat (o2 - o.toNat)) := by
                  rw [← hpop, hfr]
              _ = canonicalMS T A + ↑(nodeFree ((o.toNat, bl) :: A) o2 bl) := by rw [hnfs]
              _ = canonicalMS T ((o.toNat, bl) :: A) + {(o2, bl)} := by rw [← hca]
          exact add_right_cancel key
        · intro p hp
          rcases List.mem_cons.mp hp with heq | hp2
          · subst heq
            refine ⟨htn, ?_⟩
            show bl ≠ 0
            intro h0
            apply hnz
            rw [hres]
            exact h0
          · exact hA p hp2
        · refine List.pairwise_cons.mpr ⟨?_, hpw⟩
          intro q hq
          rcases hbf q hq with h | h
          · exact Or.inr h
          · exact Or.inl (by show bl + bb o.toNat ≤ q.2; omega)

theorem binv_free (s0 maxo total : Nat) (T : List (Nat × Nat)) (st : BuddyState)
    (A : List (Nat × Nat)) (j a : Nat) (hmaxo : maxo ≤ 15) (hwf : TopsWF s0 maxo total T)
    (hinv : BInv s0 maxo total T st A) (hmem : (j, a) ∈ A) :
    BInv s0 maxo total T (buddy_free st a (j : Int)).1 (removeP A (j, a)) := by
  obtain ⟨hs, hm, ht, hl, hfr, hA, hpw⟩ := hinv
  obtain ⟨htn, hnz⟩ := hA (j, a) hmem
  obtain ⟨t, htT, hdt⟩ := htn
  have td1 : j ≤ t.1 := hdt.1
  have td2 : t.2 ≤ a := hdt.2.1
  have td3 : a + bb j ≤ t.2 + bb t.1 := hdt.2.2.1
  have hto : t.1 ≤ maxo := hwf.ord_le t htT
  have hlo : s0 ≤ t.2 := hwf.lo t htT
  have hhi : t.2 + bb t.1 ≤ s0 + total := hwf.hi t htT
  have hbp := bb_pos j
  have hnz2 : a ≠ 0 := hnz
  have hg1 : ¬ (a = 0 ∨ (j : Int) < 0 ∨ st.max_order < (j : Int)) := by
    push_neg
    exact ⟨hnz2, by omega, by omega⟩
  have hg2 : ¬ (a < st.start ∨ st.start + st.total_size ≤ a) := by
    push_neg
    rw [hs, ht]
    exact ⟨by omega, by omega⟩
  have hperm : List.Perm A ((j, a) :: removeP A (j, a)) := removeP_perm A (j, a) hmem
  have hmemiff : ∀ p : Nat × Nat, p ∈ A ↔ p ∈ (j, a) :: removeP A (j, a) :=
    fun p => hperm.mem_iff
  have hcaneq : canonicalMS T A = canonicalMS T ((j, a) :: removeP A (j, a)) :=
    canonicalMS_congr (fun t2 _ => nodeFree_ext t2.1 t2.2
      (fun q b _ _ => blockFree_congr hmemiff))
  have hpw2 : List.Pairwise Dj ((j, a) :: removeP A (j, a)) :=
    (hperm.pairwise_iff (fun h2 => dj_symm h2)).mp hpw
  obtain ⟨hhd, hpwe⟩ := List.pairwise_cons.mp hpw2
  have hbfa : BlockFree (removeP A (j, a)) j a := by
    intro q hq
    rcases hhd q hq with h | h
    · exact Or.inr (show a + bb j ≤ q.2 from h)
    · exact Or.inl (show q.2 + bb q.1 ≤ a from h)
  have hmt : st.max_order.toNat = maxo := by omega
  have hjt : ((j : Int)).toNat = j := by omega
  have hcs := coalesce_spec s0 maxo total T hmaxo hwf (removeP A (j, a))
    (maxo - j) st.free a j (by omega) hl (hfr.trans hcaneq) hbfa ⟨t, htT, hdt⟩
  obtain ⟨hcl, hco, hcan⟩ := hcs
  generalize hgen : coalesce s0 (maxo - j) st.free a j = r at hcl hco hcan
  have hres : buddy_free st a (j : Int) =
      ({ st with free := r.1.set r.2.2 (r.2.1 :: r.1.getD r.2.2 []) }, false) := by
    rw [buddy_free, if_neg hg1, if_neg hg2, hs, hmt, hjt, hgen]
  rw [hres]
  refine ⟨hs, hm, ht, ?_, ?_, ?_, hpwe⟩
  · show (r.1.set r.2.2 (r.2.1 :: r.1.getD r.2.2 [])).length = 16
    rw [List.length_set]
    exact hcl
  · show freeMS (r.1.set r.2.2 (r.2.1 :: r.1.getD r.2.2 [])) = canonicalMS T (removeP A (j, a))
    rw [freeMS_push _ _ _ (by omega)]
    exact hcan
  · intro p hp
    exact hA p (hmemiff p |>.mpr (List.mem_cons_of_mem _ hp))

/-- The inner placement loop: with fuel exactly remaining / bsize, it
    appends that many consecutive blocks (most recent first) and leaves
    address and remainder advanced accordingly. -/
theorem place_blocks_spec (bsize : Nat) (hb : 0 < bsize) :
    ∀ (k addr remaining : Nat) (lst : List Nat), remaining / bsize = k →
      ∃ L : List Nat,
        place_blocks k bsize addr remaining lst =
          (L ++ lst, addr + k * bsize, remaining % bsize) ∧
        (L : Multiset Nat) = ↑((List.range k).map (fun i => addr + i * bsize)) := by
  intro k
  induction k with
  | zero =>
    intro addr remaining lst hdiv
    have hrem : remaining < bsize := by
      by_contra h
      push_neg at h
      have := (Nat.one_le_div_iff hb).mpr h
      omega
    refine ⟨[], ?_, rfl⟩
    rw [place_blocks, Nat.mod_eq_of_lt hrem]
    simp
  | succ k ih =>
    intro addr remaining lst hdiv
    have hge : bsize ≤ remaining := by
      by_contra h
      push_neg at h
      rw [Nat.div_eq_of_lt h] at hdiv
      omega
    have hr : remaining % bsize < bsize := Nat.mod_lt _ hb
    have hexp : remaining = bsize * (k + 1) + remaining % bsize := by
      have hdm := Nat.div_add_mod remaining bsize
      rw [hdiv] at hdm
      omega
    have hsub : remaining - bsize = bsize * k + remaining % bsize := by
      have e : bsize * (k + 1) = bsize * k + bsize := by ring
      omega
    have hdiv2 : (remaining - bsize) / bsize = k := by
      rw [hsub, Nat.mul_add_div hb, Nat.div_eq_of_lt hr, Nat.add_zero]
    obtain ⟨L, hL1, hL2⟩ := ih (addr + bsize) (remaining - bsize) (addr :: lst) hdiv2
    refine ⟨L ++ [addr], ?_, ?_⟩
    · rw [place_blocks, if_pos hge, hL1]
      have e1 : L ++ addr :: lst = (L ++ [addr]) ++ lst := by simp
      have e2 : addr + bsize + k * bsize = addr + (k + 1) * bsize := by ring
      have e3 : (remaining - bsize) % bsize = remaining % bsize := by
        rw [hsub, Nat.mul_add_mod, Nat.mod_eq_of_lt hr]
      rw [e1, e2, e3]
    · rw [show ((L ++ [addr] : List Nat) : Multiset Nat) = ↑L + {addr} from by
        rw [← Multiset.coe_singleton]; exact (Multiset.coe_add _ _).symm]
      rw [hL2, List.range_succ_eq_map]
      simp only [List.map_cons, List.map_map]
      have hmc : (List.range k).map ((fun i => addr + i * bsize) ∘ Nat.succ) =
          (List.range k).map (fun i => addr + bsize + i * bsize) := by
        refine List.map_congr_left (fun i _ => ?_)
        show addr + (i + 1) * bsize = addr + bsize + i * bsize
        ring
      rw [hmc]
      rw [show addr + 0 * bsize = addr by ring]
      rw [show ((addr :: (List.range k).map (fun i => addr + bsize + i * bsize) : List Nat) :
        Multiset Nat) = addr ::ₘ ↑((List.range k).map (fun i => addr + bsize + i * bsize)) from
        rfl]
      rw [show (addr ::ₘ (↑((List.range k).map (fun i => addr + bsize + i * bsize)) :
        Multiset Nat)) = {addr} + ↑((List.range k).map (fun i => addr + bsize + i * bsize)) from
        (Multiset.singleton_add _ _).symm]
      abel

/-- Placement order: y was placed after x — it lies beyond x, at no
    larger an order, and orders repeat only at max order. -/
def PlaceR (maxo : Nat) (x y : Nat × Nat) : Prop :=
  x.2 + bb x.1 ≤ y.2 ∧ y.1 ≤ x.1 ∧ (y.1 = x.1 → x.1 = maxo)

theorem pairwise_elem {α : Type} (R : α → α → Prop) :
    ∀ (l : List α), l.Pairwise R → ∀ x ∈ l, ∀ y ∈ l, x = y ∨ R x y ∨ R y x := by
  intro l
  induction l with
  | nil =>
    intro _ x hx
    cases hx
  | cons a t ih =>
    intro hpw x hx y hy
    obtain ⟨hhd, hpw2⟩ := List.pairwise_cons.mp hpw
    rcases List.mem_cons.mp hx with rfl | hx2
    · rcases List.mem_cons.mp hy with rfl | hy2
      · exact Or.inl rfl
      · exact Or.inr (Or.inl (hhd y hy2))
    · rcases List.mem_cons.mp hy with rfl | hy2
      · exact Or.inr (Or.inr (hhd x hx2))
      · exact ih hpw2 x hx2 y hy2

theorem segment_pairwise (maxo o addr kk bsz : Nat) (hbz : bb o = bsz)
    (hcase : o = maxo ∨ kk ≤ 1) :
    ((List.range kk).map (fun i => (o, addr + i * bsz))).Pairwise (PlaceR maxo) := by
  rcases hcase with heq | hk
  · refine List.pairwise_map.mpr ?_
    refine List.Pairwise.imp ?_ (List.pairwise_lt_range kk)
    intro i j hij
    refine ⟨?_, le_refl _, fun _ => heq⟩
    show addr + i * bsz + bb o ≤ addr + j * bsz
    rw [hbz]
    have e : (i + 1) * bsz = i * bsz + bsz := by ring
    have hle : (i + 1) * bsz ≤ j * bsz := Nat.mul_le_mul_right _ (by omega)
    omega
  · have hk2 : kk = 0 ∨ kk = 1 := by omega
    rcases hk2 with rfl | rfl
    · simp
    · rw [show List.range 1 = [0] from rfl, List.map_cons, List.map_nil]
      exact List.pairwise_singleton _ _

/-- The descending placement loop of buddy_init: starting at order o with
    the stated alignment, it adds a well-ordered forest of top blocks
    covering [addr, addr + remaining) up to a sub-page tail. -/
theorem init_place_spec (s0 maxo : Nat) (hm15 : maxo ≤ 15) :
    ∀ (o : Nat) (free : List (List Nat)) (addr remaining : Nat),
      o ≤ maxo →
      free.length = 16 →
      s0 ≤ addr →
      bb o ∣ (addr - s0) →
      (o < maxo → bb (o + 1) ∣ (addr - s0)) →
      (o < maxo → remaining < bb (o + 1)) →
      ∃ TN : List (Nat × Nat),
        (init_place o free addr remaining).1.length = 16 ∧
        freeMS (init_place o free addr remaining).1 = freeMS free + ↑TN ∧
        TN.Pairwise (PlaceR maxo) ∧
        (∀ t ∈ TN, t.1 ≤ o ∧ addr ≤ t.2 ∧ t.2 + bb t.1 ≤ addr + remaining ∧
          bb t.1 ∣ (t.2 - s0) ∧ (t.1 < maxo → bb (t.1 + 1) ∣ (t.2 - s0))) := by
  have hbsp : (0 : Nat) < BLOCK_SIZE := by decide
  intro o
  induction o with
  | zero =>
    intro free addr remaining h0 hlen hsa hd1 hd2 hrem
    have hb0 : bb 0 = BLOCK_SIZE := by
      show 2 ^ 0 * BLOCK_SIZE = BLOCK_SIZE
      norm_num
    obtain ⟨L, hL1, hL2⟩ := place_blocks_spec BLOCK_SIZE hbsp (remaining / BLOCK_SIZE)
      addr remaining (free.getD 0 []) rfl
    have hinit : init_place 0 free addr remaining =
        (free.set 0 (L ++ free.getD 0 []),
          addr + remaining / BLOCK_SIZE * BLOCK_SIZE, remaining % BLOCK_SIZE) := by
      rw [init_place, hL1]
    refine ⟨(List.range (remaining / BLOCK_SIZE)).map
      (fun i => (0, addr + i * BLOCK_SIZE)), ?_, ?_, ?_, ?_⟩
    · rw [hinit]
      show (free.set 0 (L ++ free.getD 0 [])).length = 16
      rw [List.length_set]
      exact hlen
    · rw [hinit]
      show freeMS (free.set 0 (L ++ free.getD 0 [])) = _
      have hkey := freeMS_set_eq free 0 (L ++ free.getD 0 []) (by omega)
      rw [show ((L ++ free.getD 0 [] : List Nat) : Multiset Nat) = ↑L + ↑(free.getD 0 [])
        from (Multiset.coe_add _ _).symm, Multiset.map_add] at hkey
      have hkey2 : freeMS (free.set 0 (L ++ free.getD 0 [])) +
          Multiset.map (fun a => (0, a)) ↑(free.getD 0 []) =
          (freeMS free + Multiset.map (fun a => (0, a)) ↑L) +
            Multiset.map (fun a => (0, a)) ↑(free.getD 0 []) := by
        rw [hkey]
        abel
      have hmap : Multiset.map (fun a => ((0 : Nat), a)) (↑L : Multiset Nat) =
          ↑((List.range (remaining / BLOCK_SIZE)).map (fun i => ((0 : Nat), addr + i * BLOCK_SIZE))) := by
        rw [hL2, Multiset.map_coe, List.map_map]
        exact congrArg _ (List.map_congr_left (fun i _ => rfl))
      rw [← hmap]
      exact add_right_cancel hkey2
    · exact segment_pairwise maxo 0 addr (remaining / BLOCK_SIZE) BLOCK_SIZE hb0
        (by rcases Nat.eq_zero_or_pos maxo with h | h
            · exact Or.inl (by omega)
            · right
              have := hrem h
              have hdb : remaining / BLOCK_SIZE < 2 := by
                refine Nat.div_lt_of_lt_mul ?_
                have hb1 : bb (0 + 1) = 2 * BLOCK_SIZE := by
                  show 2 ^ (0 + 1) * BLOCK_SIZE = 2 * BLOCK_SIZE
                  norm_num
                omega
              omega)
    · intro t ht
      obtain ⟨i, hi, heq⟩ := List.mem_map.mp ht
      have hik : i < remaining / BLOCK_SIZE := List.mem_range.mp hi
      subst heq
      have hdml : remaining / BLOCK_SIZE * BLOCK_SIZE ≤ remaining := Nat.div_mul_le_self _ _
      have hmul : (i + 1) * BLOCK_SIZE ≤ remaining / BLOCK_SIZE * BLOCK_SIZE :=
        Nat.mul_le_mul_right _ (by omega)
      have he : (i + 1) * BLOCK_SIZE = i * BLOCK_SIZE + BLOCK_SIZE := by ring
      refine ⟨le_refl _, by show addr ≤ addr + i * BLOCK_SIZE; omega, ?_, ?_, ?_⟩
      · show addr + i * BLOCK_SIZE + bb 0 ≤ addr + remaining
        rw [hb0]
        omega
      · show bb 0 ∣ (addr + i * BLOCK_SIZE - s0)
        rw [show addr + i * BLOCK_SIZE - s0 = (addr - s0) + i * BLOCK_SIZE by omega]
        exact Nat.dvd_add hd1 (by rw [hb0]; exact ⟨i, by ring⟩)
      · intro hlt
        show bb (0 + 1) ∣ (addr + i * BLOCK_SIZE - s0)
        have h0m : 0 < maxo := hlt
        have hkk : remaining / BLOCK_SIZE ≤ 1 := by
          have := hrem h0m
          have hb1 : bb (0 + 1) = 2 * BLOCK_SIZE := by
            show 2 ^ (0 + 1) * BLOCK_SIZE = 2 * BLOCK_SIZE
            norm_num
          have hdb : remaining / BLOCK_SIZE < 2 := Nat.div_lt_of_lt_mul (by omega)
          omega
        have hi0 : i = 0 := by omega
        subst hi0
        rw [show addr + 0 * BLOCK_SIZE - s0 = addr - s0 by ring_nf]
        exact hd2 h0m
  | succ o ih =>
    intro free addr remaining h0 hlen hsa hd1 hd2 hrem
    have hbz : bb (o + 1) = 2 ^ (o + 1) * BLOCK_SIZE := rfl
    have hbzp : (0 : Nat) < 2 ^ (o + 1) * BLOCK_SIZE := by positivity
    obtain ⟨L, hL1, hL2⟩ := place_blocks_spec (2 ^ (o + 1) * BLOCK_SIZE) hbzp
      (remaining / (2 ^ (o + 1) * BLOCK_SIZE)) addr remaining (free.getD (o + 1) []) rfl
    have hinit : init_place (o + 1) free addr remaining =
        init_place o (free.set (o + 1) (L ++ free.getD (o + 1) []))
          (addr + remaining / (2 ^ (o + 1) * BLOCK_SIZE) * (2 ^ (o + 1) * BLOCK_SIZE))
          (remaining % (2 ^ (o + 1) * BLOCK_SIZE)) := by
      rw [init_place, hL1]
    have hkkle : remaining / (2 ^ (o + 1) * BLOCK_SIZE) * (2 ^ (o + 1) * BLOCK_SIZE) ≤
        remaining := Nat.div_mul_le_self _ _
    have hdvd_seg : bb (o + 1) ∣
        remaining / (2 ^ (o + 1) * BLOCK_SIZE) * (2 ^ (o + 1) * BLOCK_SIZE) := by
      rw [hbz]
      exact ⟨remaining / (2 ^ (o + 1) * BLOCK_SIZE), by ring⟩
    have hlen2 : (free.set (o + 1) (L ++ free.getD (o + 1) [])).length = 16 := by
      rw [List.length_set]
      exact hlen
    obtain ⟨TN2, ih1, ih2, ih3, ih4⟩ := ih (free.set (o + 1) (L ++ free.getD (o + 1) []))
      (addr + remaining / (2 ^ (o + 1) * BLOCK_SIZE) * (2 ^ (o + 1) * BLOCK_SIZE))
      (remaining % (2 ^ (o + 1) * BLOCK_SIZE))
      (by omega) hlen2 (by omega)
      (by
        rw [show addr + remaining / (2 ^ (o + 1) * BLOCK_SIZE) * (2 ^ (o + 1) * BLOCK_SIZE) -
          s0 = (addr - s0) + remaining / (2 ^ (o + 1) * BLOCK_SIZE) *
            (2 ^ (o + 1) * BLOCK_SIZE) by omega]
        exact Nat.dvd_add (dvd_trans (bb_dvd (by omega)) hd1)
          (dvd_trans (bb_dvd (by omega)) hdvd_seg))
      (by
        intro hlt
        rw [show addr + remaining / (2 ^ (o + 1) * BLOCK_SIZE) * (2 ^ (o + 1) * BLOCK_SIZE) -
          s0 = (addr - s0) + remaining / (2 ^ (o + 1) * BLOCK_SIZE) *
            (2 ^ (o + 1) * BLOCK_SIZE) by omega]
        exact Nat.dvd_add hd1 hdvd_seg)
      (by
        intro _
        rw [hbz]
        exact Nat.mod_lt _ hbzp)
    refine ⟨(List.range (remaining / (2 ^ (o + 1) * BLOCK_SIZE))).map
      (fun i => (o + 1, addr + i * (2 ^ (o + 1) * BLOCK_SIZE))) ++ TN2, ?_, ?_, ?_, ?_⟩
    · rw [hinit]
      exact ih1
    · rw [hinit, ih2]
      have hkey := freeMS_set_eq free (o + 1) (L ++ free.getD (o + 1) []) (by omega)
      rw [show ((L ++ free.getD (o + 1) [] : List Nat) : Multiset Nat) =
        ↑L + ↑(free.getD (o + 1) []) from (Multiset.coe_add _ _).symm,
        Multiset.map_add] at hkey
      have hset : freeMS (free.set (o + 1) (L ++ free.getD (o + 1) [])) =
          freeMS free + Multiset.map (fun a => (o + 1, a)) ↑L := by
        have hkey2 : freeMS (free.set (o + 1) (L ++ free.getD (o + 1) [])) +
            Multiset.map (fun a => (o + 1, a)) ↑(free.getD (o + 1) []) =
            (freeMS free + Multiset.map (fun a => (o + 1, a)) ↑L) +
              Multiset.map (fun a => (o + 1, a)) ↑(free.getD (o + 1) []) := by
          rw [hkey]
          abel
        exact add_right_cancel hkey2
      have hmap : Multiset.map (fun a => ((o + 1 : Nat), a)) (↑L : Multiset Nat) =
          ↑((List.range (remaining / (2 ^ (o + 1) * BLOCK_SIZE))).map
            (fun i => ((o + 1 : Nat), addr + i * (2 ^ (o + 1) * BLOCK_SIZE)))) := by
        rw [hL2, Multiset.map_coe, List.map_map]
        exact congrArg _ (List.map_congr_left (fun i _ => rfl))
      rw [hset, hmap, ← Multiset.coe_add]
      abel
    · rw [List.pairwise_append]
      refine ⟨?_, ih3, ?_⟩
      · refine segment_pairwise maxo (o + 1) addr _ _ hbz ?_
        rcases Nat.lt_or_ge (o + 1) maxo with h | h
        · right
          have := hrem h
          have hb2 : bb (o + 1 + 1) = 2 * (2 ^ (o + 1) * BLOCK_SIZE) := by
            show 2 ^ (o + 1 + 1) * BLOCK_SIZE = 2 * (2 ^ (o + 1) * BLOCK_SIZE)
            rw [pow_succ]
            ring
          have hdb : remaining / (2 ^ (o + 1) * BLOCK_SIZE) < 2 :=
            Nat.div_lt_of_lt_mul (by omega)
          omega
        · exact Or.inl (by omega)
      · intro x hx y hy
        obtain ⟨i, hi, heq⟩ := List.mem_map.mp hx
        have hik : i < remaining / (2 ^ (o + 1) * BLOCK_SIZE) := List.mem_range.mp hi
        subst heq
        obtain ⟨hy1, hy2, hy3, hy4, hy5⟩ := ih4 y hy
        have hmul : (i + 1) * (2 ^ (o + 1) * BLOCK_SIZE) ≤
            remaining / (2 ^ (o + 1) * BLOCK_SIZE) * (2 ^ (o + 1) * BLOCK_SIZE) :=
          Nat.mul_le_mul_right _ (by omega)
        have he : (i + 1) * (2 ^ (o + 1) * BLOCK_SIZE) =
            i * (2 ^ (o + 1) * BLOCK_SIZE) + (2 ^ (o + 1) * BLOCK_SIZE) := by ring
        refine ⟨?_, by omega, ?_⟩
        · show addr + i * (2 ^ (o + 1) * BLOCK_SIZE) + bb (o + 1) ≤ y.2
          rw [hbz]
          omega
        · intro hyx
          exact absurd hyx (by omega)
    · intro t ht
      rcases List.mem_append.mp ht with hseg | hrec
      · obtain ⟨i, hi, heq⟩ := List.mem_map.mp hseg
        have hik : i < remaining / (2 ^ (o + 1) * BLOCK_SIZE) := List.mem_range.mp hi
        subst heq
        have hmul : (i + 1) * (2 ^ (o + 1) * BLOCK_SIZE) ≤
            remaining / (2 ^ (o + 1) * BLOCK_SIZE) * (2 ^ (o + 1) * BLOCK_SIZE) :=
          Nat.mul_le_mul_right _ (by omega)
        have he : (i + 1) * (2 ^ (o + 1) * BLOCK_SIZE) =
            i * (2 ^ (o + 1) * BLOCK_SIZE) + (2 ^ (o + 1) * BLOCK_SIZE) := by ring
        refine ⟨le_refl _, by show addr ≤ addr + i * (2 ^ (o + 1) * BLOCK_SIZE); omega,
          ?_, ?_, ?_⟩
        · show addr + i * (2 ^ (o + 1) * BLOCK_SIZE) + bb (o + 1) ≤ addr + remaining
          rw [hbz]
          omega
        · show bb (o + 1) ∣ (addr + i * (2 ^ (o + 1) * BLOCK_SIZE) - s0)
          rw [show addr + i * (2 ^ (o + 1) * BLOCK_SIZE) - s0 =
            (addr - s0) + i * (2 ^ (o + 1) * BLOCK_SIZE) by omega]
          exact Nat.dvd_add hd1 (by rw [hbz]; exact ⟨i, by ring⟩)
        · intro hlt
          show bb (o + 1 + 1) ∣ (addr + i * (2 ^ (o + 1) * BLOCK_SIZE) - s0)
          have hb2 : bb (o + 1 + 1) = 2 * (2 ^ (o + 1) * BLOCK_SIZE) := by
            show 2 ^ (o + 1 + 1) * BLOCK_SIZE = 2 * (2 ^ (o + 1) * BLOCK_SIZE)
            rw [pow_succ]
            ring
          have hkk : remaining / (2 ^ (o + 1) * BLOCK_SIZE) ≤ 1 := by
            have := hrem hlt
            have hdb : remaining / (2 ^ (o + 1) * BLOCK_SIZE) < 2 :=
              Nat.div_lt_of_lt_mul (by omega)
            omega
          have hi0 : i = 0 := by omega
          subst hi0
          rw [show addr + 0 * (2 ^ (o + 1) * BLOCK_SIZE) - s0 = addr - s0 by ring_nf]
          exact hd2 hlt
      · obtain ⟨hy1, hy2, hy3, hy4, hy5⟩ := ih4 t hrec
        have hgk : remaining / (2 ^ (o + 1) * BLOCK_SIZE) * (2 ^ (o + 1) * BLOCK_SIZE) +
            remaining % (2 ^ (o + 1) * BLOCK_SIZE) = remaining := by
          rw [Nat.mul_comm]
          exact Nat.div_add_mod _ _
        refine ⟨by omega, by omega, by omega, hy4, hy5⟩

theorem find_max_ord_go_le (total : Nat) : ∀ m : Nat, find_max_ord_go total m ≤ (m : Int) := by
  intro m
  induction m with
  | zero =>
    rw [find_max_ord_go]
    by_cases h : BLOCK_SIZE ≤ total
    · rw [if_pos h]
      omega
    · rw [if_neg h]
      omega
  | succ m ih =>
    rw [find_max_ord_go]
    by_cases h : 2 ^ (m + 1) * BLOCK_SIZE ≤ total
    · rw [if_pos h]
    · rw [if_neg h]
      have : (m : Int) ≤ ((m + 1 : Nat) : Int) := by push_cast; omega
      omega

/-- buddy_init with a usable region establishes the canonical-form
    invariant for a well-formed top forest. -/
theorem buddy_init_binv (startA endA : Nat)
    (hmo : 0 ≤ (buddy_init startA endA).max_order) :
    ∃ (s0 maxo total : Nat) (T : List (Nat × Nat)), maxo ≤ 15 ∧
      TopsWF s0 maxo total T ∧ BInv s0 maxo total T (buddy_init startA endA) [] := by
  by_cases hneg : find_max_ord ((endA + 2 ^ 64 - PGROUNDUP startA) % 2 ^ 64) < 0
  · exfalso
    have hm : (buddy_init startA endA).max_order = -1 := by
      rw [buddy_init, if_pos hneg]
    omega
  · push_neg at hneg
    have hini : buddy_init startA endA =
        { free := (init_place (find_max_ord ((endA + 2 ^ 64 - PGROUNDUP startA) % 2 ^ 64)).toNat
            (List.replicate 16 ([] : List Nat)) (PGROUNDUP startA)
            ((endA + 2 ^ 64 - PGROUNDUP startA) % 2 ^ 64)).1,
          start := PGROUNDUP startA,
          total_size := (endA + 2 ^ 64 - PGROUNDUP startA) % 2 ^ 64,
          max_order := find_max_ord ((endA + 2 ^ 64 - PGROUNDUP startA) % 2 ^ 64) } := by
      rw [buddy_init, if_neg (by omega)]
    have hm15 : (find_max_ord ((endA + 2 ^ 64 - PGROUNDUP startA) % 2 ^ 64)).toNat ≤ 15 := by
      have := find_max_ord_go_le ((endA + 2 ^ 64 - PGROUNDUP startA) % 2 ^ 64) 15
      rw [show find_max_ord ((endA + 2 ^ 64 - PGROUNDUP startA) % 2 ^ 64) =
        find_max_ord_go ((endA + 2 ^ 64 - PGROUNDUP startA) % 2 ^ 64) 15 from rfl] at hneg ⊢
      omega
    obtain ⟨TN, hp1, hp2, hp3, hp4⟩ := init_place_spec (PGROUNDUP startA)
      (find_max_ord ((endA + 2 ^ 64 - PGROUNDUP startA) % 2 ^ 64)).toNat hm15
      (find_max_ord ((endA + 2 ^ 64 - PGROUNDUP startA) % 2 ^ 64)).toNat
      (List.replicate 16 ([] : List Nat)) (PGROUNDUP startA)
      ((endA + 2 ^ 64 - PGROUNDUP startA) % 2 ^ 64)
      (le_refl _) (List.length_replicate 16 _) (le_refl _)
      (by rw [Nat.sub_self]; exact dvd_zero _)
      (fun h => absurd h (lt_irrefl _))
      (fun h => absurd h (lt_irrefl _))
    refine ⟨PGROUNDUP startA, (find_max_ord ((endA + 2 ^ 64 - PGROUNDUP startA) % 2 ^ 64)).toNat,
      (endA + 2 ^ 64 - PGROUNDUP startA) % 2 ^ 64, TN, hm15, ?_, ?_⟩
    · refine ⟨?_, ?_, ?_, ?_, ?_, ?_, ?_⟩
      · intro t ht
        exact (hp4 t ht).1
      · intro t ht
        exact (hp4 t ht).2.1
      · intro t ht
        exact (hp4 t ht).2.2.1
      · intro t ht
        exact (hp4 t ht).2.2.2.1
      · intro t ht
        exact (hp4 t ht).2.2.2.2
      · exact hp3.imp (fun h => Or.inl h.1)
      · intro t ht t2 ht2 hlt hne hle
        rcases pairwise_elem (PlaceR _) TN hp3 t ht t2 ht2 with heq | hR | hR
        · exact absurd heq.symm hne
        · obtain ⟨hr1, hr2, hr3⟩ := hR
          have : t2.1 = t.1 := by omega
          exact absurd (hr3 this) (by omega)
        · exact hR.1
    · rw [hini]
      refine ⟨rfl, ?_, rfl, hp1, ?_, ?_, List.Pairwise.nil⟩
      · show find_max_ord ((endA + 2 ^ 64 - PGROUNDUP startA) % 2 ^ 64) =
          ((find_max_ord ((endA + 2 ^ 64 - PGROUNDUP startA) % 2 ^ 64)).toNat : Int)
        omega
      · show freeMS (init_place _ _ _ _).1 = canonicalMS TN []
        rw [hp2, canonicalMS_no_allocs]
        have hz : freeMS (List.replicate 16 ([] : List Nat)) = 0 := rfl
        rw [hz, zero_add]
      · intro p hp
        cases hp

theorem breach_binv (s0 maxo total : Nat) (T : List (Nat × Nat)) (st0 : BuddyState)
    (hmaxo : maxo ≤ 15) (hwf : TopsWF s0 maxo total T)
    (h0 : BInv s0 maxo total T st0 []) :
    ∀ (st : BuddyState) (A : List (Nat × Nat)), BReach st0 st A →
      BInv s0 maxo total T st A := by
  intro st A h
  induction h with
  | init => exact h0
  | alloc st A o hr hnz ih => exact binv_alloc s0 maxo total T st A o hmaxo hwf ih hnz
  | free st A j a hr hm ih => exact binv_free s0 maxo total T st A j a hmaxo hwf ih hm

theorem breach_disabled (st0 : BuddyState) (hneg : st0.max_order < 0) :
    ∀ (st : BuddyState) (A : List (Nat × Nat)), BReach st0 st A → st = st0 := by
  intro st A h
  induction h with
  | init => rfl
  | alloc st A o hr hnz ih =>
    exfalso
    apply hnz
    have hz : buddy_alloc st o = (st, 0) := by
      rw [buddy_alloc, if_pos ?_]
      rcases Int.lt_or_le o 0 with h | h
      · exact Or.inl h
      · right
        rw [ih]
        omega
    rw [hz]
  | free st A j a hr hm ih =>
    have hz : buddy_free st a (j : Int) = (st, false) := by
      rw [buddy_free, if_pos ?_]
      right
      right
      rw [ih]
      omega
    rw [hz]
    exact ih

/-- C3: buddy round-trip.  For any region handed to buddy_init and any
    interleaving of successful buddy_alloc calls with buddy_free calls
    that return each outstanding block exactly once at its allocation
    order, once every allocation has been freed the free lists agree
    with the post-init free lists as a multiset of (order, address)
    pairs. -/
theorem c3_buddy_round_trip (startA endA : Nat) (st : BuddyState) (A : List (Nat × Nat))
    (h : BReach (buddy_init startA endA) st A) (hA : A = []) :
    freeMS st.free = freeMS (buddy_init startA endA).free := by
  subst hA
  by_cases hmo : (buddy_init startA endA).max_order < 0
  · rw [breach_disabled _ hmo st [] h]
  · push_neg at hmo
    obtain ⟨s0, maxo, total, T, hm15, hwf, h0⟩ := buddy_init_binv startA endA hmo
    have hst := breach_binv s0 maxo total T _ hm15 hwf h0 st [] h
    have h1 : freeMS st.free = canonicalMS T [] := hst.2.2.2.2.1
    have h2 : freeMS (buddy_init startA endA).free = canonicalMS T [] := h0.2.2.2.2.1
    rw [h1, h2]

/-- C3 witness: on the buddy allocator over [4096, 36864), allocating one
    page and freeing it restores the post-init free-list multiset. -/
theorem c3_buddy_round_trip_witness :
    freeMS ((buddy_free (buddy_alloc (buddy_init 4096 36864) 0).1
        (buddy_alloc (buddy_init 4096 36864) 0).2 ((0 : Int).toNat : Int)).1).free =
      freeMS (buddy_init 4096 36864).free := by
  have h1 : BReach (buddy_init 4096 36864) (buddy_alloc (buddy_init 4096 36864) 0).1
      [((0 : Int).toNat, (buddy_alloc (buddy_init 4096 36864) 0).2)] :=
    BReach.alloc _ _ 0 BReach.init (by decide)
  have h2 := BReach.free _ _ ((0 : Int).toNat) ((buddy_alloc (buddy_init 4096 36864) 0).2)
    h1 (List.mem_cons_self _ _)
  exact c3_buddy_round_trip 4096 36864 _ _ h2 (by rw [removeP, if_pos rfl])
